import Mathlib

/-!
Verification of the event-title parsing and classification engine of the
`wsb-ratownictwo-2025` ICS schedule analyzer.

The development shallowly embeds the two Python modules:

* `ics_analyzer_simple.py` (`SimpleICSAnalyzer`): functions are prefixed
  plainly (`parse_event_title`, `categorize_location`,
  `calculate_duration_minutes`, `process_simple_event`).
* `ics_analyzer.py` (`ICSAnalyzer`): functions are prefixed with `ics_`.

Strings are modelled as `List Char`.  The Python regular expressions used by
`parse_event_title` are embedded by dedicated matchers that reproduce
`re.match` semantics for the exact patterns in the source: lazy `(.+?)`
groups scan left to right and backtrack into the continuation, greedy `\s*`
prefers the longest whitespace run and backtracks, `.` matches any character
except a newline, and `$` matches at the end of the string (or before a
final trailing newline).  Python whitespace (`\s`, `str.strip`) and
`str.isdigit`/`int` are modelled over their ASCII part; no claim depends on
non-ASCII whitespace or digits.
-/

/-- Python `\s` / `str.isspace` over its ASCII range. -/
def isPySpace (c : Char) : Bool :=
  c = ' ' || c = '\t' || c = '\n' || c = '\r' || c = '\x0b' || c = '\x0c'

/-- Consume a greedy `\s*` that is followed by a non-whitespace literal. -/
def dropWs (s : List Char) : List Char := s.dropWhile isPySpace

/-- Length of the leading whitespace run (number of positions `\s*` can eat). -/
def countWs (s : List Char) : Nat := (s.takeWhile isPySpace).length

/-- Remove trailing whitespace. -/
def rdropWs (s : List Char) : List Char := (s.reverse.dropWhile isPySpace).reverse

/-- Python `str.strip()` (ASCII whitespace). -/
def pyStrip (s : List Char) : List Char := rdropWs (dropWs s)

/-- Python `str.lower()`; `Char.toLower` covers the ASCII letters, which is
all the classifier keywords use. -/
def pyLower (s : List Char) : List Char := s.map Char.toLower

/-- Python's substring test `needle in hay`. -/
def containsSub (needle : List Char) : List Char → Bool
  | [] => needle.isEmpty
  | c :: t => needle.isPrefixOf (c :: t) || containsSub needle t

/-- Match a literal; on success return the remaining input. -/
def matchLit : List Char → List Char → Option (List Char)
  | [], s => some s
  | _ :: _, [] => none
  | c :: cs, d :: ds => if c = d then matchLit cs ds else none

/-- Python falsiness test for an `Optional[str]` (`None` and `""` are falsy). -/
def pyTruthy : Option String → Bool
  | none => false
  | some s => !s.toList.isEmpty

/-- The trailing `(.+)$` of the full patterns: a greedy non-newline group
followed by the end anchor (`$` also matches just before one final
newline). -/
def dotPlusEnd (s : List Char) : Option (List Char) :=
  match s with
  | [] => none
  | _ :: _ =>
    if s.contains '\n' then
      if s.getLast? = some '\n' ∧ ¬ s.dropLast.contains '\n' ∧ s.dropLast ≠ [] then
        some s.dropLast
      else none
    else some s

/-- `\s*(.+)$`: the greedy `\s*` tries the longest whitespace run first and
backtracks one character at a time. -/
def roomAfterAux (s : List Char) : Nat → Option (List Char)
  | 0 => dotPlusEnd s
  | j + 1 =>
    match dotPlusEnd (s.drop (j + 1)) with
    | some r => some r
    | none => roomAfterAux s j

def roomAfter (s : List Char) : Option (List Char) := roomAfterAux s (countWs s)

/-- `\s*Sala:\s*(.+)$`, entered just after the comma that ends the lazy
instructor group. -/
def roomPart (s : List Char) : Option (List Char) :=
  match matchLit "Sala:".toList (dropWs s) with
  | some s2 => roomAfter s2
  | none => none

/-- The lazy `(.+?),` instructor group: it stops at the first comma whose
continuation (`\s*Sala:\s*(.+)$`) matches, otherwise the comma is absorbed
into the group and scanning continues; `.` never crosses a newline. -/
def scanInstr (acc : List Char) : List Char → Option (List Char × List Char)
  | [] => none
  | c :: rest =>
    if c = ',' ∧ acc ≠ [] then
      match roomPart rest with
      | some room => some (acc.reverse, room)
      | none => scanInstr (c :: acc) rest
    else if c = '\n' then none
    else scanInstr (c :: acc) rest

/-- `\s*(.+?),...`: the greedy `\s*` before the lazy instructor group,
longest run first, backtracking on failure. -/
def instrRoomAux (s : List Char) : Nat → Option (List Char × List Char)
  | 0 => scanInstr [] s
  | j + 1 =>
    match scanInstr [] (s.drop (j + 1)) with
    | some v => some v
    | none => instrRoomAux s j

def instrRoom (s : List Char) : Option (List Char × List Char) :=
  instrRoomAux s (countWs s)

/-- `\s*-\s*Prowadzący:\s*(.+?),\s*Sala:\s*(.+)$`, the common suffix of the
four full-form patterns; returns the instructor and room groups. -/
def fullSuffix (s : List Char) : Option (List Char × List Char) :=
  match dropWs s with
  | '-' :: s2 =>
    match matchLit "Prowadzący:".toList (dropWs s2) with
    | some s3 => instrRoom s3
    | none => none
  | _ => none

/-- The `([WL]|E-CW)\)` alternation of pattern 1, entered just after `(`;
returns the captured tag and the input after `)`. -/
def tagP1 (s : List Char) : Option (String × List Char) :=
  match matchLit ['W', ')'] s with
  | some r => some ("W", r)
  | none =>
    match matchLit ['L', ')'] s with
    | some r => some ("L", r)
    | none =>
      match matchLit ['E', '-', 'C', 'W', ')'] s with
      | some r => some ("E-CW", r)
      | none => none

/-- The lazy `^(.+?)\s*\(` subject scan shared by every pattern: the group
grows one character at a time (never across a newline); after it a greedy
`\s*` and a literal `(` must follow, and the rest of the pattern is the
continuation `after`.  On failure of the continuation the scan resumes with
a longer subject. -/
def scanSubject {α : Type} (after : List Char → List Char → Option α) :
    List Char → List Char → Option α
  | _, [] => none
  | acc, c :: rest =>
    if c = '\n' then none
    else
      match dropWs rest with
      | '(' :: r2 =>
        match after (c :: acc).reverse r2 with
        | some v => some v
        | none => scanSubject after (c :: acc) rest
      | _ => scanSubject after (c :: acc) rest

/-- Continuation of pattern 1
`^(.+?)\s*\(([WL]|E-CW)\)\s*-\s*Prowadzący:\s*(.+?),\s*Sala:\s*(.+)$`. -/
def afterFull1 (subj rest : List Char) :
    Option (List Char × String × List Char × List Char) :=
  match tagP1 rest with
  | some (ty, r2) =>
    match fullSuffix r2 with
    | some (i, rm) => some (subj, ty, i, rm)
    | none => none
  | none => none

/-- Continuation of the full patterns 2–4, whose tag is a fixed literal
(`E-W`, `E-ĆW`, `ĆW`). -/
def afterFullLit (tagLit : List Char) (subj rest : List Char) :
    Option (List Char × List Char × List Char) :=
  match matchLit (tagLit ++ [')']) rest with
  | some r2 =>
    match fullSuffix r2 with
    | some (i, rm) => some (subj, i, rm)
    | none => none
  | none => none

/-- Continuation of the simple fallback pattern `^(.+?)\s*\(([WL]|E-CW)\)`
(anything may follow the closing parenthesis). -/
def afterSimple1 (subj rest : List Char) : Option (List Char × String) :=
  match tagP1 rest with
  | some (ty, _) => some (subj, ty)
  | none => none

/-- Continuation of the simple fallback patterns with a literal tag. -/
def afterSimpleLit (tagLit : List Char) (subj rest : List Char) :
    Option (List Char) :=
  match matchLit (tagLit ++ [')']) rest with
  | some _ => some subj
  | none => none

/-- `SimpleICSAnalyzer.parse_event_title` (ics_analyzer_simple.py, lines
52–118): strips the title, tries the four full patterns then the four simple
fallback patterns in source order, normalizing `E-W → W`, `E-ĆW → E-CW`,
`ĆW → L`, and returns the four optional fields, each `.strip()`-ed. -/
def parse_event_title (title : String) :
    Option String × Option String × Option String × Option String :=
  let t := pyStrip title.toList
  match scanSubject afterFull1 [] t with
  | some (s, ty, i, r) =>
    (some (String.mk (pyStrip s)), some ty,
     some (String.mk (pyStrip i)), some (String.mk (pyStrip r)))
  | none =>
  match scanSubject (afterFullLit "E-W".toList) [] t with
  | some (s, i, r) =>
    (some (String.mk (pyStrip s)), some "W",
     some (String.mk (pyStrip i)), some (String.mk (pyStrip r)))
  | none =>
  match scanSubject (afterFullLit "E-ĆW".toList) [] t with
  | some (s, i, r) =>
    (some (String.mk (pyStrip s)), some "E-CW",
     some (String.mk (pyStrip i)), some (String.mk (pyStrip r)))
  | none =>
  match scanSubject (afterFullLit "ĆW".toList) [] t with
  | some (s, i, r) =>
    (some (String.mk (pyStrip s)), some "L",
     some (String.mk (pyStrip i)), some (String.mk (pyStrip r)))
  | none =>
  match scanSubject afterSimple1 [] t with
  | some (s, ty) => (some (String.mk (pyStrip s)), some ty, none, none)
  | none =>
  match scanSubject (afterSimpleLit "E-W".toList) [] t with
  | some s => (some (String.mk (pyStrip s)), some "W", none, none)
  | none =>
  match scanSubject (afterSimpleLit "E-ĆW".toList) [] t with
  | some s => (some (String.mk (pyStrip s)), some "E-CW", none, none)
  | none =>
  match scanSubject (afterSimpleLit "ĆW".toList) [] t with
  | some s => (some (String.mk (pyStrip s)), some "L", none, none)
  | none => (none, none, none, none)

/-- `ICSAnalyzer.parse_event_title` (ics_analyzer.py, lines 49–76): only the
standard pattern and its simple fallback, tag alternation `[WL]|E-CW`. -/
def ics_parse_event_title (title : String) :
    Option String × Option String × Option String × Option String :=
  let t := pyStrip title.toList
  match scanSubject afterFull1 [] t with
  | some (s, ty, i, r) =>
    (some (String.mk (pyStrip s)), some ty,
     some (String.mk (pyStrip i)), some (String.mk (pyStrip r)))
  | none =>
  match scanSubject afterSimple1 [] t with
  | some (s, ty) => (some (String.mk (pyStrip s)), some ty, none, none)
  | none => (none, none, none, none)

/-- The four location-category strings used by `categorize_location`
(`'teams'`, `'moodle'`, `'uczelnia'`, `'inne_lokalizacje'`), as a closed
enumeration. -/
inductive LocCat where
  | teams
  | moodle
  | uczelnia
  | inne_lokalizacje
deriving DecidableEq, Repr

/-- `SimpleICSAnalyzer.categorize_location` (ics_analyzer_simple.py, lines
120–136).  `if not room` covers both `None` and the empty string; the
building-code heuristic uses the letters `a`–`f`. -/
def categorize_location (room : Option String) : LocCat :=
  match room with
  | none => .inne_lokalizacje
  | some r =>
    if r.toList.isEmpty then .inne_lokalizacje
    else
      let rl := pyLower r.toList
      if containsSub "teams".toList rl || containsSub "platforma teams".toList rl then
        .teams
      else if containsSub "moodle".toList rl || containsSub "platforma moodle".toList rl then
        .moodle
      else if containsSub "sala".toList rl || containsSub "budynek".toList rl ||
          containsSub "aula".toList rl || containsSub "laboratorium".toList rl then
        .uczelnia
      else if (match rl with
          | c :: _ => c = 'a' ∨ c = 'b' ∨ c = 'c' ∨ c = 'd' ∨ c = 'e' ∨ c = 'f'
          | [] => False : Bool) && rl.any Char.isDigit then
        .uczelnia
      else .inne_lokalizacje

/-- `ICSAnalyzer.categorize_location` (ics_analyzer.py, lines 78–95).
Identical to the simple version except the building-code heuristic only
accepts first letters `a`–`c`. -/
def ics_categorize_location (room : Option String) : LocCat :=
  match room with
  | none => .inne_lokalizacje
  | some r =>
    if r.toList.isEmpty then .inne_lokalizacje
    else
      let rl := pyLower r.toList
      if containsSub "teams".toList rl || containsSub "platforma teams".toList rl then
        .teams
      else if containsSub "moodle".toList rl || containsSub "platforma moodle".toList rl then
        .moodle
      else if containsSub "sala".toList rl || containsSub "budynek".toList rl ||
          containsSub "aula".toList rl || containsSub "laboratorium".toList rl then
        .uczelnia
      else if (match rl with
          | c :: _ => c = 'a' ∨ c = 'b' ∨ c = 'c'
          | [] => False : Bool) && rl.any Char.isDigit then
        .uczelnia
      else .inne_lokalizacje

/-- Numeric value of a digit string. -/
def digitsVal (ds : List Char) : Int :=
  ds.foldl (fun a c => a * 10 + (Int.ofNat (c.toNat - '0'.toNat))) 0

/-- Python `int(s)` on a short slice: surrounding whitespace and a single
sign are allowed, then at least one ASCII digit; anything else raises
`ValueError`, modelled as `none`.  (Underscore separators and non-ASCII
digits cannot occur in two-character slices of interest and are not
modelled.) -/
def pyInt (s : List Char) : Option Int :=
  match pyStrip s with
  | '-' :: ds => if ds ≠ [] ∧ ds.all Char.isDigit then some (-(digitsVal ds)) else none
  | '+' :: ds => if ds ≠ [] ∧ ds.all Char.isDigit then some (digitsVal ds) else none
  | ds => if ds ≠ [] ∧ ds.all Char.isDigit then some (digitsVal ds) else none

/-- Python slice `s[a:b]` (never raises). -/
def pySlice (s : List Char) (a b : Nat) : List Char := (s.drop a).take (b - a)

/-- `SimpleICSAnalyzer._calculate_duration_minutes` (ics_analyzer_simple.py,
lines 328–345): empty tokens give 0; otherwise the hour/minute slices
`[9:11]`/`[11:13]` of both tokens are converted with `int`, a `ValueError`
gives 0, and the result is the end minute-of-day minus the start
minute-of-day (which may be negative). -/
def calculate_duration_minutes (start_time end_time : String) : Int :=
  if start_time.toList.isEmpty || end_time.toList.isEmpty then 0
  else
    let s := start_time.toList
    let e := end_time.toList
    match pyInt (pySlice s 9 11), pyInt (pySlice s 11 13),
        pyInt (pySlice e 9 11), pyInt (pySlice e 11 13) with
    | some sh, some sm, some eh, some em => (eh * 60 + em) - (sh * 60 + sm)
    | _, _, _, _ => 0

/-- The `self.stats` counter dictionary of both analyzers. -/
structure Stats where
  wyklady : Nat
  laboratoria : Nat
  e_cw : Nat
  inne : Nat
  total_events : Nat
deriving DecidableEq, Repr

/-- The `self.location_stats` counter dictionary of both analyzers. -/
structure LocationStats where
  teams : Nat
  moodle : Nat
  uczelnia : Nat
  inne_lokalizacje : Nat
deriving DecidableEq, Repr

/-- One value of the `self.subjects` defaultdict: per-subject counters plus
the instructor and room sets (sets are modelled as duplicate-free insertion
lists; no claim depends on set iteration order). -/
structure SubjectData where
  wyklady : Nat
  laboratoria : Nat
  e_cw : Nat
  prowadzacy : List String
  sale : List String
deriving DecidableEq, Repr

/-- The `self.time_stats` dictionary of `SimpleICSAnalyzer` (minutes are
differences of minute-of-day values, hence integers). -/
structure TimeStats where
  total_minutes : Int
  wyklady_minutes : Int
  laboratoria_minutes : Int
  e_cw_minutes : Int
  uczelnia_minutes : Int
  zdalne_minutes : Int
deriving DecidableEq, Repr

/-- One entry of `self.uczelnia_schedule` (ics_analyzer_simple.py, lines
401–409). -/
structure ScheduleEntry where
  subject : String
  type : String
  instructor : Option String
  room : String
  start_time : String
  end_time : String
  title : String
deriving DecidableEq, Repr

/-- The full mutable state of a `SimpleICSAnalyzer` instance. -/
structure SimpleState where
  stats : Stats
  location_stats : LocationStats
  subjects : List (String × SubjectData)
  uczelnia_schedule : List ScheduleEntry
  time_stats : TimeStats
deriving DecidableEq, Repr

/-- `SimpleICSAnalyzer.__init__`: all counters zero, all containers empty. -/
def initSimpleState : SimpleState :=
  { stats := ⟨0, 0, 0, 0, 0⟩
    location_stats := ⟨0, 0, 0, 0⟩
    subjects := []
    uczelnia_schedule := []
    time_stats := ⟨0, 0, 0, 0, 0, 0⟩ }

/-- A raw event as handed to `_process_simple_event`: the `SUMMARY` value and
the (possibly empty) `DTSTART`/`DTEND` tokens extracted on lines 349–351. -/
structure RawEvent where
  title : String
  start_token : String
  end_token : String
deriving DecidableEq, Repr

/-- The `defaultdict` default of `self.subjects`. -/
def emptySubjectData : SubjectData := ⟨0, 0, 0, [], []⟩

/-- `self.subjects[subject]` update: mutate the existing entry or create the
default one first (Python dicts keep insertion order). -/
def updateSubject (f : SubjectData → SubjectData) (k : String) :
    List (String × SubjectData) → List (String × SubjectData)
  | [] => [(k, f emptySubjectData)]
  | (k', v) :: t => if k' = k then (k', f v) :: t else (k', v) :: updateSubject f k t

/-- Python `set.add` on the insertion-list model. -/
def setAdd (x : String) (l : List String) : List String :=
  if x ∈ l then l else l ++ [x]

/-- `self.location_stats[category] += 1`. -/
def bumpLoc (cat : LocCat) (ls : LocationStats) : LocationStats :=
  match cat with
  | .teams => { ls with teams := ls.teams + 1 }
  | .moodle => { ls with moodle := ls.moodle + 1 }
  | .uczelnia => { ls with uczelnia := ls.uczelnia + 1 }
  | .inne_lokalizacje => { ls with inne_lokalizacje := ls.inne_lokalizacje + 1 }

/-- Lines 368–381 of `_process_simple_event`: bump the per-type counter, the
per-subject counter and the per-type minute total for the resolved event
type (the final `else` bumps `inne`). -/
def updateTypeStats (duration : Int) (subject event_type : String)
    (st : SimpleState) : SimpleState :=
  if event_type = "W" then
    { st with
      stats := { st.stats with wyklady := st.stats.wyklady + 1 }
      subjects := (updateSubject (fun d => { d with wyklady := d.wyklady + 1 })
        subject st.subjects)
      time_stats := { st.time_stats with
        wyklady_minutes := st.time_stats.wyklady_minutes + duration } }
  else if event_type = "L" then
    { st with
      stats := { st.stats with laboratoria := st.stats.laboratoria + 1 }
      subjects := (updateSubject (fun d => { d with laboratoria := d.laboratoria + 1 })
        subject st.subjects)
      time_stats := { st.time_stats with
        laboratoria_minutes := st.time_stats.laboratoria_minutes + duration } }
  else if event_type = "E-CW" ∨ event_type = "E-ĆW" then
    { st with
      stats := { st.stats with e_cw := st.stats.e_cw + 1 }
      subjects := (updateSubject (fun d => { d with e_cw := d.e_cw + 1 })
        subject st.subjects)
      time_stats := { st.time_stats with
        e_cw_minutes := st.time_stats.e_cw_minutes + duration } }
  else
    { st with stats := { st.stats with inne := st.stats.inne + 1 } }

/-- Lines 383–387: add the instructor and room (when truthy) to the
subject's sets. -/
def updateSubjectSets (subject : String) (instructor? room? : Option String)
    (st : SimpleState) : SimpleState :=
  let st :=
    if pyTruthy instructor? then
      { st with subjects :=
        (updateSubject (fun d => { d with prowadzacy := setAdd (instructor?.getD "") d.prowadzacy })
          subject st.subjects) }
    else st
  if pyTruthy room? then
    { st with subjects :=
      (updateSubject (fun d => { d with sale := setAdd (room?.getD "") d.sale })
        subject st.subjects) }
  else st

/-- Lines 389–397: bump the location counter and add the duration to the
on-campus or remote minute total. -/
def updateLocationStats (duration : Int) (location_category : LocCat)
    (st : SimpleState) : SimpleState :=
  let st := { st with location_stats := bumpLoc location_category st.location_stats }
  if location_category = .uczelnia then
    { st with time_stats := { st.time_stats with
      uczelnia_minutes := st.time_stats.uczelnia_minutes + duration } }
  else
    { st with time_stats := { st.time_stats with
      zdalne_minutes := st.time_stats.zdalne_minutes + duration } }

/-- Lines 399–409: append an on-campus itinerary entry when the category is
`uczelnia` and both a start token and a room are present. -/
def appendItinerary (title start_time end_time subject event_type : String)
    (instructor? room? : Option String) (location_category : LocCat)
    (st : SimpleState) : SimpleState :=
  if location_category = .uczelnia ∧ ¬ start_time.toList.isEmpty ∧ pyTruthy room? then
    { st with uczelnia_schedule := st.uczelnia_schedule ++
      [{ subject := subject, type := event_type, instructor := instructor?,
         room := room?.getD "", start_time := start_time, end_time := end_time,
         title := title }] }
  else st

/-- `SimpleICSAnalyzer._process_simple_event` (ics_analyzer_simple.py, lines
347–409), as a pure state transformer built from the blocks above. -/
def process_simple_event (st : SimpleState) (ev : RawEvent) : SimpleState :=
  let title := ev.title
  let start_time := ev.start_token
  let end_time := ev.end_token
  let st := { st with stats := { st.stats with total_events := st.stats.total_events + 1 } }
  let duration := calculate_duration_minutes start_time end_time
  let st := { st with time_stats :=
    { st.time_stats with total_minutes := st.time_stats.total_minutes + duration } }
  let p := parse_event_title title
  let subject? := p.1
  let event_type? := p.2.1
  let instructor? := p.2.2.1
  let room? := p.2.2.2
  if !pyTruthy subject? || !pyTruthy event_type? then
    { st with stats := { st.stats with inne := st.stats.inne + 1 } }
  else
    let subject := subject?.getD ""
    let event_type := event_type?.getD ""
    let st := updateTypeStats duration subject event_type st
    let st := updateSubjectSets subject instructor? room? st
    let location_category := categorize_location room?
    let st := updateLocationStats duration location_category st
    appendItinerary title start_time end_time subject event_type instructor? room?
      location_category st

/-- The state of an `ICSAnalyzer` instance (ics_analyzer.py, lines 23–47);
`total_duration` is kept in seconds. -/
structure ICSState where
  stats : Stats
  location_stats : LocationStats
  subjects : List (String × SubjectData)
  total_duration : Int
deriving DecidableEq, Repr

/-- `ICSAnalyzer.__init__`. -/
def initICSState : ICSState :=
  { stats := ⟨0, 0, 0, 0, 0⟩, location_stats := ⟨0, 0, 0, 0⟩,
    subjects := [], total_duration := 0 }

/-- A calendar component as consumed by `ICSAnalyzer._process_event`: its
`summary` string and, when both `dtstart` and `dtend` are present as
datetimes, their difference in seconds. -/
structure ICSEvent where
  summary : String
  duration_seconds : Option Int
deriving DecidableEq, Repr

/-- Lines 135–146 of `_process_event`: the per-type counters. -/
def ics_updateTypeStats (subject event_type : String) (st : ICSState) : ICSState :=
  if event_type = "W" then
    { st with
      stats := { st.stats with wyklady := st.stats.wyklady + 1 }
      subjects := (updateSubject (fun d => { d with wyklady := d.wyklady + 1 })
        subject st.subjects) }
  else if event_type = "L" then
    { st with
      stats := { st.stats with laboratoria := st.stats.laboratoria + 1 }
      subjects := (updateSubject (fun d => { d with laboratoria := d.laboratoria + 1 })
        subject st.subjects) }
  else if event_type = "E-CW" then
    { st with
      stats := { st.stats with e_cw := st.stats.e_cw + 1 }
      subjects := (updateSubject (fun d => { d with e_cw := d.e_cw + 1 })
        subject st.subjects) }
  else
    { st with stats := { st.stats with inne := st.stats.inne + 1 } }

/-- Lines 148–152: the instructor and room sets. -/
def ics_updateSubjectSets (subject : String) (instructor? room? : Option String)
    (st : ICSState) : ICSState :=
  let st :=
    if pyTruthy instructor? then
      { st with subjects :=
        (updateSubject (fun d => { d with prowadzacy := setAdd (instructor?.getD "") d.prowadzacy })
          subject st.subjects) }
    else st
  if pyTruthy room? then
    { st with subjects :=
      (updateSubject (fun d => { d with sale := setAdd (room?.getD "") d.sale })
        subject st.subjects) }
  else st

/-- `ICSAnalyzer._process_event` (ics_analyzer.py, lines 113–156). -/
def ics_process_event (st : ICSState) (ev : ICSEvent) : ICSState :=
  let st := { st with stats := { st.stats with total_events := st.stats.total_events + 1 } }
  let st :=
    match ev.duration_seconds with
    | some d => { st with total_duration := st.total_duration + d }
    | none => st
  let p := ics_parse_event_title ev.summary
  let subject? := p.1
  let event_type? := p.2.1
  let instructor? := p.2.2.1
  let room? := p.2.2.2
  if !pyTruthy subject? || !pyTruthy event_type? then
    { st with stats := { st.stats with inne := st.stats.inne + 1 } }
  else
    let subject := subject?.getD ""
    let event_type := event_type?.getD ""
    let st := ics_updateTypeStats subject event_type st
    let st := ics_updateSubjectSets subject instructor? room? st
    { st with location_stats := bumpLoc (ics_categorize_location room?) st.location_stats }

/-- Modelled from the spec (§4.2): the location-classifier rule list, with
the campus-building-code alphabet as a parameter.  Rules in order:
absent room → Other; contains `teams` → Teams; contains `moodle` → Moodle;
contains one of `sala`, `budynek`, `aula`, `laboratorium` → OnCampus;
first letter in the alphabet and at least one digit → OnCampus; otherwise
Other.  Matching is case-insensitive (performed on the lowered room). -/
def spec_classify (alphabet : List Char) (room : Option String) : LocCat :=
  match room with
  | none => .inne_lokalizacje
  | some r =>
    if r.toList.isEmpty then .inne_lokalizacje
    else
      let rl := pyLower r.toList
      if containsSub "teams".toList rl then .teams
      else if containsSub "moodle".toList rl then .moodle
      else if containsSub "sala".toList rl || containsSub "budynek".toList rl ||
          containsSub "aula".toList rl || containsSub "laboratorium".toList rl then .uczelnia
      else if (match rl with | c :: _ => c ∈ alphabet | [] => False : Bool)
          && rl.any Char.isDigit then .uczelnia
      else .inne_lokalizacje

/-- The six recognized tags of the title grammar (spec §4.1). -/
def sixTags : List (List Char) :=
  ["W".toList, "L".toList, "E-CW".toList, "E-W".toList, "E-ĆW".toList, "ĆW".toList]

/-- All ways of splitting a list into a pair of adjacent parts. -/
def splitsOf : List Char → List (List Char × List Char)
  | [] => [([], [])]
  | c :: t => ([], c :: t) :: (splitsOf t).map (fun pr => (c :: pr.1, pr.2))

/-- Spec grammar, room payload: after `Sala:` (and optional whitespace) a
nonempty room text follows. -/
def specSala (b : List Char) : Bool :=
  match matchLit "Sala:".toList (dropWs b) with
  | some r8 => !r8.isEmpty
  | none => false

/-- Spec grammar: the text after the instructor names starts with a comma and
continues with the room payload. -/
def specComma : List Char → Bool
  | ',' :: r7 => specSala r7
  | _ => false

/-- Spec grammar: nonempty instructor names followed by a comma and the room
payload. -/
def specInstr (r5 : List Char) : Bool :=
  (splitsOf r5).any fun qr => !qr.1.isEmpty && specComma qr.2

/-- Spec grammar: the instructor label (the concrete literal in the titles is
`Prowadzący:`), optional whitespace, then the names/room payload. -/
def specProw (r4 : List Char) : Bool :=
  match matchLit "Prowadzący:".toList (dropWs r4) with
  | some r5 => specInstr r5
  | none => false

/-- Spec grammar: after the closing parenthesis, optional whitespace, a
hyphen, optional whitespace, then the instructor part. -/
def specSuffix (r3 : List Char) : Bool :=
  match dropWs r3 with
  | '-' :: r4 => specProw r4
  | _ => false

/-- Spec grammar: a tag plus closing parenthesis, then the full-form
suffix. -/
def specTagged (tag r2 : List Char) : Bool :=
  match matchLit (tag ++ [')']) r2 with
  | some r3 => specSuffix r3
  | none => false

/-- Spec grammar: one of the six tags after the opening parenthesis. -/
def specAfterParen (r2 : List Char) : Bool :=
  sixTags.any fun tag => specTagged tag r2

/-- Spec grammar: optional whitespace, an opening parenthesis, then a tagged
full-form rest. -/
def specParen (s : List Char) : Bool :=
  match dropWs s with
  | '(' :: r2 => specAfterParen r2
  | _ => false

/-- Modelled from the spec (§4.1, form 1): the title (already stripped)
decomposes as `<subject> ( <tag> ) - Prowadzący: <names>, Sala: <room>`
with a tag from the six-tag set, a nonempty subject, nonempty names, a
nonempty room text, and insignificant whitespace around the punctuation
(the spec writes the separators as `Instructor:`/`Room:`; the concrete
literals in the titles are `Prowadzący:`/`Sala:`). -/
def specFullForm (t : List Char) : Bool :=
  (splitsOf t).any fun pr => !pr.1.isEmpty && specParen pr.2

/-- Spec grammar, short form: a tag plus closing parenthesis, after which at
most whitespace remains. -/
def specTaggedShort (tag r2 : List Char) : Bool :=
  match matchLit (tag ++ [')']) r2 with
  | some r3 => (dropWs r3).isEmpty
  | none => false

/-- Spec grammar, short form: one of the six tags. -/
def specAfterParenShort (r2 : List Char) : Bool :=
  sixTags.any fun tag => specTaggedShort tag r2

/-- Spec grammar, short form: optional whitespace then `( <tag> )`. -/
def specParenShort (s : List Char) : Bool :=
  match dropWs s with
  | '(' :: r2 => specAfterParenShort r2
  | _ => false

/-- Modelled from the spec (§4.1, form 2): the title (already stripped) is
exactly `<subject> ( <tag> )` with a tag from the six-tag set and a
nonempty subject — nothing but whitespace may follow the closing
parenthesis. -/
def specShortForm (t : List Char) : Bool :=
  (splitsOf t).any fun pr => !pr.1.isEmpty && specParenShort pr.2

/-- Short form as a prefix: a tag plus closing parenthesis, anything may
follow. -/
def specTaggedPre (tag r2 : List Char) : Bool :=
  match matchLit (tag ++ [')']) r2 with
  | some _ => true
  | none => false

/-- Short prefix form: one of the six tags. -/
def specAfterParenPre (r2 : List Char) : Bool :=
  sixTags.any fun tag => specTaggedPre tag r2

/-- Short prefix form: optional whitespace then `( <tag> )`. -/
def specParenPre (s : List Char) : Bool :=
  match dropWs s with
  | '(' :: r2 => specAfterParenPre r2
  | _ => false

/-- The short form as the code actually consumes it: the title merely begins
with `<subject> ( <tag> )`; arbitrary text may follow the closing
parenthesis. -/
def specShortFormPre (t : List Char) : Bool :=
  (splitsOf t).any fun pr => !pr.1.isEmpty && specParenPre pr.2

theorem dropWs_nil : dropWs [] = [] := rfl

theorem dropWs_cons (c : Char) (t : List Char) :
    dropWs (c :: t) = if isPySpace c then dropWs t else c :: t := by
  simp only [dropWs, List.dropWhile]
  split <;> simp_all

theorem dropWs_eq_nil_iff {a : List Char} :
    dropWs a = [] ↔ ∀ c ∈ a, isPySpace c = true := List.dropWhile_eq_nil_iff

theorem dropWs_append_of_all {a b : List Char} (h : ∀ c ∈ a, isPySpace c = true) :
    dropWs (a ++ b) = dropWs b := by
  have ha : List.dropWhile isPySpace a = [] := List.dropWhile_eq_nil_iff.2 h
  simp [dropWs, List.dropWhile_append, ha]

theorem dropWs_append_of_ne {a b : List Char} (h : dropWs a ≠ []) :
    dropWs (a ++ b) = dropWs a ++ b := by
  unfold dropWs at h ⊢
  rw [List.dropWhile_append, if_neg (by simpa [List.isEmpty_iff] using h)]

theorem dropWs_suffix (a : List Char) : dropWs a <:+ a := List.dropWhile_suffix _

theorem dropWs_idem (a : List Char) : dropWs (dropWs a) = dropWs a := by
  induction a with
  | nil => rfl
  | cons c t ih =>
    rw [dropWs_cons]
    split
    · exact ih
    · rw [dropWs_cons]; simp_all

theorem dropWs_head_not_ws {a : List Char} {c : Char} {r : List Char}
    (h : dropWs a = c :: r) : isPySpace c = false := by
  induction a with
  | nil => simp [dropWs] at h
  | cons d t ih =>
    rw [dropWs_cons] at h
    by_cases hd : isPySpace d = true
    · rw [if_pos hd] at h; exact ih h
    · rw [if_neg hd] at h
      cases h
      simpa using hd

theorem rdropWs_nil : rdropWs [] = [] := rfl

theorem rdropWs_eq_nil_iff {a : List Char} :
    rdropWs a = [] ↔ ∀ c ∈ a, isPySpace c = true := by
  simp [rdropWs, List.dropWhile_eq_nil_iff]

theorem rdropWs_cons (c : Char) (t : List Char) :
    rdropWs (c :: t) =
      if rdropWs t = [] ∧ isPySpace c = true then [] else c :: rdropWs t := by
  have hrev : (c :: t).reverse = t.reverse ++ [c] := by simp
  unfold rdropWs
  rw [hrev, List.dropWhile_append]
  by_cases h : List.dropWhile isPySpace t.reverse = []
  · rw [if_pos (by simp [h])]
    by_cases hc : isPySpace c = true
    · rw [if_pos (by simp [h, hc, rdropWs])]
      simp [List.dropWhile, hc]
    · rw [if_neg (by simp [hc])]
      simp [List.dropWhile, hc, h]
  · rw [if_neg (by simp [h])]
    rw [if_neg (by simp [rdropWs, h])]
    simp [rdropWs]

theorem rdropWs_append_of_ne {a b : List Char} (h : rdropWs b ≠ []) :
    rdropWs (a ++ b) = a ++ rdropWs b := by
  unfold rdropWs at h ⊢
  rw [List.reverse_append, List.dropWhile_append]
  have hb : ¬ (List.dropWhile isPySpace b.reverse).isEmpty = true := by
    simp only [List.isEmpty_iff]
    intro hx
    exact h (by rw [hx]; rfl)
  rw [if_neg hb, List.reverse_append, List.reverse_reverse]

theorem rdropWs_idem (a : List Char) : rdropWs (rdropWs a) = rdropWs a := by
  unfold rdropWs
  rw [List.reverse_reverse]
  rw [show List.dropWhile isPySpace (List.dropWhile isPySpace a.reverse) =
      List.dropWhile isPySpace a.reverse from dropWs_idem a.reverse]

theorem dropWs_rdropWs_comm (a : List Char) :
    dropWs (rdropWs a) = rdropWs (dropWs a) := by
  induction a with
  | nil => rfl
  | cons c t ih =>
    rw [rdropWs_cons, dropWs_cons]
    by_cases h1 : rdropWs t = [] ∧ isPySpace c = true
    · rw [if_pos h1, if_pos h1.2]
      have ht : ∀ x ∈ t, isPySpace x = true := rdropWs_eq_nil_iff.1 h1.1
      rw [dropWs_eq_nil_iff.2 ht, rdropWs_nil, dropWs_nil]
    · rw [if_neg h1, dropWs_cons]
      by_cases hc : isPySpace c = true
      · have ht : rdropWs t ≠ [] := fun hh => h1 ⟨hh, hc⟩
        rw [if_pos hc, if_pos hc, ih]
      · rw [if_neg hc, if_neg hc, rdropWs_cons, if_neg (fun hh => hc hh.2)]

theorem pyStrip_dropWs (a : List Char) : pyStrip (dropWs a) = pyStrip a := by
  simp [pyStrip, dropWs_idem]

theorem pyStrip_rdropWs (a : List Char) : pyStrip (rdropWs a) = pyStrip a := by
  simp only [pyStrip, dropWs_rdropWs_comm, rdropWs_idem]

theorem pyStrip_idem (a : List Char) : pyStrip (pyStrip a) = pyStrip a := by
  simp only [pyStrip, dropWs_rdropWs_comm, rdropWs_idem, dropWs_idem]

theorem matchLit_append (a b : List Char) : matchLit a (a ++ b) = some b := by
  induction a with
  | nil => rfl
  | cons c t ih => simp [matchLit, ih]

theorem matchLit_some_iff {a s r : List Char} :
    matchLit a s = some r ↔ s = a ++ r := by
  constructor
  · intro h
    induction a generalizing s with
    | nil => simpa [matchLit] using h
    | cons c t ih =>
      cases s with
      | nil => simp [matchLit] at h
      | cons d ds =>
        simp only [matchLit] at h
        split at h
        · next heq => rw [← heq] at *; rw [ih h]; simp
        · exact absurd h (by simp)
  · rintro rfl; exact matchLit_append a r

/-- If a character occurs in neither left part, a decomposition around that
character is unique. -/
theorem split_at_char_unique {c : Char} :
    ∀ {A P B R : List Char}, A ++ c :: B = P ++ c :: R →
      c ∉ A → c ∉ P → A = P ∧ B = R := by
  intro A
  induction A with
  | nil =>
    intro P B R h hA hP
    cases P with
    | nil => simpa using h
    | cons p ps =>
      simp only [List.nil_append, List.cons_append, List.cons.injEq] at h
      obtain ⟨rfl, -⟩ := h
      exact absurd (List.mem_cons_self c ps) hP
  | cons a as ih =>
    intro P B R h hA hP
    cases P with
    | nil =>
      simp only [List.cons_append, List.nil_append, List.cons.injEq] at h
      obtain ⟨rfl, -⟩ := h
      exact absurd (List.mem_cons_self a as) hA
    | cons p ps =>
      simp only [List.cons_append, List.cons.injEq] at h
      obtain ⟨rfl, h2⟩ := h
      have := ih h2 (fun hm => hA (List.mem_cons_of_mem _ hm))
        (fun hm => hP (List.mem_cons_of_mem _ hm))
      exact ⟨by rw [this.1], this.2⟩

theorem containsSub_isInfix_iff {n h : List Char} :
    containsSub n h = true ↔ n <:+: h := by
  induction h with
  | nil =>
    simp only [containsSub, List.isEmpty_iff]
    constructor
    · rintro rfl; exact List.infix_refl []
    · intro hh; exact List.eq_nil_of_infix_nil hh
  | cons c t ih =>
    simp only [containsSub, Bool.or_eq_true, List.isPrefixOf_iff_prefix, ih,
      List.infix_cons_iff]

theorem scanSubject_nil {α : Type} (after : List Char → List Char → Option α)
    (acc : List Char) : scanSubject after acc [] = none := rfl

theorem scanSubject_cons {α : Type} (after : List Char → List Char → Option α)
    (acc : List Char) (c : Char) (rest : List Char) :
    scanSubject after acc (c :: rest) =
      if c = '\n' then none
      else
        match dropWs rest with
        | '(' :: r2 =>
          match after (c :: acc).reverse r2 with
          | some v => some v
          | none => scanSubject after (c :: acc) rest
        | _ => scanSubject after (c :: acc) rest := by
  rw [scanSubject]

/-- If the continuation fails after every `(` of the input, the whole lazy
subject scan fails. -/
theorem scanSubject_eq_none {α : Type} {after : List Char → List Char → Option α} :
    ∀ {s : List Char},
      (∀ subj p rest, s = p ++ '(' :: rest → after subj rest = none) →
      ∀ acc, scanSubject after acc s = none := by
  intro s
  induction s with
  | nil => intro _ acc; rfl
  | cons c rest ih =>
    intro H acc
    have hrest : ∀ subj p r', rest = p ++ '(' :: r' → after subj r' = none :=
      fun subj p r' hr => H subj (c :: p) r' (by rw [hr]; rfl)
    rw [scanSubject_cons]
    by_cases hc : c = '\n'
    · rw [if_pos hc]
    · rw [if_neg hc]
      split
      · next r2 heq =>
        have hsplit : rest = rest.takeWhile isPySpace ++ '(' :: r2 := by
          conv_lhs => rw [← List.takeWhile_append_dropWhile isPySpace rest]
          rw [show List.dropWhile isPySpace rest = '(' :: r2 from heq]
        rw [hrest ((c :: acc).reverse) _ _ hsplit]
        exact ih hrest (c :: acc)
      · next heq => exact ih hrest (c :: acc)

/-- If the remaining subject text contains no `(`, no newline and at least
one non-space character, the lazy subject scan reaches the real `(` with the
whitespace-trimmed subject, and succeeds as soon as the continuation
does. -/
theorem scanSubject_finds {α : Type} {after : List Char → List Char → Option α}
    {R : List Char} {v : α} {w : List Char} (hw : ∀ c ∈ w, isPySpace c = true) :
    ∀ (u acc : List Char), '\n' ∉ u → '(' ∉ u →
      (∃ c ∈ u, isPySpace c = false) →
      after (acc.reverse ++ rdropWs u) R = some v →
      scanSubject after acc (u ++ w ++ '(' :: R) = some v := by
  intro u
  induction u with
  | nil => rintro acc - - ⟨c, hc, -⟩; cases hc
  | cons c u' ih =>
    intro acc hn hp hnw hafter
    have hc : c ≠ '\n' := fun h => hn (h ▸ List.mem_cons_self c u')
    have hrw : (c :: u') ++ w ++ '(' :: R = c :: (u' ++ (w ++ '(' :: R)) := by simp
    rw [hrw, scanSubject_cons, if_neg hc]
    by_cases hex : ∃ d ∈ u', isPySpace d = false
    · -- the subject part still has visible text: keep scanning
      have hdu : dropWs u' ≠ [] := by
        intro hnil
        obtain ⟨d, hd, hdw⟩ := hex
        rw [dropWs_eq_nil_iff.1 hnil d hd] at hdw
        cases hdw
      have hdrop : dropWs (u' ++ (w ++ '(' :: R)) = dropWs u' ++ (w ++ '(' :: R) :=
        dropWs_append_of_ne hdu
      obtain ⟨x, xs, hx⟩ : ∃ x xs, dropWs u' = x :: xs := by
        cases hxx : dropWs u' with
        | nil => exact absurd hxx hdu
        | cons x xs => exact ⟨x, xs, rfl⟩
      have hxm : x ∈ u' := by
        have : dropWs u' <:+ u' := dropWs_suffix u'
        exact this.subset (hx ▸ List.mem_cons_self x xs)
      have hxp : x ≠ '(' := fun h => hp (h ▸ List.mem_cons_of_mem c hxm)
      have hru : rdropWs u' ≠ [] := by
        intro hnil
        obtain ⟨d, hd, hdw⟩ := hex
        rw [rdropWs_eq_nil_iff.1 hnil d hd] at hdw
        cases hdw
      have hafter' : after ((c :: acc).reverse ++ rdropWs u') R = some v := by
        have h1 : rdropWs (c :: u') = c :: rdropWs u' := by
          rw [rdropWs_cons, if_neg (fun hh => hru hh.1)]
        rw [h1] at hafter
        simpa [List.append_assoc] using hafter
      have hrec := ih (c :: acc) (fun hm => hn (List.mem_cons_of_mem c hm))
        (fun hm => hp (List.mem_cons_of_mem c hm)) hex hafter'
      split
      · next r2 heq =>
        rw [hdrop, hx] at heq
        cases heq
        exact absurd rfl hxp
      · next heq =>
        rw [← List.append_assoc]
        exact hrec
    · -- all of the remaining subject is whitespace: the `(` is next
      have hcw : isPySpace c = false := by
        obtain ⟨d, hd, hdw⟩ := hnw
        rcases List.mem_cons.1 hd with rfl | hd'
        · exact hdw
        · exact absurd ⟨d, hd', hdw⟩ hex
      have hall : ∀ d ∈ u' ++ w, isPySpace d = true := by
        intro d hd
        rcases List.mem_append.1 hd with hd' | hd'
        · by_contra hdd
          exact hex ⟨d, hd', by simpa using hdd⟩
        · exact hw d hd'
      have hdrop : dropWs (u' ++ (w ++ '(' :: R)) = '(' :: R := by
        rw [show u' ++ (w ++ '(' :: R) = (u' ++ w) ++ '(' :: R by simp,
          dropWs_append_of_all hall, dropWs_cons, if_neg (by decide)]
      have hafter' : after (c :: acc).reverse R = some v := by
        have h1 : rdropWs (c :: u') = [c] := by
          rw [rdropWs_cons, if_neg (fun hh => by rw [hcw] at hh; exact absurd hh.2 (by simp)),
            rdropWs_eq_nil_iff.2 (fun d hd => by
              by_contra hdd
              exact hex ⟨d, hd, by simpa using hdd⟩)]
        rw [h1] at hafter
        simpa using hafter
      split
      · next r2 heq =>
        rw [hdrop] at heq
        cases heq
        rw [hafter']
      · next heq =>
        exact absurd hdrop (heq R)

/-- A literal tag pattern `<lit>)` cannot match a bracketed tag other than
`lit` (when neither contains `)`). -/
theorem matchLit_tag_ne {lit tag suffix : List Char}
    (hlit : ')' ∉ lit) (htag : ')' ∉ tag) (hne : tag ≠ lit) :
    matchLit (lit ++ [')']) (tag ++ ')' :: suffix) = none := by
  cases hm : matchLit (lit ++ [')']) (tag ++ ')' :: suffix) with
  | none => rfl
  | some r =>
    exfalso
    have h1 := matchLit_some_iff.1 hm
    rw [List.append_assoc] at h1
    have h2 : tag ++ ')' :: suffix = lit ++ ')' :: r := by simpa using h1
    exact hne (split_at_char_unique h2 htag hlit).1

/-- The pattern-1 tag alternation rejects every bracketed tag other than
`W`, `L`, `E-CW`. -/
theorem tagP1_none {tag suffix : List Char}
    (htag : ')' ∉ tag) (h1 : tag ≠ ['W']) (h2 : tag ≠ ['L'])
    (h3 : tag ≠ ['E', '-', 'C', 'W']) :
    tagP1 (tag ++ ')' :: suffix) = none := by
  have e1 := @matchLit_tag_ne ['W'] tag suffix (by decide) htag h1
  have e2 := @matchLit_tag_ne ['L'] tag suffix (by decide) htag h2
  have e3 := @matchLit_tag_ne ['E', '-', 'C', 'W'] tag suffix (by decide) htag h3
  simp only [List.cons_append, List.nil_append] at e1 e2 e3
  unfold tagP1
  rw [e1, e2, e3]

theorem dotPlusEnd_of_no_newline {l : List Char} (h0 : l ≠ []) (hn : '\n' ∉ l) :
    dotPlusEnd l = some l := by
  cases l with
  | nil => exact absurd rfl h0
  | cons c t =>
    unfold dotPlusEnd
    rw [if_neg]
    intro hmem
    exact hn (by simpa using hmem)

theorem countWs_eq_zero_dropWs {s : List Char} (h : countWs s = 0) : dropWs s = s := by
  have ht : s.takeWhile isPySpace = [] := List.length_eq_zero.1 h
  conv_rhs => rw [← List.takeWhile_append_dropWhile isPySpace s]
  rw [ht, List.nil_append]
  rfl

theorem drop_countWs (s : List Char) : s.drop (countWs s) = dropWs s := by
  have h := List.drop_left (s.takeWhile isPySpace) (s.dropWhile isPySpace)
  rw [List.takeWhile_append_dropWhile] at h
  exact h

theorem roomAfter_of {s r : List Char} (h : dotPlusEnd (dropWs s) = some r) :
    roomAfter s = some r := by
  unfold roomAfter
  cases hK : countWs s with
  | zero => rw [show roomAfterAux s 0 = dotPlusEnd s from rfl, countWs_eq_zero_dropWs hK] at *; exact h
  | succ j =>
    show roomAfterAux s (j + 1) = some r
    unfold roomAfterAux
    rw [show s.drop (j + 1) = dropWs s from by rw [← hK]; exact drop_countWs s, h]

theorem scanInstr_nil (acc : List Char) : scanInstr acc [] = none := rfl

theorem scanInstr_cons (acc : List Char) (c : Char) (rest : List Char) :
    scanInstr acc (c :: rest) =
      if c = ',' ∧ acc ≠ [] then
        match roomPart rest with
        | some room => some (acc.reverse, room)
        | none => scanInstr (c :: acc) rest
      else if c = '\n' then none
      else scanInstr (c :: acc) rest := by
  rw [scanInstr]

/-- The lazy instructor group runs to the final comma provided no earlier
comma lets the room suffix match. -/
theorem scanInstr_finds {rest2 room : List Char} (hroom : roomPart rest2 = some room) :
    ∀ (a acc : List Char), '\n' ∉ a →
      (∀ x y, a = x ++ ',' :: y → roomPart (y ++ ',' :: rest2) = none) →
      acc.reverse ++ a ≠ [] →
      scanInstr acc (a ++ ',' :: rest2) = some (acc.reverse ++ a, room) := by
  intro a
  induction a with
  | nil =>
    intro acc _ _ hne
    have hacc : acc ≠ [] := by
      intro h
      exact hne (by simp [h])
    rw [List.nil_append, scanInstr_cons, if_pos ⟨rfl, hacc⟩, hroom]
    simp
  | cons c a' ih =>
    intro acc hn hstop hne
    have hrw : (c :: a') ++ ',' :: rest2 = c :: (a' ++ ',' :: rest2) := rfl
    rw [hrw, scanInstr_cons]
    by_cases hcm : c = ',' ∧ acc ≠ []
    · rw [if_pos hcm]
      obtain ⟨rfl, hacc⟩ := hcm
      have h0 : roomPart (a' ++ ',' :: rest2) = none := hstop [] a' rfl
      rw [h0]
      have hstop' : ∀ x y, a' = x ++ ',' :: y → roomPart (y ++ ',' :: rest2) = none :=
        fun x y hxy => hstop (',' :: x) y (by rw [hxy]; rfl)
      have := ih (',' :: acc) (fun hm => hn (List.mem_cons_of_mem _ hm)) hstop'
        (by simp)
      rw [this]
      simp
    · rw [if_neg hcm]
      have hcn : c ≠ '\n' := fun h => hn (h ▸ List.mem_cons_self c a')
      rw [if_neg hcn]
      have hstop' : ∀ x y, a' = x ++ ',' :: y → roomPart (y ++ ',' :: rest2) = none :=
        fun x y hxy => hstop (c :: x) y (by rw [hxy]; rfl)
      have := ih (c :: acc) (fun hm => hn (List.mem_cons_of_mem _ hm)) hstop'
        (by simp)
      rw [this]
      simp

theorem instrRoom_of {s : List Char} {v : List Char × List Char}
    (h : scanInstr [] (dropWs s) = some v) : instrRoom s = some v := by
  unfold instrRoom
  cases hK : countWs s with
  | zero =>
    show instrRoomAux s 0 = some v
    unfold instrRoomAux
    rw [countWs_eq_zero_dropWs hK] at h
    exact h
  | succ j =>
    show instrRoomAux s (j + 1) = some v
    unfold instrRoomAux
    rw [show s.drop (j + 1) = dropWs s from by rw [← hK]; exact drop_countWs s, h]

/-- The early-stop guard: inside an instructor text that does not contain
`Sala:`, no comma lets the room suffix match. -/
theorem roomPart_early_none {iD : List Char}
    (hsala : containsSub "Sala:".toList iD = false)
    {y rest2 : List Char} (hy : y <:+: iD) :
    roomPart (y ++ ',' :: rest2) = none := by
  unfold roomPart
  cases hdy : dropWs y with
  | nil =>
    rw [dropWs_append_of_all (dropWs_eq_nil_iff.1 hdy)]
    rfl
  | cons d y2 =>
    rw [dropWs_append_of_ne (by rw [hdy]; simp)]
    rw [hdy]
    have hmm : matchLit "Sala:".toList ((d :: y2) ++ ',' :: rest2) = none := by
      cases hm : matchLit "Sala:".toList ((d :: y2) ++ ',' :: rest2) with
      | none => rfl
      | some r =>
        exfalso
        have heq := (matchLit_some_iff.1 hm).symm
        have hinf : ∀ hpre : "Sala:".toList <+: (d :: y2), False := by
          intro hpre
          have h1 : (d :: y2) <:+: iD := by
            have h2 : dropWs y <:+ y := dropWs_suffix y
            rw [hdy] at h2
            exact (h2.isInfix).trans hy
          have := hpre.isInfix.trans h1
          rw [← containsSub_isInfix_iff] at this
          rw [this] at hsala
          cases hsala
        rcases List.append_eq_append_iff.1 heq with ⟨m, hm1, hm2⟩ | ⟨m, hm1, hm2⟩
        · -- "Sala:" is a prefix of the visible instructor remainder
          exact hinf ⟨m, hm1.symm⟩
        · -- "Sala:" extends past the instructor remainder into the comma
          cases m with
          | nil =>
            exact hinf ⟨[], by rw [List.append_nil, hm1, List.append_nil]⟩
          | cons e m' =>
            have he : ',' = e := by
              rw [List.cons_append] at hm2
              injection hm2
            have hmem : e ∈ "Sala:".toList := by
              rw [hm1]
              exact List.mem_append_right _ (List.mem_cons_self e m')
            rw [← he] at hmem
            revert hmem
            decide
    rw [hmm]

/-- Whenever the instructor text has visible content, no newline and no
embedded `Sala:`, and the room text has visible content and no newline, the
full-pattern suffix matcher extracts exactly the two groups from a suffix
built as ` - Prowadzący: <i>, Sala: <r>`. -/
theorem fullSuffix_built {i r : List Char}
    (hni : '\n' ∉ i) (hsi : dropWs i ≠ []) (hsala : containsSub "Sala:".toList i = false)
    (hnr : '\n' ∉ r) (hsr : dropWs r ≠ []) :
    fullSuffix (" - Prowadzący: ".toList ++ (i ++ (", Sala: ".toList ++ r))) =
      some (dropWs i, dropWs r) := by
  have hroom : roomPart (" Sala: ".toList ++ r) = some (dropWs r) := by
    unfold roomPart
    have h2 : matchLit "Sala:".toList (dropWs (" Sala: ".toList ++ r)) =
        some (' ' :: r) := rfl
    rw [h2]
    apply roomAfter_of
    rw [show dropWs (' ' :: r) = dropWs r from rfl]
    exact dotPlusEnd_of_no_newline hsr
      (fun hm => hnr ((dropWs_suffix r).subset hm))
  have hstop : ∀ x y, dropWs i = x ++ ',' :: y →
      roomPart (y ++ ',' :: (" Sala: ".toList ++ r)) = none := by
    intro x y hxy
    apply roomPart_early_none hsala
    have h1 : y <:+ dropWs i := ⟨x ++ [','], by simp [hxy]⟩
    exact (h1.trans (dropWs_suffix i)).isInfix
  have hscan : scanInstr [] (dropWs i ++ ',' :: (" Sala: ".toList ++ r)) =
      some (dropWs i, dropWs r) := by
    have := scanInstr_finds hroom (dropWs i) []
      (fun hm => hni ((dropWs_suffix i).subset hm)) hstop (by simpa using hsi)
    simpa using this
  have hinstr : instrRoom (' ' :: (i ++ (',' :: (" Sala: ".toList ++ r)))) =
      some (dropWs i, dropWs r) := by
    apply instrRoom_of
    rw [show dropWs (' ' :: (i ++ (',' :: (" Sala: ".toList ++ r)))) =
        dropWs (i ++ (',' :: (" Sala: ".toList ++ r))) from rfl]
    rw [dropWs_append_of_ne hsi]
    exact hscan
  unfold fullSuffix
  exact hinstr

/-- A full-form title `<s> (<tag>) - Prowadzący: <i>, Sala: <r>`. -/
def mkFullTitle (s tag i r : List Char) : List Char :=
  s ++ (" (".toList ++ (tag ++ (") - Prowadzący: ".toList ++ (i ++ (", Sala: ".toList ++ r)))))

/-- A short-form title `<s> (<tag>)`. -/
def mkShortTitle (s tag : List Char) : List Char :=
  s ++ (" (".toList ++ (tag ++ [')']))

theorem rdropWs_prefix_self (l : List Char) : rdropWs l <+: l := by
  have h := (List.reverse_prefix).2 (@List.dropWhile_suffix Char l.reverse isPySpace)
  rw [List.reverse_reverse] at h
  exact h

theorem mem_of_mem_dropWs {c : Char} {l : List Char} (h : c ∈ dropWs l) : c ∈ l :=
  (dropWs_suffix l).subset h

theorem mem_of_mem_rdropWs {c : Char} {l : List Char} (h : c ∈ rdropWs l) : c ∈ l :=
  (rdropWs_prefix_self l).subset h

theorem exists_not_ws_of_dropWs_ne {s : List Char} (h : dropWs s ≠ []) :
    ∃ c ∈ dropWs s, isPySpace c = false := by
  cases hx : dropWs s with
  | nil => exact absurd hx h
  | cons x xs => exact ⟨x, by simp [hx], dropWs_head_not_ws hx⟩

theorem pyStrip_mkFullTitle {s r : List Char} (tag i : List Char)
    (hs : dropWs s ≠ []) (hr : rdropWs r ≠ []) :
    pyStrip (mkFullTitle s tag i r) =
      dropWs s ++ (" (".toList ++ (tag ++
        (") - Prowadzący: ".toList ++ (i ++ (", Sala: ".toList ++ rdropWs r))))) := by
  have h1 : rdropWs (", Sala: ".toList ++ r) = ", Sala: ".toList ++ rdropWs r :=
    rdropWs_append_of_ne hr
  have h2 : rdropWs (i ++ (", Sala: ".toList ++ r)) =
      i ++ (", Sala: ".toList ++ rdropWs r) := by
    rw [rdropWs_append_of_ne (by rw [h1]; simp), h1]
  have h3 : rdropWs (") - Prowadzący: ".toList ++ (i ++ (", Sala: ".toList ++ r))) =
      ") - Prowadzący: ".toList ++ (i ++ (", Sala: ".toList ++ rdropWs r)) := by
    rw [rdropWs_append_of_ne (by rw [h2]; simp), h2]
  have h4 : rdropWs (tag ++ (") - Prowadzący: ".toList ++ (i ++ (", Sala: ".toList ++ r)))) =
      tag ++ (") - Prowadzący: ".toList ++ (i ++ (", Sala: ".toList ++ rdropWs r))) := by
    rw [rdropWs_append_of_ne (by rw [h3]; simp), h3]
  have h5 : rdropWs (" (".toList ++ (tag ++ (") - Prowadzący: ".toList ++
      (i ++ (", Sala: ".toList ++ r))))) =
      " (".toList ++ (tag ++ (") - Prowadzący: ".toList ++
      (i ++ (", Sala: ".toList ++ rdropWs r)))) := by
    rw [rdropWs_append_of_ne (by rw [h4]; simp), h4]
  unfold mkFullTitle pyStrip
  rw [dropWs_append_of_ne hs, rdropWs_append_of_ne (by rw [h5]; simp), h5]

theorem pyStrip_mkShortTitle {s : List Char} (tag : List Char) (hs : dropWs s ≠ []) :
    pyStrip (mkShortTitle s tag) = dropWs s ++ (" (".toList ++ (tag ++ [')'])) := by
  have h1 : rdropWs (tag ++ [')']) = tag ++ [')'] := by
    rw [rdropWs_append_of_ne (by decide)]
    rfl
  have h2 : rdropWs (" (".toList ++ (tag ++ [')'])) = " (".toList ++ (tag ++ [')']) := by
    rw [rdropWs_append_of_ne (by rw [h1]; simp), h1]
  unfold mkShortTitle pyStrip
  rw [dropWs_append_of_ne hs, rdropWs_append_of_ne (by rw [h2]; simp), h2]

/-- Uniqueness of a decomposition at a character that occurs exactly once. -/
theorem split_once {c : Char} {A B p rest : List Char}
    (h : A ++ c :: B = p ++ c :: rest) (hA : c ∉ A) (hB : c ∉ B) :
    p = A ∧ rest = B := by
  rcases List.append_eq_append_iff.1 h with ⟨m, hm1, hm2⟩ | ⟨m, hm1, hm2⟩
  · cases m with
    | nil => exact ⟨by simp [hm1], by simpa using hm2.symm⟩
    | cons e m' =>
      exfalso
      rw [List.cons_append] at hm2
      injection hm2 with h1 h2
      apply hB
      rw [h2]
      exact List.mem_append_right m' (List.mem_cons_self c rest)
  · cases m with
    | nil => exact ⟨by simpa using hm1.symm, by simpa using hm2⟩
    | cons e m' =>
      exfalso
      rw [List.cons_append] at hm2
      injection hm2 with h1 h2
      apply hA
      rw [hm1, ← h1]
      exact List.mem_append_right p (List.mem_cons_self c m')

/-- The lazy subject scan on a well-formed built title succeeds exactly at
the real `(` provided the continuation succeeds there. -/
theorem scanSubject_built_pos {α : Type} {after : List Char → List Char → Option α}
    {s Z : List Char} {v : α}
    (hs1 : '(' ∉ s) (hs2 : '\n' ∉ s) (hs3 : dropWs s ≠ [])
    (hafter : after (pyStrip s) Z = some v) :
    scanSubject after [] (dropWs s ++ (" (".toList ++ Z)) = some v := by
  have hsh : dropWs s ++ (" (".toList ++ Z) = dropWs s ++ [' '] ++ '(' :: Z := by
    simp [List.append_assoc]
  rw [hsh]
  exact scanSubject_finds (by intro c hc; simp at hc; rw [hc]; rfl)
    (dropWs s) [] (fun hm => hs2 (mem_of_mem_dropWs hm))
    (fun hm => hs1 (mem_of_mem_dropWs hm))
    (exists_not_ws_of_dropWs_ne hs3)
    (by
      rw [show ((([] : List Char).reverse ++ rdropWs (dropWs s)) = pyStrip s) from by
        simp [pyStrip]]
      exact hafter)

/-- The lazy subject scan on a built title fails when the continuation
rejects the (unique) real `(`. -/
theorem scanSubject_built_neg {α : Type} {after : List Char → List Char → Option α}
    {s Z : List Char}
    (hs1 : '(' ∉ s) (hZ : '(' ∉ Z)
    (hfail : ∀ subj, after subj Z = none) :
    scanSubject after [] (dropWs s ++ (" (".toList ++ Z)) = none := by
  have hsh : dropWs s ++ (" (".toList ++ Z) = (dropWs s ++ [' ']) ++ '(' :: Z := by
    simp [List.append_assoc]
  rw [hsh]
  apply scanSubject_eq_none
  intro subj p rest h
  have hA : '(' ∉ dropWs s ++ [' '] := by
    intro hm
    rcases List.mem_append.1 hm with hm' | hm'
    · exact hs1 (mem_of_mem_dropWs hm')
    · simp at hm'
  obtain ⟨-, rfl⟩ := split_once h hA hZ
  exact hfail subj

theorem pyStrip_eq_nil_iff {l : List Char} :
    pyStrip l = [] ↔ ∀ c ∈ l, isPySpace c = true := by
  constructor
  · intro h c hc
    have hsplit := List.takeWhile_append_dropWhile isPySpace l
    rw [← hsplit] at hc
    rcases List.mem_append.1 hc with hc' | hc'
    · exact List.mem_takeWhile_imp hc'
    · exact rdropWs_eq_nil_iff.1 h c hc'
  · intro h
    rw [pyStrip, dropWs_eq_nil_iff.2 h, rdropWs_nil]

theorem parse_built_full_W {s i r : List Char}
    (hs1 : '(' ∉ s) (hs2 : '\n' ∉ s) (hs3 : pyStrip s ≠ [])
    (hi2 : '\n' ∉ i) (hi3 : pyStrip i ≠ [])
    (hi4 : containsSub "Sala:".toList i = false)
    (hr2 : '\n' ∉ r) (hr3 : pyStrip r ≠ []) :
    parse_event_title (String.mk (mkFullTitle s "W".toList i r)) =
      (some (String.mk (pyStrip s)), some "W",
       some (String.mk (pyStrip i)), some (String.mk (pyStrip r))) := by
  have hsd : dropWs s ≠ [] := fun h => hs3 (pyStrip_eq_nil_iff.2 (dropWs_eq_nil_iff.1 h))
  have hid : dropWs i ≠ [] := fun h => hi3 (pyStrip_eq_nil_iff.2 (dropWs_eq_nil_iff.1 h))
  have hrr : rdropWs r ≠ [] := fun h => hr3 (pyStrip_eq_nil_iff.2 (rdropWs_eq_nil_iff.1 h))
  have hfs := fullSuffix_built hi2 hid hi4
    (fun hm => hr2 (mem_of_mem_rdropWs hm))
    (show dropWs (rdropWs r) ≠ [] from by rw [dropWs_rdropWs_comm]; exact hr3)
  have hafter : afterFull1 (pyStrip s)
      ("W".toList ++ (") - Prowadzący: ".toList ++ (i ++ (", Sala: ".toList ++ rdropWs r)))) =
      some (pyStrip s, "W", dropWs i, dropWs (rdropWs r)) := by
    have h1 : tagP1 ("W".toList ++ (") - Prowadzący: ".toList ++
        (i ++ (", Sala: ".toList ++ rdropWs r)))) =
        some ("W", " - Prowadzący: ".toList ++ (i ++ (", Sala: ".toList ++ rdropWs r))) := rfl
    unfold afterFull1
    rw [h1]
    show (match fullSuffix (" - Prowadzący: ".toList ++ (i ++ (", Sala: ".toList ++ rdropWs r))) with
      | some (i2, rm) => some (pyStrip s, "W", i2, rm)
      | none => none) = some (pyStrip s, "W", dropWs i, dropWs (rdropWs r))
    rw [hfs]
  have hscan : scanSubject afterFull1 [] (pyStrip (mkFullTitle s "W".toList i r)) =
      some (pyStrip s, "W", dropWs i, dropWs (rdropWs r)) := by
    rw [pyStrip_mkFullTitle "W".toList i hsd hrr]
    exact scanSubject_built_pos hs1 hs2 hsd hafter
  unfold parse_event_title
  rw [show (String.mk (mkFullTitle s "W".toList i r)).toList =
    mkFullTitle s "W".toList i r from rfl]
  dsimp only
  rw [hscan]
  simp only [pyStrip_idem, pyStrip_dropWs, pyStrip_rdropWs]

theorem not_lparen_fullZ {tag i r : List Char}
    (ht : '(' ∉ tag) (hi : '(' ∉ i) (hr : '(' ∉ r) :
    '(' ∉ tag ++ (") - Prowadzący: ".toList ++ (i ++ (", Sala: ".toList ++ rdropWs r))) := by
  intro hm
  rcases List.mem_append.1 hm with h | h
  · exact ht h
  rcases List.mem_append.1 h with h | h
  · revert h; decide
  rcases List.mem_append.1 h with h | h
  · exact hi h
  rcases List.mem_append.1 h with h | h
  · revert h; decide
  · exact hr (mem_of_mem_rdropWs h)

theorem parse_built_full_L {s i r : List Char}
    (hs1 : '(' ∉ s) (hs2 : '\n' ∉ s) (hs3 : pyStrip s ≠ [])
    (hi2 : '\n' ∉ i) (hi3 : pyStrip i ≠ [])
    (hi4 : containsSub "Sala:".toList i = false)
    (hr2 : '\n' ∉ r) (hr3 : pyStrip r ≠ []) :
    parse_event_title (String.mk (mkFullTitle s "L".toList i r)) =
      (some (String.mk (pyStrip s)), some "L",
       some (String.mk (pyStrip i)), some (String.mk (pyStrip r))) := by
  have hsd : dropWs s ≠ [] := fun h => hs3 (pyStrip_eq_nil_iff.2 (dropWs_eq_nil_iff.1 h))
  have hid : dropWs i ≠ [] := fun h => hi3 (pyStrip_eq_nil_iff.2 (dropWs_eq_nil_iff.1 h))
  have hrr : rdropWs r ≠ [] := fun h => hr3 (pyStrip_eq_nil_iff.2 (rdropWs_eq_nil_iff.1 h))
  have hfs := fullSuffix_built hi2 hid hi4
    (fun hm => hr2 (mem_of_mem_rdropWs hm))
    (show dropWs (rdropWs r) ≠ [] from by rw [dropWs_rdropWs_comm]; exact hr3)
  have hafter : afterFull1 (pyStrip s)
      ("L".toList ++ (") - Prowadzący: ".toList ++ (i ++ (", Sala: ".toList ++ rdropWs r)))) =
      some (pyStrip s, "L", dropWs i, dropWs (rdropWs r)) := by
    have h1 : tagP1 ("L".toList ++ (") - Prowadzący: ".toList ++
        (i ++ (", Sala: ".toList ++ rdropWs r)))) =
        some ("L", " - Prowadzący: ".toList ++ (i ++ (", Sala: ".toList ++ rdropWs r))) := rfl
    unfold afterFull1
    rw [h1]
    show (match fullSuffix (" - Prowadzący: ".toList ++ (i ++ (", Sala: ".toList ++ rdropWs r))) with
      | some (i2, rm) => some (pyStrip s, "L", i2, rm)
      | none => none) = some (pyStrip s, "L", dropWs i, dropWs (rdropWs r))
    rw [hfs]
  have hscan : scanSubject afterFull1 [] (pyStrip (mkFullTitle s "L".toList i r)) =
      some (pyStrip s, "L", dropWs i, dropWs (rdropWs r)) := by
    rw [pyStrip_mkFullTitle "L".toList i hsd hrr]
    exact scanSubject_built_pos hs1 hs2 hsd hafter
  unfold parse_event_title
  rw [show (String.mk (mkFullTitle s "L".toList i r)).toList =
    mkFullTitle s "L".toList i r from rfl]
  dsimp only
  rw [hscan]
  simp only [pyStrip_idem, pyStrip_dropWs, pyStrip_rdropWs]

theorem parse_built_full_ECW {s i r : List Char}
    (hs1 : '(' ∉ s) (hs2 : '\n' ∉ s) (hs3 : pyStrip s ≠ [])
    (hi2 : '\n' ∉ i) (hi3 : pyStrip i ≠ [])
    (hi4 : containsSub "Sala:".toList i = false)
    (hr2 : '\n' ∉ r) (hr3 : pyStrip r ≠ []) :
    parse_event_title (String.mk (mkFullTitle s "E-CW".toList i r)) =
      (some (String.mk (pyStrip s)), some "E-CW",
       some (String.mk (pyStrip i)), some (String.mk (pyStrip r))) := by
  have hsd : dropWs s ≠ [] := fun h => hs3 (pyStrip_eq_nil_iff.2 (dropWs_eq_nil_iff.1 h))
  have hid : dropWs i ≠ [] := fun h => hi3 (pyStrip_eq_nil_iff.2 (dropWs_eq_nil_iff.1 h))
  have hrr : rdropWs r ≠ [] := fun h => hr3 (pyStrip_eq_nil_iff.2 (rdropWs_eq_nil_iff.1 h))
  have hfs := fullSuffix_built hi2 hid hi4
    (fun hm => hr2 (mem_of_mem_rdropWs hm))
    (show dropWs (rdropWs r) ≠ [] from by rw [dropWs_rdropWs_comm]; exact hr3)
  have hafter : afterFull1 (pyStrip s)
      ("E-CW".toList ++ (") - Prowadzący: ".toList ++ (i ++ (", Sala: ".toList ++ rdropWs r)))) =
      some (pyStrip s, "E-CW", dropWs i, dropWs (rdropWs r)) := by
    have h1 : tagP1 ("E-CW".toList ++ (") - Prowadzący: ".toList ++
        (i ++ (", Sala: ".toList ++ rdropWs r)))) =
        some ("E-CW", " - Prowadzący: ".toList ++ (i ++ (", Sala: ".toList ++ rdropWs r))) := rfl
    unfold afterFull1
    rw [h1]
    show (match fullSuffix (" - Prowadzący: ".toList ++ (i ++ (", Sala: ".toList ++ rdropWs r))) with
      | some (i2, rm) => some (pyStrip s, "E-CW", i2, rm)
      | none => none) = some (pyStrip s, "E-CW", dropWs i, dropWs (rdropWs r))
    rw [hfs]
  have hscan : scanSubject afterFull1 [] (pyStrip (mkFullTitle s "E-CW".toList i r)) =
      some (pyStrip s, "E-CW", dropWs i, dropWs (rdropWs r)) := by
    rw [pyStrip_mkFullTitle "E-CW".toList i hsd hrr]
    exact scanSubject_built_pos hs1 hs2 hsd hafter
  unfold parse_event_title
  rw [show (String.mk (mkFullTitle s "E-CW".toList i r)).toList =
    mkFullTitle s "E-CW".toList i r from rfl]
  dsimp only
  rw [hscan]
  simp only [pyStrip_idem, pyStrip_dropWs, pyStrip_rdropWs]

theorem parse_built_full_EW {s i r : List Char}
    (hs1 : '(' ∉ s) (hs2 : '\n' ∉ s) (hs3 : pyStrip s ≠ [])
    (hi1 : '(' ∉ i) (hi2 : '\n' ∉ i) (hi3 : pyStrip i ≠ [])
    (hi4 : containsSub "Sala:".toList i = false)
    (hr1 : '(' ∉ r) (hr2 : '\n' ∉ r) (hr3 : pyStrip r ≠ []) :
    parse_event_title (String.mk (mkFullTitle s "E-W".toList i r)) =
      (some (String.mk (pyStrip s)), some "W",
       some (String.mk (pyStrip i)), some (String.mk (pyStrip r))) := by
  have hsd : dropWs s ≠ [] := fun h => hs3 (pyStrip_eq_nil_iff.2 (dropWs_eq_nil_iff.1 h))
  have hid : dropWs i ≠ [] := fun h => hi3 (pyStrip_eq_nil_iff.2 (dropWs_eq_nil_iff.1 h))
  have hrr : rdropWs r ≠ [] := fun h => hr3 (pyStrip_eq_nil_iff.2 (rdropWs_eq_nil_iff.1 h))
  have hZ : '(' ∉ "E-W".toList ++ (") - Prowadzący: ".toList ++
      (i ++ (", Sala: ".toList ++ rdropWs r))) :=
    not_lparen_fullZ (by decide) hi1 hr1
  have hfs := fullSuffix_built hi2 hid hi4
    (fun hm => hr2 (mem_of_mem_rdropWs hm))
    (show dropWs (rdropWs r) ≠ [] from by rw [dropWs_rdropWs_comm]; exact hr3)
  have hneg1 : scanSubject afterFull1 []
      (dropWs s ++ (" (".toList ++ ("E-W".toList ++ (") - Prowadzący: ".toList ++
        (i ++ (", Sala: ".toList ++ rdropWs r)))))) = none :=
    scanSubject_built_neg hs1 hZ (fun subj => rfl)
  have hafter : afterFullLit "E-W".toList (pyStrip s)
      ("E-W".toList ++ (") - Prowadzący: ".toList ++ (i ++ (", Sala: ".toList ++ rdropWs r)))) =
      some (pyStrip s, dropWs i, dropWs (rdropWs r)) := by
    have h1 : matchLit ("E-W".toList ++ [')'])
        ("E-W".toList ++ (") - Prowadzący: ".toList ++ (i ++ (", Sala: ".toList ++ rdropWs r)))) =
        some (" - Prowadzący: ".toList ++ (i ++ (", Sala: ".toList ++ rdropWs r))) := rfl
    unfold afterFullLit
    rw [h1]
    show (match fullSuffix (" - Prowadzący: ".toList ++ (i ++ (", Sala: ".toList ++ rdropWs r))) with
      | some (i2, rm) => some (pyStrip s, i2, rm)
      | none => none) = some (pyStrip s, dropWs i, dropWs (rdropWs r))
    rw [hfs]
  have hpos : scanSubject (afterFullLit "E-W".toList) []
      (pyStrip (mkFullTitle s "E-W".toList i r)) =
      some (pyStrip s, dropWs i, dropWs (rdropWs r)) := by
    rw [pyStrip_mkFullTitle "E-W".toList i hsd hrr]
    exact scanSubject_built_pos hs1 hs2 hsd hafter
  unfold parse_event_title
  rw [show (String.mk (mkFullTitle s "E-W".toList i r)).toList =
    mkFullTitle s "E-W".toList i r from rfl]
  dsimp only
  rw [pyStrip_mkFullTitle "E-W".toList i hsd hrr] at hpos ⊢
  rw [hneg1, hpos]
  simp only [pyStrip_idem, pyStrip_dropWs, pyStrip_rdropWs]

theorem parse_built_full_ECWPL {s i r : List Char}
    (hs1 : '(' ∉ s) (hs2 : '\n' ∉ s) (hs3 : pyStrip s ≠ [])
    (hi1 : '(' ∉ i) (hi2 : '\n' ∉ i) (hi3 : pyStrip i ≠ [])
    (hi4 : containsSub "Sala:".toList i = false)
    (hr1 : '(' ∉ r) (hr2 : '\n' ∉ r) (hr3 : pyStrip r ≠ []) :
    parse_event_title (String.mk (mkFullTitle s "E-ĆW".toList i r)) =
      (some (String.mk (pyStrip s)), some "E-CW",
       some (String.mk (pyStrip i)), some (String.mk (pyStrip r))) := by
  have hsd : dropWs s ≠ [] := fun h => hs3 (pyStrip_eq_nil_iff.2 (dropWs_eq_nil_iff.1 h))
  have hid : dropWs i ≠ [] := fun h => hi3 (pyStrip_eq_nil_iff.2 (dropWs_eq_nil_iff.1 h))
  have hrr : rdropWs r ≠ [] := fun h => hr3 (pyStrip_eq_nil_iff.2 (rdropWs_eq_nil_iff.1 h))
  have hZ : '(' ∉ "E-ĆW".toList ++ (") - Prowadzący: ".toList ++
      (i ++ (", Sala: ".toList ++ rdropWs r))) :=
    not_lparen_fullZ (by decide) hi1 hr1
  have hfs := fullSuffix_built hi2 hid hi4
    (fun hm => hr2 (mem_of_mem_rdropWs hm))
    (show dropWs (rdropWs r) ≠ [] from by rw [dropWs_rdropWs_comm]; exact hr3)
  have hneg1 : scanSubject afterFull1 []
      (dropWs s ++ (" (".toList ++ ("E-ĆW".toList ++ (") - Prowadzący: ".toList ++
        (i ++ (", Sala: ".toList ++ rdropWs r)))))) = none :=
    scanSubject_built_neg hs1 hZ (fun subj => rfl)
  have hneg2 : scanSubject (afterFullLit "E-W".toList) []
      (dropWs s ++ (" (".toList ++ ("E-ĆW".toList ++ (") - Prowadzący: ".toList ++
        (i ++ (", Sala: ".toList ++ rdropWs r)))))) = none :=
    scanSubject_built_neg hs1 hZ (fun subj => rfl)
  have hafter : afterFullLit "E-ĆW".toList (pyStrip s)
      ("E-ĆW".toList ++ (") - Prowadzący: ".toList ++ (i ++ (", Sala: ".toList ++ rdropWs r)))) =
      some (pyStrip s, dropWs i, dropWs (rdropWs r)) := by
    have h1 : matchLit ("E-ĆW".toList ++ [')'])
        ("E-ĆW".toList ++ (") - Prowadzący: ".toList ++ (i ++ (", Sala: ".toList ++ rdropWs r)))) =
        some (" - Prowadzący: ".toList ++ (i ++ (", Sala: ".toList ++ rdropWs r))) := rfl
    unfold afterFullLit
    rw [h1]
    show (match fullSuffix (" - Prowadzący: ".toList ++ (i ++ (", Sala: ".toList ++ rdropWs r))) with
      | some (i2, rm) => some (pyStrip s, i2, rm)
      | none => none) = some (pyStrip s, dropWs i, dropWs (rdropWs r))
    rw [hfs]
  have hpos : scanSubject (afterFullLit "E-ĆW".toList) []
      (pyStrip (mkFullTitle s "E-ĆW".toList i r)) =
      some (pyStrip s, dropWs i, dropWs (rdropWs r)) := by
    rw [pyStrip_mkFullTitle "E-ĆW".toList i hsd hrr]
    exact scanSubject_built_pos hs1 hs2 hsd hafter
  unfold parse_event_title
  rw [show (String.mk (mkFullTitle s "E-ĆW".toList i r)).toList =
    mkFullTitle s "E-ĆW".toList i r from rfl]
  dsimp only
  rw [pyStrip_mkFullTitle "E-ĆW".toList i hsd hrr] at hpos ⊢
  rw [hneg1, hneg2, hpos]
  simp only [pyStrip_idem, pyStrip_dropWs, pyStrip_rdropWs]

theorem parse_built_full_CW {s i r : List Char}
    (hs1 : '(' ∉ s) (hs2 : '\n' ∉ s) (hs3 : pyStrip s ≠ [])
    (hi1 : '(' ∉ i) (hi2 : '\n' ∉ i) (hi3 : pyStrip i ≠ [])
    (hi4 : containsSub "Sala:".toList i = false)
    (hr1 : '(' ∉ r) (hr2 : '\n' ∉ r) (hr3 : pyStrip r ≠ []) :
    parse_event_title (String.mk (mkFullTitle s "ĆW".toList i r)) =
      (some (String.mk (pyStrip s)), some "L",
       some (String.mk (pyStrip i)), some (String.mk (pyStrip r))) := by
  have hsd : dropWs s ≠ [] := fun h => hs3 (pyStrip_eq_nil_iff.2 (dropWs_eq_nil_iff.1 h))
  have hid : dropWs i ≠ [] := fun h => hi3 (pyStrip_eq_nil_iff.2 (dropWs_eq_nil_iff.1 h))
  have hrr : rdropWs r ≠ [] := fun h => hr3 (pyStrip_eq_nil_iff.2 (rdropWs_eq_nil_iff.1 h))
  have hZ : '(' ∉ "ĆW".toList ++ (") - Prowadzący: ".toList ++
      (i ++ (", Sala: ".toList ++ rdropWs r))) :=
    not_lparen_fullZ (by decide) hi1 hr1
  have hfs := fullSuffix_built hi2 hid hi4
    (fun hm => hr2 (mem_of_mem_rdropWs hm))
    (show dropWs (rdropWs r) ≠ [] from by rw [dropWs_rdropWs_comm]; exact hr3)
  have hneg1 : scanSubject afterFull1 []
      (dropWs s ++ (" (".toList ++ ("ĆW".toList ++ (") - Prowadzący: ".toList ++
        (i ++ (", Sala: ".toList ++ rdropWs r)))))) = none :=
    scanSubject_built_neg hs1 hZ (fun subj => rfl)
  have hneg2 : scanSubject (afterFullLit "E-W".toList) []
      (dropWs s ++ (" (".toList ++ ("ĆW".toList ++ (") - Prowadzący: ".toList ++
        (i ++ (", Sala: ".toList ++ rdropWs r)))))) = none :=
    scanSubject_built_neg hs1 hZ (fun subj => rfl)
  have hneg3 : scanSubject (afterFullLit "E-ĆW".toList) []
      (dropWs s ++ (" (".toList ++ ("ĆW".toList ++ (") - Prowadzący: ".toList ++
        (i ++ (", Sala: ".toList ++ rdropWs r)))))) = none :=
    scanSubject_built_neg hs1 hZ (fun subj => rfl)
  have hafter : afterFullLit "ĆW".toList (pyStrip s)
      ("ĆW".toList ++ (") - Prowadzący: ".toList ++ (i ++ (", Sala: ".toList ++ rdropWs r)))) =
      some (pyStrip s, dropWs i, dropWs (rdropWs r)) := by
    have h1 : matchLit ("ĆW".toList ++ [')'])
        ("ĆW".toList ++ (") - Prowadzący: ".toList ++ (i ++ (", Sala: ".toList ++ rdropWs r)))) =
        some (" - Prowadzący: ".toList ++ (i ++ (", Sala: ".toList ++ rdropWs r))) := rfl
    unfold afterFullLit
    rw [h1]
    show (match fullSuffix (" - Prowadzący: ".toList ++ (i ++ (", Sala: ".toList ++ rdropWs r))) with
      | some (i2, rm) => some (pyStrip s, i2, rm)
      | none => none) = some (pyStrip s, dropWs i, dropWs (rdropWs r))
    rw [hfs]
  have hpos : scanSubject (afterFullLit "ĆW".toList) []
      (pyStrip (mkFullTitle s "ĆW".toList i r)) =
      some (pyStrip s, dropWs i, dropWs (rdropWs r)) := by
    rw [pyStrip_mkFullTitle "ĆW".toList i hsd hrr]
    exact scanSubject_built_pos hs1 hs2 hsd hafter
  unfold parse_event_title
  rw [show (String.mk (mkFullTitle s "ĆW".toList i r)).toList =
    mkFullTitle s "ĆW".toList i r from rfl]
  dsimp only
  rw [pyStrip_mkFullTitle "ĆW".toList i hsd hrr] at hpos ⊢
  rw [hneg1, hneg2, hneg3, hpos]
  simp only [pyStrip_idem, pyStrip_dropWs, pyStrip_rdropWs]

theorem parse_built_short_W {s : List Char}
    (hs1 : '(' ∉ s) (hs2 : '\n' ∉ s) (hs3 : pyStrip s ≠ []) :
    parse_event_title (String.mk (mkShortTitle s "W".toList)) =
      (some (String.mk (pyStrip s)), some "W", none, none) := by
  have hsd : dropWs s ≠ [] := fun h => hs3 (pyStrip_eq_nil_iff.2 (dropWs_eq_nil_iff.1 h))
  have hZ : '(' ∉ "W".toList ++ [')'] := by decide
  have hneg1 : scanSubject afterFull1 []
      (dropWs s ++ (" (".toList ++ ("W".toList ++ [')']))) = none :=
    scanSubject_built_neg hs1 hZ (fun subj => rfl)
  have hneg2 : scanSubject (afterFullLit "E-W".toList) []
      (dropWs s ++ (" (".toList ++ ("W".toList ++ [')']))) = none :=
    scanSubject_built_neg hs1 hZ (fun subj => rfl)
  have hneg3 : scanSubject (afterFullLit "E-ĆW".toList) []
      (dropWs s ++ (" (".toList ++ ("W".toList ++ [')']))) = none :=
    scanSubject_built_neg hs1 hZ (fun subj => rfl)
  have hneg4 : scanSubject (afterFullLit "ĆW".toList) []
      (dropWs s ++ (" (".toList ++ ("W".toList ++ [')']))) = none :=
    scanSubject_built_neg hs1 hZ (fun subj => rfl)
  have hpos : scanSubject afterSimple1 []
      (dropWs s ++ (" (".toList ++ ("W".toList ++ [')']))) =
      some (pyStrip s, "W") :=
    scanSubject_built_pos hs1 hs2 hsd rfl
  unfold parse_event_title
  rw [show (String.mk (mkShortTitle s "W".toList)).toList =
    mkShortTitle s "W".toList from rfl]
  dsimp only
  rw [pyStrip_mkShortTitle "W".toList hsd]
  rw [hneg1, hneg2, hneg3, hneg4, hpos]
  simp only [pyStrip_idem]

theorem parse_built_short_L {s : List Char}
    (hs1 : '(' ∉ s) (hs2 : '\n' ∉ s) (hs3 : pyStrip s ≠ []) :
    parse_event_title (String.mk (mkShortTitle s "L".toList)) =
      (some (String.mk (pyStrip s)), some "L", none, none) := by
  have hsd : dropWs s ≠ [] := fun h => hs3 (pyStrip_eq_nil_iff.2 (dropWs_eq_nil_iff.1 h))
  have hZ : '(' ∉ "L".toList ++ [')'] := by decide
  have hneg1 : scanSubject afterFull1 []
      (dropWs s ++ (" (".toList ++ ("L".toList ++ [')']))) = none :=
    scanSubject_built_neg hs1 hZ (fun subj => rfl)
  have hneg2 : scanSubject (afterFullLit "E-W".toList) []
      (dropWs s ++ (" (".toList ++ ("L".toList ++ [')']))) = none :=
    scanSubject_built_neg hs1 hZ (fun subj => rfl)
  have hneg3 : scanSubject (afterFullLit "E-ĆW".toList) []
      (dropWs s ++ (" (".toList ++ ("L".toList ++ [')']))) = none :=
    scanSubject_built_neg hs1 hZ (fun subj => rfl)
  have hneg4 : scanSubject (afterFullLit "ĆW".toList) []
      (dropWs s ++ (" (".toList ++ ("L".toList ++ [')']))) = none :=
    scanSubject_built_neg hs1 hZ (fun subj => rfl)
  have hpos : scanSubject afterSimple1 []
      (dropWs s ++ (" (".toList ++ ("L".toList ++ [')']))) =
      some (pyStrip s, "L") :=
    scanSubject_built_pos hs1 hs2 hsd rfl
  unfold parse_event_title
  rw [show (String.mk (mkShortTitle s "L".toList)).toList =
    mkShortTitle s "L".toList from rfl]
  dsimp only
  rw [pyStrip_mkShortTitle "L".toList hsd]
  rw [hneg1, hneg2, hneg3, hneg4, hpos]
  simp only [pyStrip_idem]

theorem parse_built_short_ECW {s : List Char}
    (hs1 : '(' ∉ s) (hs2 : '\n' ∉ s) (hs3 : pyStrip s ≠ []) :
    parse_event_title (String.mk (mkShortTitle s "E-CW".toList)) =
      (some (String.mk (pyStrip s)), some "E-CW", none, none) := by
  have hsd : dropWs s ≠ [] := fun h => hs3 (pyStrip_eq_nil_iff.2 (dropWs_eq_nil_iff.1 h))
  have hZ : '(' ∉ "E-CW".toList ++ [')'] := by decide
  have hneg1 : scanSubject afterFull1 []
      (dropWs s ++ (" (".toList ++ ("E-CW".toList ++ [')']))) = none :=
    scanSubject_built_neg hs1 hZ (fun subj => rfl)
  have hneg2 : scanSubject (afterFullLit "E-W".toList) []
      (dropWs s ++ (" (".toList ++ ("E-CW".toList ++ [')']))) = none :=
    scanSubject_built_neg hs1 hZ (fun subj => rfl)
  have hneg3 : scanSubject (afterFullLit "E-ĆW".toList) []
      (dropWs s ++ (" (".toList ++ ("E-CW".toList ++ [')']))) = none :=
    scanSubject_built_neg hs1 hZ (fun subj => rfl)
  have hneg4 : scanSubject (afterFullLit "ĆW".toList) []
      (dropWs s ++ (" (".toList ++ ("E-CW".toList ++ [')']))) = none :=
    scanSubject_built_neg hs1 hZ (fun subj => rfl)
  have hpos : scanSubject afterSimple1 []
      (dropWs s ++ (" (".toList ++ ("E-CW".toList ++ [')']))) =
      some (pyStrip s, "E-CW") :=
    scanSubject_built_pos hs1 hs2 hsd rfl
  unfold parse_event_title
  rw [show (String.mk (mkShortTitle s "E-CW".toList)).toList =
    mkShortTitle s "E-CW".toList from rfl]
  dsimp only
  rw [pyStrip_mkShortTitle "E-CW".toList hsd]
  rw [hneg1, hneg2, hneg3, hneg4, hpos]
  simp only [pyStrip_idem]

theorem parse_built_short_EW {s : List Char}
    (hs1 : '(' ∉ s) (hs2 : '\n' ∉ s) (hs3 : pyStrip s ≠ []) :
    parse_event_title (String.mk (mkShortTitle s "E-W".toList)) =
      (some (String.mk (pyStrip s)), some "W", none, none) := by
  have hsd : dropWs s ≠ [] := fun h => hs3 (pyStrip_eq_nil_iff.2 (dropWs_eq_nil_iff.1 h))
  have hZ : '(' ∉ "E-W".toList ++ [')'] := by decide
  have hneg1 : scanSubject afterFull1 []
      (dropWs s ++ (" (".toList ++ ("E-W".toList ++ [')']))) = none :=
    scanSubject_built_neg hs1 hZ (fun subj => rfl)
  have hneg2 : scanSubject (afterFullLit "E-W".toList) []
      (dropWs s ++ (" (".toList ++ ("E-W".toList ++ [')']))) = none :=
    scanSubject_built_neg hs1 hZ (fun subj => rfl)
  have hneg3 : scanSubject (afterFullLit "E-ĆW".toList) []
      (dropWs s ++ (" (".toList ++ ("E-W".toList ++ [')']))) = none :=
    scanSubject_built_neg hs1 hZ (fun subj => rfl)
  have hneg4 : scanSubject (afterFullLit "ĆW".toList) []
      (dropWs s ++ (" (".toList ++ ("E-W".toList ++ [')']))) = none :=
    scanSubject_built_neg hs1 hZ (fun subj => rfl)
  have hneg5 : scanSubject afterSimple1 []
      (dropWs s ++ (" (".toList ++ ("E-W".toList ++ [')']))) = none :=
    scanSubject_built_neg hs1 hZ (fun subj => rfl)
  have hpos : scanSubject (afterSimpleLit "E-W".toList) []
      (dropWs s ++ (" (".toList ++ ("E-W".toList ++ [')']))) =
      some (pyStrip s) :=
    scanSubject_built_pos hs1 hs2 hsd rfl
  unfold parse_event_title
  rw [show (String.mk (mkShortTitle s "E-W".toList)).toList =
    mkShortTitle s "E-W".toList from rfl]
  dsimp only
  rw [pyStrip_mkShortTitle "E-W".toList hsd]
  rw [hneg1, hneg2, hneg3, hneg4, hneg5, hpos]
  simp only [pyStrip_idem]

theorem parse_built_short_ECWPL {s : List Char}
    (hs1 : '(' ∉ s) (hs2 : '\n' ∉ s) (hs3 : pyStrip s ≠ []) :
    parse_event_title (String.mk (mkShortTitle s "E-ĆW".toList)) =
      (some (String.mk (pyStrip s)), some "E-CW", none, none) := by
  have hsd : dropWs s ≠ [] := fun h => hs3 (pyStrip_eq_nil_iff.2 (dropWs_eq_nil_iff.1 h))
  have hZ : '(' ∉ "E-ĆW".toList ++ [')'] := by decide
  have hneg1 : scanSubject afterFull1 []
      (dropWs s ++ (" (".toList ++ ("E-ĆW".toList ++ [')']))) = none :=
    scanSubject_built_neg hs1 hZ (fun subj => rfl)
  have hneg2 : scanSubject (afterFullLit "E-W".toList) []
      (dropWs s ++ (" (".toList ++ ("E-ĆW".toList ++ [')']))) = none :=
    scanSubject_built_neg hs1 hZ (fun subj => rfl)
  have hneg3 : scanSubject (afterFullLit "E-ĆW".toList) []
      (dropWs s ++ (" (".toList ++ ("E-ĆW".toList ++ [')']))) = none :=
    scanSubject_built_neg hs1 hZ (fun subj => rfl)
  have hneg4 : scanSubject (afterFullLit "ĆW".toList) []
      (dropWs s ++ (" (".toList ++ ("E-ĆW".toList ++ [')']))) = none :=
    scanSubject_built_neg hs1 hZ (fun subj => rfl)
  have hneg5 : scanSubject afterSimple1 []
      (dropWs s ++ (" (".toList ++ ("E-ĆW".toList ++ [')']))) = none :=
    scanSubject_built_neg hs1 hZ (fun subj => rfl)
  have hneg6 : scanSubject (afterSimpleLit "E-W".toList) []
      (dropWs s ++ (" (".toList ++ ("E-ĆW".toList ++ [')']))) = none :=
    scanSubject_built_neg hs1 hZ (fun subj => rfl)
  have hpos : scanSubject (afterSimpleLit "E-ĆW".toList) []
      (dropWs s ++ (" (".toList ++ ("E-ĆW".toList ++ [')']))) =
      some (pyStrip s) :=
    scanSubject_built_pos hs1 hs2 hsd rfl
  unfold parse_event_title
  rw [show (String.mk (mkShortTitle s "E-ĆW".toList)).toList =
    mkShortTitle s "E-ĆW".toList from rfl]
  dsimp only
  rw [pyStrip_mkShortTitle "E-ĆW".toList hsd]
  rw [hneg1, hneg2, hneg3, hneg4, hneg5, hneg6, hpos]
  simp only [pyStrip_idem]

theorem parse_built_short_CW {s : List Char}
    (hs1 : '(' ∉ s) (hs2 : '\n' ∉ s) (hs3 : pyStrip s ≠ []) :
    parse_event_title (String.mk (mkShortTitle s "ĆW".toList)) =
      (some (String.mk (pyStrip s)), some "L", none, none) := by
  have hsd : dropWs s ≠ [] := fun h => hs3 (pyStrip_eq_nil_iff.2 (dropWs_eq_nil_iff.1 h))
  have hZ : '(' ∉ "ĆW".toList ++ [')'] := by decide
  have hneg1 : scanSubject afterFull1 []
      (dropWs s ++ (" (".toList ++ ("ĆW".toList ++ [')']))) = none :=
    scanSubject_built_neg hs1 hZ (fun subj => rfl)
  have hneg2 : scanSubject (afterFullLit "E-W".toList) []
      (dropWs s ++ (" (".toList ++ ("ĆW".toList ++ [')']))) = none :=
    scanSubject_built_neg hs1 hZ (fun subj => rfl)
  have hneg3 : scanSubject (afterFullLit "E-ĆW".toList) []
      (dropWs s ++ (" (".toList ++ ("ĆW".toList ++ [')']))) = none :=
    scanSubject_built_neg hs1 hZ (fun subj => rfl)
  have hneg4 : scanSubject (afterFullLit "ĆW".toList) []
      (dropWs s ++ (" (".toList ++ ("ĆW".toList ++ [')']))) = none :=
    scanSubject_built_neg hs1 hZ (fun subj => rfl)
  have hneg5 : scanSubject afterSimple1 []
      (dropWs s ++ (" (".toList ++ ("ĆW".toList ++ [')']))) = none :=
    scanSubject_built_neg hs1 hZ (fun subj => rfl)
  have hneg6 : scanSubject (afterSimpleLit "E-W".toList) []
      (dropWs s ++ (" (".toList ++ ("ĆW".toList ++ [')']))) = none :=
    scanSubject_built_neg hs1 hZ (fun subj => rfl)
  have hneg7 : scanSubject (afterSimpleLit "E-ĆW".toList) []
      (dropWs s ++ (" (".toList ++ ("ĆW".toList ++ [')']))) = none :=
    scanSubject_built_neg hs1 hZ (fun subj => rfl)
  have hpos : scanSubject (afterSimpleLit "ĆW".toList) []
      (dropWs s ++ (" (".toList ++ ("ĆW".toList ++ [')']))) =
      some (pyStrip s) :=
    scanSubject_built_pos hs1 hs2 hsd rfl
  unfold parse_event_title
  rw [show (String.mk (mkShortTitle s "ĆW".toList)).toList =
    mkShortTitle s "ĆW".toList from rfl]
  dsimp only
  rw [pyStrip_mkShortTitle "ĆW".toList hsd]
  rw [hneg1, hneg2, hneg3, hneg4, hneg5, hneg6, hneg7, hpos]
  simp only [pyStrip_idem]

theorem tag_ne_of_not_sixTags {tag : List Char} (h : tag ∉ sixTags) :
    tag ≠ ['W'] ∧ tag ≠ ['L'] ∧ tag ≠ ['E', '-', 'C', 'W'] ∧
    tag ≠ ['E', '-', 'W'] ∧ tag ≠ ['E', '-', 'Ć', 'W'] ∧ tag ≠ ['Ć', 'W'] := by
  refine ⟨?_, ?_, ?_, ?_, ?_, ?_⟩ <;>
    · rintro rfl
      exact h (by decide)

/-- A short-form title whose bracketed tag is not one of the six recognized
tags parses to the all-`None` result. -/
theorem parse_built_short_other {s tag : List Char}
    (hs1 : '(' ∉ s) (hs3 : pyStrip s ≠ [])
    (ht1 : '(' ∉ tag) (ht2 : ')' ∉ tag) (ht3 : tag ∉ sixTags) :
    parse_event_title (String.mk (mkShortTitle s tag)) = (none, none, none, none) := by
  obtain ⟨hW, hL, hE, hEW, hECW, hCW⟩ := tag_ne_of_not_sixTags ht3
  have hsd : dropWs s ≠ [] := fun h => hs3 (pyStrip_eq_nil_iff.2 (dropWs_eq_nil_iff.1 h))
  have hZ : '(' ∉ tag ++ [')'] := by
    intro hm
    rcases List.mem_append.1 hm with h | h
    · exact ht1 h
    · revert h; decide
  have hf1 : ∀ subj : List Char, afterFull1 subj (tag ++ [')']) = none := by
    intro subj
    unfold afterFull1
    rw [tagP1_none ht2 hW hL hE]
  have hf2 : ∀ subj : List Char, afterFullLit "E-W".toList subj (tag ++ [')']) = none := by
    intro subj
    unfold afterFullLit
    rw [@matchLit_tag_ne "E-W".toList tag [] (by decide) ht2 hEW]
  have hf3 : ∀ subj : List Char, afterFullLit "E-ĆW".toList subj (tag ++ [')']) = none := by
    intro subj
    unfold afterFullLit
    rw [@matchLit_tag_ne "E-ĆW".toList tag [] (by decide) ht2 hECW]
  have hf4 : ∀ subj : List Char, afterFullLit "ĆW".toList subj (tag ++ [')']) = none := by
    intro subj
    unfold afterFullLit
    rw [@matchLit_tag_ne "ĆW".toList tag [] (by decide) ht2 hCW]
  have hf5 : ∀ subj : List Char, afterSimple1 subj (tag ++ [')']) = none := by
    intro subj
    unfold afterSimple1
    rw [tagP1_none ht2 hW hL hE]
  have hf6 : ∀ subj : List Char, afterSimpleLit "E-W".toList subj (tag ++ [')']) = none := by
    intro subj
    unfold afterSimpleLit
    rw [@matchLit_tag_ne "E-W".toList tag [] (by decide) ht2 hEW]
  have hf7 : ∀ subj : List Char, afterSimpleLit "E-ĆW".toList subj (tag ++ [')']) = none := by
    intro subj
    unfold afterSimpleLit
    rw [@matchLit_tag_ne "E-ĆW".toList tag [] (by decide) ht2 hECW]
  have hf8 : ∀ subj : List Char, afterSimpleLit "ĆW".toList subj (tag ++ [')']) = none := by
    intro subj
    unfold afterSimpleLit
    rw [@matchLit_tag_ne "ĆW".toList tag [] (by decide) ht2 hCW]
  unfold parse_event_title
  rw [show (String.mk (mkShortTitle s tag)).toList = mkShortTitle s tag from rfl]
  dsimp only
  rw [pyStrip_mkShortTitle tag hsd]
  rw [scanSubject_built_neg hs1 hZ hf1, scanSubject_built_neg hs1 hZ hf2,
    scanSubject_built_neg hs1 hZ hf3, scanSubject_built_neg hs1 hZ hf4,
    scanSubject_built_neg hs1 hZ hf5, scanSubject_built_neg hs1 hZ hf6,
    scanSubject_built_neg hs1 hZ hf7, scanSubject_built_neg hs1 hZ hf8]

/-- A full-form title whose bracketed tag is not one of the six recognized
tags parses to the all-`None` result (the instructor and room fields may not
themselves contain a parenthesis). -/
theorem parse_built_full_other {s tag i r : List Char}
    (hs1 : '(' ∉ s) (hs3 : pyStrip s ≠ [])
    (ht1 : '(' ∉ tag) (ht2 : ')' ∉ tag) (ht3 : tag ∉ sixTags)
    (hi1 : '(' ∉ i) (hr1 : '(' ∉ r) (hr3 : pyStrip r ≠ []) :
    parse_event_title (String.mk (mkFullTitle s tag i r)) = (none, none, none, none) := by
  obtain ⟨hW, hL, hE, hEW, hECW, hCW⟩ := tag_ne_of_not_sixTags ht3
  have hsd : dropWs s ≠ [] := fun h => hs3 (pyStrip_eq_nil_iff.2 (dropWs_eq_nil_iff.1 h))
  have hrr : rdropWs r ≠ [] := fun h => hr3 (pyStrip_eq_nil_iff.2 (rdropWs_eq_nil_iff.1 h))
  have hZ : '(' ∉ tag ++ (") - Prowadzący: ".toList ++
      (i ++ (", Sala: ".toList ++ rdropWs r))) := not_lparen_fullZ ht1 hi1 hr1
  have hZM : tag ++ (") - Prowadzący: ".toList ++ (i ++ (", Sala: ".toList ++ rdropWs r))) =
      tag ++ ')' :: (" - Prowadzący: ".toList ++ (i ++ (", Sala: ".toList ++ rdropWs r))) := rfl
  have hf1 : ∀ subj : List Char, afterFull1 subj
      (tag ++ (") - Prowadzący: ".toList ++ (i ++ (", Sala: ".toList ++ rdropWs r)))) = none := by
    intro subj
    unfold afterFull1
    rw [hZM, tagP1_none ht2 hW hL hE]
  have hf2 : ∀ subj : List Char, afterFullLit "E-W".toList subj
      (tag ++ (") - Prowadzący: ".toList ++ (i ++ (", Sala: ".toList ++ rdropWs r)))) = none := by
    intro subj
    unfold afterFullLit
    rw [hZM, @matchLit_tag_ne "E-W".toList tag _ (by decide) ht2 hEW]
  have hf3 : ∀ subj : List Char, afterFullLit "E-ĆW".toList subj
      (tag ++ (") - Prowadzący: ".toList ++ (i ++ (", Sala: ".toList ++ rdropWs r)))) = none := by
    intro subj
    unfold afterFullLit
    rw [hZM, @matchLit_tag_ne "E-ĆW".toList tag _ (by decide) ht2 hECW]
  have hf4 : ∀ subj : List Char, afterFullLit "ĆW".toList subj
      (tag ++ (") - Prowadzący: ".toList ++ (i ++ (", Sala: ".toList ++ rdropWs r)))) = none := by
    intro subj
    unfold afterFullLit
    rw [hZM, @matchLit_tag_ne "ĆW".toList tag _ (by decide) ht2 hCW]
  have hf5 : ∀ subj : List Char, afterSimple1 subj
      (tag ++ (") - Prowadzący: ".toList ++ (i ++ (", Sala: ".toList ++ rdropWs r)))) = none := by
    intro subj
    unfold afterSimple1
    rw [hZM, tagP1_none ht2 hW hL hE]
  have hf6 : ∀ subj : List Char, afterSimpleLit "E-W".toList subj
      (tag ++ (") - Prowadzący: ".toList ++ (i ++ (", Sala: ".toList ++ rdropWs r)))) = none := by
    intro subj
    unfold afterSimpleLit
    rw [hZM, @matchLit_tag_ne "E-W".toList tag _ (by decide) ht2 hEW]
  have hf7 : ∀ subj : List Char, afterSimpleLit "E-ĆW".toList subj
      (tag ++ (") - Prowadzący: ".toList ++ (i ++ (", Sala: ".toList ++ rdropWs r)))) = none := by
    intro subj
    unfold afterSimpleLit
    rw [hZM, @matchLit_tag_ne "E-ĆW".toList tag _ (by decide) ht2 hECW]
  have hf8 : ∀ subj : List Char, afterSimpleLit "ĆW".toList subj
      (tag ++ (") - Prowadzący: ".toList ++ (i ++ (", Sala: ".toList ++ rdropWs r)))) = none := by
    intro subj
    unfold afterSimpleLit
    rw [hZM, @matchLit_tag_ne "ĆW".toList tag _ (by decide) ht2 hCW]
  unfold parse_event_title
  rw [show (String.mk (mkFullTitle s tag i r)).toList = mkFullTitle s tag i r from rfl]
  dsimp only
  rw [pyStrip_mkFullTitle tag i hsd hrr]
  rw [scanSubject_built_neg hs1 hZ hf1, scanSubject_built_neg hs1 hZ hf2,
    scanSubject_built_neg hs1 hZ hf3, scanSubject_built_neg hs1 hZ hf4,
    scanSubject_built_neg hs1 hZ hf5, scanSubject_built_neg hs1 hZ hf6,
    scanSubject_built_neg hs1 hZ hf7, scanSubject_built_neg hs1 hZ hf8]

theorem ics_parse_built_full_W {s i r : List Char}
    (hs1 : '(' ∉ s) (hs2 : '\n' ∉ s) (hs3 : pyStrip s ≠ [])
    (hi2 : '\n' ∉ i) (hi3 : pyStrip i ≠ [])
    (hi4 : containsSub "Sala:".toList i = false)
    (hr2 : '\n' ∉ r) (hr3 : pyStrip r ≠ []) :
    ics_parse_event_title (String.mk (mkFullTitle s "W".toList i r)) =
      (some (String.mk (pyStrip s)), some "W",
       some (String.mk (pyStrip i)), some (String.mk (pyStrip r))) := by
  have hsd : dropWs s ≠ [] := fun h => hs3 (pyStrip_eq_nil_iff.2 (dropWs_eq_nil_iff.1 h))
  have hid : dropWs i ≠ [] := fun h => hi3 (pyStrip_eq_nil_iff.2 (dropWs_eq_nil_iff.1 h))
  have hrr : rdropWs r ≠ [] := fun h => hr3 (pyStrip_eq_nil_iff.2 (rdropWs_eq_nil_iff.1 h))
  have hfs := fullSuffix_built hi2 hid hi4
    (fun hm => hr2 (mem_of_mem_rdropWs hm))
    (show dropWs (rdropWs r) ≠ [] from by rw [dropWs_rdropWs_comm]; exact hr3)
  have hafter : afterFull1 (pyStrip s)
      ("W".toList ++ (") - Prowadzący: ".toList ++ (i ++ (", Sala: ".toList ++ rdropWs r)))) =
      some (pyStrip s, "W", dropWs i, dropWs (rdropWs r)) := by
    have h1 : tagP1 ("W".toList ++ (") - Prowadzący: ".toList ++
        (i ++ (", Sala: ".toList ++ rdropWs r)))) =
        some ("W", " - Prowadzący: ".toList ++ (i ++ (", Sala: ".toList ++ rdropWs r))) := rfl
    unfold afterFull1
    rw [h1]
    show (match fullSuffix (" - Prowadzący: ".toList ++ (i ++ (", Sala: ".toList ++ rdropWs r))) with
      | some (i2, rm) => some (pyStrip s, "W", i2, rm)
      | none => none) = some (pyStrip s, "W", dropWs i, dropWs (rdropWs r))
    rw [hfs]
  have hscan : scanSubject afterFull1 [] (pyStrip (mkFullTitle s "W".toList i r)) =
      some (pyStrip s, "W", dropWs i, dropWs (rdropWs r)) := by
    rw [pyStrip_mkFullTitle "W".toList i hsd hrr]
    exact scanSubject_built_pos hs1 hs2 hsd hafter
  unfold ics_parse_event_title
  rw [show (String.mk (mkFullTitle s "W".toList i r)).toList =
    mkFullTitle s "W".toList i r from rfl]
  dsimp only
  rw [hscan]
  simp only [pyStrip_idem, pyStrip_dropWs, pyStrip_rdropWs]

theorem ics_parse_built_full_L {s i r : List Char}
    (hs1 : '(' ∉ s) (hs2 : '\n' ∉ s) (hs3 : pyStrip s ≠ [])
    (hi2 : '\n' ∉ i) (hi3 : pyStrip i ≠ [])
    (hi4 : containsSub "Sala:".toList i = false)
    (hr2 : '\n' ∉ r) (hr3 : pyStrip r ≠ []) :
    ics_parse_event_title (String.mk (mkFullTitle s "L".toList i r)) =
      (some (String.mk (pyStrip s)), some "L",
       some (String.mk (pyStrip i)), some (String.mk (pyStrip r))) := by
  have hsd : dropWs s ≠ [] := fun h => hs3 (pyStrip_eq_nil_iff.2 (dropWs_eq_nil_iff.1 h))
  have hid : dropWs i ≠ [] := fun h => hi3 (pyStrip_eq_nil_iff.2 (dropWs_eq_nil_iff.1 h))
  have hrr : rdropWs r ≠ [] := fun h => hr3 (pyStrip_eq_nil_iff.2 (rdropWs_eq_nil_iff.1 h))
  have hfs := fullSuffix_built hi2 hid hi4
    (fun hm => hr2 (mem_of_mem_rdropWs hm))
    (show dropWs (rdropWs r) ≠ [] from by rw [dropWs_rdropWs_comm]; exact hr3)
  have hafter : afterFull1 (pyStrip s)
      ("L".toList ++ (") - Prowadzący: ".toList ++ (i ++ (", Sala: ".toList ++ rdropWs r)))) =
      some (pyStrip s, "L", dropWs i, dropWs (rdropWs r)) := by
    have h1 : tagP1 ("L".toList ++ (") - Prowadzący: ".toList ++
        (i ++ (", Sala: ".toList ++ rdropWs r)))) =
        some ("L", " - Prowadzący: ".toList ++ (i ++ (", Sala: ".toList ++ rdropWs r))) := rfl
    unfold afterFull1
    rw [h1]
    show (match fullSuffix (" - Prowadzący: ".toList ++ (i ++ (", Sala: ".toList ++ rdropWs r))) with
      | some (i2, rm) => some (pyStrip s, "L", i2, rm)
      | none => none) = some (pyStrip s, "L", dropWs i, dropWs (rdropWs r))
    rw [hfs]
  have hscan : scanSubject afterFull1 [] (pyStrip (mkFullTitle s "L".toList i r)) =
      some (pyStrip s, "L", dropWs i, dropWs (rdropWs r)) := by
    rw [pyStrip_mkFullTitle "L".toList i hsd hrr]
    exact scanSubject_built_pos hs1 hs2 hsd hafter
  unfold ics_parse_event_title
  rw [show (String.mk (mkFullTitle s "L".toList i r)).toList =
    mkFullTitle s "L".toList i r from rfl]
  dsimp only
  rw [hscan]
  simp only [pyStrip_idem, pyStrip_dropWs, pyStrip_rdropWs]

theorem ics_parse_built_full_ECW {s i r : List Char}
    (hs1 : '(' ∉ s) (hs2 : '\n' ∉ s) (hs3 : pyStrip s ≠ [])
    (hi2 : '\n' ∉ i) (hi3 : pyStrip i ≠ [])
    (hi4 : containsSub "Sala:".toList i = false)
    (hr2 : '\n' ∉ r) (hr3 : pyStrip r ≠ []) :
    ics_parse_event_title (String.mk (mkFullTitle s "E-CW".toList i r)) =
      (some (String.mk (pyStrip s)), some "E-CW",
       some (String.mk (pyStrip i)), some (String.mk (pyStrip r))) := by
  have hsd : dropWs s ≠ [] := fun h => hs3 (pyStrip_eq_nil_iff.2 (dropWs_eq_nil_iff.1 h))
  have hid : dropWs i ≠ [] := fun h => hi3 (pyStrip_eq_nil_iff.2 (dropWs_eq_nil_iff.1 h))
  have hrr : rdropWs r ≠ [] := fun h => hr3 (pyStrip_eq_nil_iff.2 (rdropWs_eq_nil_iff.1 h))
  have hfs := fullSuffix_built hi2 hid hi4
    (fun hm => hr2 (mem_of_mem_rdropWs hm))
    (show dropWs (rdropWs r) ≠ [] from by rw [dropWs_rdropWs_comm]; exact hr3)
  have hafter : afterFull1 (pyStrip s)
      ("E-CW".toList ++ (") - Prowadzący: ".toList ++ (i ++ (", Sala: ".toList ++ rdropWs r)))) =
      some (pyStrip s, "E-CW", dropWs i, dropWs (rdropWs r)) := by
    have h1 : tagP1 ("E-CW".toList ++ (") - Prowadzący: ".toList ++
        (i ++ (", Sala: ".toList ++ rdropWs r)))) =
        some ("E-CW", " - Prowadzący: ".toList ++ (i ++ (", Sala: ".toList ++ rdropWs r))) := rfl
    unfold afterFull1
    rw [h1]
    show (match fullSuffix (" - Prowadzący: ".toList ++ (i ++ (", Sala: ".toList ++ rdropWs r))) with
      | some (i2, rm) => some (pyStrip s, "E-CW", i2, rm)
      | none => none) = some (pyStrip s, "E-CW", dropWs i, dropWs (rdropWs r))
    rw [hfs]
  have hscan : scanSubject afterFull1 [] (pyStrip (mkFullTitle s "E-CW".toList i r)) =
      some (pyStrip s, "E-CW", dropWs i, dropWs (rdropWs r)) := by
    rw [pyStrip_mkFullTitle "E-CW".toList i hsd hrr]
    exact scanSubject_built_pos hs1 hs2 hsd hafter
  unfold ics_parse_event_title
  rw [show (String.mk (mkFullTitle s "E-CW".toList i r)).toList =
    mkFullTitle s "E-CW".toList i r from rfl]
  dsimp only
  rw [hscan]
  simp only [pyStrip_idem, pyStrip_dropWs, pyStrip_rdropWs]

theorem ics_parse_built_short_W {s : List Char}
    (hs1 : '(' ∉ s) (hs2 : '\n' ∉ s) (hs3 : pyStrip s ≠ []) :
    ics_parse_event_title (String.mk (mkShortTitle s "W".toList)) =
      (some (String.mk (pyStrip s)), some "W", none, none) := by
  have hsd : dropWs s ≠ [] := fun h => hs3 (pyStrip_eq_nil_iff.2 (dropWs_eq_nil_iff.1 h))
  have hZ : '(' ∉ "W".toList ++ [')'] := by decide
  have hneg1 : scanSubject afterFull1 []
      (dropWs s ++ (" (".toList ++ ("W".toList ++ [')']))) = none :=
    scanSubject_built_neg hs1 hZ (fun subj => rfl)
  have hpos : scanSubject afterSimple1 []
      (dropWs s ++ (" (".toList ++ ("W".toList ++ [')']))) =
      some (pyStrip s, "W") :=
    scanSubject_built_pos hs1 hs2 hsd rfl
  unfold ics_parse_event_title
  rw [show (String.mk (mkShortTitle s "W".toList)).toList =
    mkShortTitle s "W".toList from rfl]
  dsimp only
  rw [pyStrip_mkShortTitle "W".toList hsd]
  rw [hneg1, hpos]
  simp only [pyStrip_idem]

theorem ics_parse_built_short_L {s : List Char}
    (hs1 : '(' ∉ s) (hs2 : '\n' ∉ s) (hs3 : pyStrip s ≠ []) :
    ics_parse_event_title (String.mk (mkShortTitle s "L".toList)) =
      (some (String.mk (pyStrip s)), some "L", none, none) := by
  have hsd : dropWs s ≠ [] := fun h => hs3 (pyStrip_eq_nil_iff.2 (dropWs_eq_nil_iff.1 h))
  have hZ : '(' ∉ "L".toList ++ [')'] := by decide
  have hneg1 : scanSubject afterFull1 []
      (dropWs s ++ (" (".toList ++ ("L".toList ++ [')']))) = none :=
    scanSubject_built_neg hs1 hZ (fun subj => rfl)
  have hpos : scanSubject afterSimple1 []
      (dropWs s ++ (" (".toList ++ ("L".toList ++ [')']))) =
      some (pyStrip s, "L") :=
    scanSubject_built_pos hs1 hs2 hsd rfl
  unfold ics_parse_event_title
  rw [show (String.mk (mkShortTitle s "L".toList)).toList =
    mkShortTitle s "L".toList from rfl]
  dsimp only
  rw [pyStrip_mkShortTitle "L".toList hsd]
  rw [hneg1, hpos]
  simp only [pyStrip_idem]

theorem ics_parse_built_short_ECW {s : List Char}
    (hs1 : '(' ∉ s) (hs2 : '\n' ∉ s) (hs3 : pyStrip s ≠ []) :
    ics_parse_event_title (String.mk (mkShortTitle s "E-CW".toList)) =
      (some (String.mk (pyStrip s)), some "E-CW", none, none) := by
  have hsd : dropWs s ≠ [] := fun h => hs3 (pyStrip_eq_nil_iff.2 (dropWs_eq_nil_iff.1 h))
  have hZ : '(' ∉ "E-CW".toList ++ [')'] := by decide
  have hneg1 : scanSubject afterFull1 []
      (dropWs s ++ (" (".toList ++ ("E-CW".toList ++ [')']))) = none :=
    scanSubject_built_neg hs1 hZ (fun subj => rfl)
  have hpos : scanSubject afterSimple1 []
      (dropWs s ++ (" (".toList ++ ("E-CW".toList ++ [')']))) =
      some (pyStrip s, "E-CW") :=
    scanSubject_built_pos hs1 hs2 hsd rfl
  unfold ics_parse_event_title
  rw [show (String.mk (mkShortTitle s "E-CW".toList)).toList =
    mkShortTitle s "E-CW".toList from rfl]
  dsimp only
  rw [pyStrip_mkShortTitle "E-CW".toList hsd]
  rw [hneg1, hpos]
  simp only [pyStrip_idem]

/-- The three tags recognized by `ICSAnalyzer.parse_event_title`. -/
def icsTags : List (List Char) := ["W".toList, "L".toList, "E-CW".toList]

theorem tag_ne_of_not_icsTags {tag : List Char} (h : tag ∉ icsTags) :
    tag ≠ ['W'] ∧ tag ≠ ['L'] ∧ tag ≠ ['E', '-', 'C', 'W'] := by
  refine ⟨?_, ?_, ?_⟩ <;>
    · rintro rfl
      exact h (by decide)

/-- `ICSAnalyzer.parse_event_title` rejects every short-form title whose
bracketed tag is not `W`, `L` or `E-CW` — including `E-W`, `ĆW` and
`E-ĆW`. -/
theorem ics_parse_built_short_other {s tag : List Char}
    (hs1 : '(' ∉ s) (hs3 : pyStrip s ≠ [])
    (ht1 : '(' ∉ tag) (ht2 : ')' ∉ tag) (ht3 : tag ∉ icsTags) :
    ics_parse_event_title (String.mk (mkShortTitle s tag)) = (none, none, none, none) := by
  obtain ⟨hW, hL, hE⟩ := tag_ne_of_not_icsTags ht3
  have hsd : dropWs s ≠ [] := fun h => hs3 (pyStrip_eq_nil_iff.2 (dropWs_eq_nil_iff.1 h))
  have hZ : '(' ∉ tag ++ [')'] := by
    intro hm
    rcases List.mem_append.1 hm with h | h
    · exact ht1 h
    · revert h; decide
  have hf1 : ∀ subj : List Char, afterFull1 subj (tag ++ [')']) = none := by
    intro subj
    unfold afterFull1
    rw [tagP1_none ht2 hW hL hE]
  have hf5 : ∀ subj : List Char, afterSimple1 subj (tag ++ [')']) = none := by
    intro subj
    unfold afterSimple1
    rw [tagP1_none ht2 hW hL hE]
  unfold ics_parse_event_title
  rw [show (String.mk (mkShortTitle s tag)).toList = mkShortTitle s tag from rfl]
  dsimp only
  rw [pyStrip_mkShortTitle tag hsd]
  rw [scanSubject_built_neg hs1 hZ hf1, scanSubject_built_neg hs1 hZ hf5]

/-- `ICSAnalyzer.parse_event_title` rejects every full-form title whose
bracketed tag is not `W`, `L` or `E-CW`. -/
theorem ics_parse_built_full_other {s tag i r : List Char}
    (hs1 : '(' ∉ s) (hs3 : pyStrip s ≠ [])
    (ht1 : '(' ∉ tag) (ht2 : ')' ∉ tag) (ht3 : tag ∉ icsTags)
    (hi1 : '(' ∉ i) (hr1 : '(' ∉ r) (hr3 : pyStrip r ≠ []) :
    ics_parse_event_title (String.mk (mkFullTitle s tag i r)) = (none, none, none, none) := by
  obtain ⟨hW, hL, hE⟩ := tag_ne_of_not_icsTags ht3
  have hsd : dropWs s ≠ [] := fun h => hs3 (pyStrip_eq_nil_iff.2 (dropWs_eq_nil_iff.1 h))
  have hrr : rdropWs r ≠ [] := fun h => hr3 (pyStrip_eq_nil_iff.2 (rdropWs_eq_nil_iff.1 h))
  have hZ : '(' ∉ tag ++ (") - Prowadzący: ".toList ++
      (i ++ (", Sala: ".toList ++ rdropWs r))) := not_lparen_fullZ ht1 hi1 hr1
  have hZM : tag ++ (") - Prowadzący: ".toList ++ (i ++ (", Sala: ".toList ++ rdropWs r))) =
      tag ++ ')' :: (" - Prowadzący: ".toList ++ (i ++ (", Sala: ".toList ++ rdropWs r))) := rfl
  have hf1 : ∀ subj : List Char, afterFull1 subj
      (tag ++ (") - Prowadzący: ".toList ++ (i ++ (", Sala: ".toList ++ rdropWs r)))) = none := by
    intro subj
    unfold afterFull1
    rw [hZM, tagP1_none ht2 hW hL hE]
  have hf5 : ∀ subj : List Char, afterSimple1 subj
      (tag ++ (") - Prowadzący: ".toList ++ (i ++ (", Sala: ".toList ++ rdropWs r)))) = none := by
    intro subj
    unfold afterSimple1
    rw [hZM, tagP1_none ht2 hW hL hE]
  unfold ics_parse_event_title
  rw [show (String.mk (mkFullTitle s tag i r)).toList = mkFullTitle s tag i r from rfl]
  dsimp only
  rw [pyStrip_mkFullTitle tag i hsd hrr]
  rw [scanSubject_built_neg hs1 hZ hf1, scanSubject_built_neg hs1 hZ hf5]

theorem containsSub_mono {n1 n2 h : List Char} (h12 : n1 <:+: n2)
    (hc : containsSub n2 h = true) : containsSub n1 h = true :=
  containsSub_isInfix_iff.2 (h12.trans (containsSub_isInfix_iff.1 hc))

theorem teams_or_redundant (rl : List Char) :
    (containsSub "teams".toList rl || containsSub "platforma teams".toList rl) =
      containsSub "teams".toList rl := by
  cases hA : containsSub "teams".toList rl with
  | true => rfl
  | false =>
    cases hB : containsSub "platforma teams".toList rl with
    | true =>
      have := containsSub_mono (containsSub_isInfix_iff.1 (show
        containsSub "teams".toList "platforma teams".toList = true from rfl)) hB
      rw [this] at hA
      cases hA
    | false => rfl

theorem moodle_or_redundant (rl : List Char) :
    (containsSub "moodle".toList rl || containsSub "platforma moodle".toList rl) =
      containsSub "moodle".toList rl := by
  cases hA : containsSub "moodle".toList rl with
  | true => rfl
  | false =>
    cases hB : containsSub "platforma moodle".toList rl with
    | true =>
      have := containsSub_mono (containsSub_isInfix_iff.1 (show
        containsSub "moodle".toList "platforma moodle".toList = true from rfl)) hB
      rw [this] at hA
      cases hA
    | false => rfl

theorem platforma_teams_imp {rl : List Char}
    (hB : containsSub "platforma teams".toList rl = true) :
    containsSub "teams".toList rl = true :=
  containsSub_mono (containsSub_isInfix_iff.1 (show
    containsSub "teams".toList "platforma teams".toList = true from rfl)) hB

theorem platforma_moodle_imp {rl : List Char}
    (hB : containsSub "platforma moodle".toList rl = true) :
    containsSub "moodle".toList rl = true :=
  containsSub_mono (containsSub_isInfix_iff.1 (show
    containsSub "moodle".toList "platforma moodle".toList = true from rfl)) hB

theorem categorize_eq_spec (room : Option String) :
    categorize_location room = spec_classify ['a', 'b', 'c', 'd', 'e', 'f'] room := by
  cases room with
  | none => rfl
  | some r =>
    by_cases h0 : r.data = []
    · simp [categorize_location, spec_classify, h0]
    · cases hA : containsSub ['t', 'e', 'a', 'm', 's'] (pyLower r.data) with
      | true => simp [categorize_location, spec_classify, h0, hA]
      | false =>
        have hA' : containsSub ['p', 'l', 'a', 't', 'f', 'o', 'r', 'm', 'a', ' ',
            't', 'e', 'a', 'm', 's'] (pyLower r.data) = false := by
          cases hB : containsSub ['p', 'l', 'a', 't', 'f', 'o', 'r', 'm', 'a', ' ',
              't', 'e', 'a', 'm', 's'] (pyLower r.data) with
          | false => rfl
          | true =>
            have h2 : containsSub ['t', 'e', 'a', 'm', 's'] (pyLower r.data) = true :=
              platforma_teams_imp hB
            rw [h2] at hA
            cases hA
        cases hB : containsSub ['m', 'o', 'o', 'd', 'l', 'e'] (pyLower r.data) with
        | true => simp [categorize_location, spec_classify, h0, hA, hA', hB]
        | false =>
          have hB' : containsSub ['p', 'l', 'a', 't', 'f', 'o', 'r', 'm', 'a', ' ',
              'm', 'o', 'o', 'd', 'l', 'e'] (pyLower r.data) = false := by
            cases hC : containsSub ['p', 'l', 'a', 't', 'f', 'o', 'r', 'm', 'a', ' ',
                'm', 'o', 'o', 'd', 'l', 'e'] (pyLower r.data) with
            | false => rfl
            | true =>
              have h2 : containsSub ['m', 'o', 'o', 'd', 'l', 'e'] (pyLower r.data) = true :=
                platforma_moodle_imp hC
              rw [h2] at hB
              cases hB
          simp [categorize_location, spec_classify, h0, hA, hA', hB, hB']

theorem ics_categorize_eq_spec (room : Option String) :
    ics_categorize_location room = spec_classify ['a', 'b', 'c'] room := by
  cases room with
  | none => rfl
  | some r =>
    by_cases h0 : r.data = []
    · simp [ics_categorize_location, spec_classify, h0]
    · cases hA : containsSub ['t', 'e', 'a', 'm', 's'] (pyLower r.data) with
      | true => simp [ics_categorize_location, spec_classify, h0, hA]
      | false =>
        have hA' : containsSub ['p', 'l', 'a', 't', 'f', 'o', 'r', 'm', 'a', ' ',
            't', 'e', 'a', 'm', 's'] (pyLower r.data) = false := by
          cases hB : containsSub ['p', 'l', 'a', 't', 'f', 'o', 'r', 'm', 'a', ' ',
              't', 'e', 'a', 'm', 's'] (pyLower r.data) with
          | false => rfl
          | true =>
            have h2 : containsSub ['t', 'e', 'a', 'm', 's'] (pyLower r.data) = true :=
              platforma_teams_imp hB
            rw [h2] at hA
            cases hA
        cases hB : containsSub ['m', 'o', 'o', 'd', 'l', 'e'] (pyLower r.data) with
        | true => simp [ics_categorize_location, spec_classify, h0, hA, hA', hB]
        | false =>
          have hB' : containsSub ['p', 'l', 'a', 't', 'f', 'o', 'r', 'm', 'a', ' ',
              'm', 'o', 'o', 'd', 'l', 'e'] (pyLower r.data) = false := by
            cases hC : containsSub ['p', 'l', 'a', 't', 'f', 'o', 'r', 'm', 'a', ' ',
                'm', 'o', 'o', 'd', 'l', 'e'] (pyLower r.data) with
            | false => rfl
            | true =>
              have h2 : containsSub ['m', 'o', 'o', 'd', 'l', 'e'] (pyLower r.data) = true :=
                platforma_moodle_imp hC
              rw [h2] at hB
              cases hB
          simp [ics_categorize_location, spec_classify, h0, hA, hA', hB, hB']

/-- C3 counterexample: the claim's building-code rule uses the alphabet
`a`–`f`, but `ICSAnalyzer.categorize_location` (ics_analyzer.py, line 91)
only accepts `a`–`c`; the room `"D101"` begins with `d` and contains a
digit, yet that classifier does not report it as on-campus. -/
theorem C3_counterexample :
    ics_categorize_location (some "D101") = LocCat.inne_lokalizacje ∧
    LocCat.inne_lokalizacje ≠ LocCat.uczelnia := by
  constructor
  · rfl
  · decide

/-- C3 (amended): each classifier is a total function equal to the spec's
ordered rule list (absent → Other; `teams` → Teams; `moodle` → Moodle;
campus keywords → OnCampus; building-code heuristic → OnCampus; otherwise
Other), with the alphabet `a`–`f` for `SimpleICSAnalyzer.categorize_location`
but only `a`–`c` for `ICSAnalyzer.categorize_location`; matching is
case-insensitive, so `"Teams"`, `"TEAMS"` and `"platforma teams"` all map to
the Teams category. -/
theorem C3_amended :
    (∀ room, categorize_location room = spec_classify ['a', 'b', 'c', 'd', 'e', 'f'] room) ∧
    (∀ room, ics_categorize_location room = spec_classify ['a', 'b', 'c'] room) ∧
    categorize_location (some "Teams") = LocCat.teams ∧
    categorize_location (some "TEAMS") = LocCat.teams ∧
    categorize_location (some "platforma teams") = LocCat.teams ∧
    ics_categorize_location (some "Teams") = LocCat.teams ∧
    ics_categorize_location (some "TEAMS") = LocCat.teams ∧
    ics_categorize_location (some "platforma teams") = LocCat.teams :=
  ⟨categorize_eq_spec, ics_categorize_eq_spec, rfl, rfl, rfl, rfl, rfl, rfl⟩

/-- Minute-of-day reading of a timestamp token, as the duration calculator
performs it: `int` of the `[9:11]` and `[11:13]` slices. -/
def tokenMinutes (t : String) : Option Int :=
  match pyInt (pySlice t.toList 9 11), pyInt (pySlice t.toList 11 13) with
  | some h, some m => some (h * 60 + m)
  | _, _ => none

/-- C4 counterexample: `_calculate_duration_minutes` does not clamp: with an
end time earlier in the day than the start time the result is negative, so
the claimed contract `integer ≥ 0` fails. -/
theorem C4_counterexample :
    calculate_duration_minutes "20251116T100000" "20251116T080000" = -120 ∧
    ((-120 : Int) < 0) := by
  constructor
  · rfl
  · decide

/-- C4 (amended): for every pair of tokens the duration is an integer that
is either non-negative, or is exactly `end − start` for tokens whose
minute-of-day values parse with the end strictly earlier than the start (the
source subtracts without a guard). -/
theorem C4_amended (s e : String) :
    0 ≤ calculate_duration_minutes s e ∨
    ∃ a b : Int, tokenMinutes s = some a ∧ tokenMinutes e = some b ∧ b < a ∧
      calculate_duration_minutes s e = b - a := by
  unfold calculate_duration_minutes
  split
  · left; exact le_refl 0
  · dsimp only
    cases h1 : pyInt (pySlice s.toList 9 11) with
    | none => left; exact le_refl 0
    | some sh =>
      cases h2 : pyInt (pySlice s.toList 11 13) with
      | none => left; exact le_refl 0
      | some sm =>
        cases h3 : pyInt (pySlice e.toList 9 11) with
        | none => left; exact le_refl 0
        | some eh =>
          cases h4 : pyInt (pySlice e.toList 11 13) with
          | none => left; exact le_refl 0
          | some em =>
            rcases le_or_lt (sh * 60 + sm) (eh * 60 + em) with hle | hlt
            · left
              show 0 ≤ eh * 60 + em - (sh * 60 + sm)
              exact sub_nonneg.2 hle
            · right
              refine ⟨sh * 60 + sm, eh * 60 + em, ?_, ?_, hlt, ?_⟩
              · unfold tokenMinutes
                rw [h1, h2]
              · unfold tokenMinutes
                rw [h3, h4]
              · show eh * 60 + em - (sh * 60 + sm) = eh * 60 + em - (sh * 60 + sm)
                rfl

/-- C5 counterexample: the token `"20251116T093"` is too short for the
`YYYYMMDDTHHMMSS` format (12 of 15 characters), yet the calculator does not
return 0 for it: the minute slice degrades to the single digit `3` and the
result is 57. -/
theorem C5_counterexample :
    "20251116T093".toList.length = 12 ∧
    calculate_duration_minutes "20251116T093" "20251116T100000" = 57 ∧
    (57 : Int) ≠ 0 := by
  refine ⟨rfl, rfl, ?_⟩
  decide

/-- C5 (amended): the calculator reads only the hour/minute slices `[9:11]`
and `[11:13]` of the two tokens and returns the end minute-of-day minus the
start minute-of-day (`75` on the documented example); it returns 0 when a
token is absent or when one of the slices does not parse as an integer —
but a short token whose slices still parse (such as a 12-character token)
yields the arithmetic result, not 0. -/
theorem C5_amended :
    calculate_duration_minutes "20251116T080000" "20251116T091500" = 75 ∧
    (∀ e : String, calculate_duration_minutes "" e = 0) ∧
    (∀ s : String, calculate_duration_minutes s "" = 0) ∧
    (∀ s e : String, tokenMinutes s = none ∨ tokenMinutes e = none →
      calculate_duration_minutes s e = 0) ∧
    (∀ (s e : String) (a b : Int), tokenMinutes s = some a → tokenMinutes e = some b →
      calculate_duration_minutes s e = b - a) := by
  refine ⟨rfl, fun e => rfl, fun s => ?_, fun s e h => ?_, fun s e a b ha hb => ?_⟩
  · unfold calculate_duration_minutes
    rw [if_pos]
    simp
  · unfold calculate_duration_minutes
    split
    · rfl
    · dsimp only
      cases h1 : pyInt (pySlice s.toList 9 11) with
      | none => rfl
      | some sh =>
        cases h2 : pyInt (pySlice s.toList 11 13) with
        | none => rfl
        | some sm =>
          cases h3 : pyInt (pySlice e.toList 9 11) with
          | none => rfl
          | some eh =>
            cases h4 : pyInt (pySlice e.toList 11 13) with
            | none => rfl
            | some em =>
              exfalso
              rcases h with h | h <;> unfold tokenMinutes at h
              · rw [h1, h2] at h; cases h
              · rw [h3, h4] at h; cases h
  · unfold tokenMinutes at ha hb
    unfold calculate_duration_minutes
    split
    · next hemp =>
      exfalso
      rcases Bool.or_eq_true_iff.1 hemp with h | h
      · rw [List.isEmpty_iff.1 h] at ha
        cases ha
      · rw [List.isEmpty_iff.1 h] at hb
        cases hb
    · dsimp only
      cases h1 : pyInt (pySlice s.toList 9 11) with
      | none => rw [h1] at ha; cases ha
      | some sh =>
        cases h2 : pyInt (pySlice s.toList 11 13) with
        | none => rw [h1, h2] at ha; cases ha
        | some sm =>
          cases h3 : pyInt (pySlice e.toList 9 11) with
          | none => rw [h3] at hb; cases hb
          | some eh =>
            cases h4 : pyInt (pySlice e.toList 11 13) with
            | none => rw [h3, h4] at hb; cases hb
            | some em =>
              rw [h1, h2] at ha
              rw [h3, h4] at hb
              cases ha
              cases hb
              rfl

/-- C2 counterexample: the tag `ĆW` should normalize to Lab according to the
claim, but `ICSAnalyzer.parse_event_title` (ics_analyzer.py, lines 49–76)
recognizes only `W`, `L` and `E-CW`, so the short-form title
`"Analiza (ĆW)"` is Unparsed there instead of yielding Lab. -/
theorem C2_counterexample :
    ics_parse_event_title "Analiza (ĆW)" = (none, none, none, none) ∧
    (ics_parse_event_title "Analiza (ĆW)").2.1 ≠ some "L" := by
  constructor
  · rfl
  · decide

/-- C2 (amended): tag normalization is total and fixed for
`SimpleICSAnalyzer.parse_event_title` — over short- and full-form titles,
`W` and `E-W` yield `"W"` (Lecture), `L` and `ĆW` yield `"L"` (Lab), `E-CW`
and `E-ĆW` yield `"E-CW"` (RemoteExercise), and any other bracketed tag
yields the Unparsed result `(none, none, none, none)` — while
`ICSAnalyzer.parse_event_title` only recognizes `W`, `L`, `E-CW`, and treats
`E-W`, `ĆW`, `E-ĆW` and every other bracketed tag as Unparsed.  (Subjects
are parenthesis-free and newline-free with visible content; in full forms
the instructor and room fields are also parenthesis-free, newline-free, the
instructor does not embed `Sala:`, and both have visible content.) -/
theorem C2_amended :
    (∀ s : List Char, '(' ∉ s → '\n' ∉ s → pyStrip s ≠ [] →
      (parse_event_title ⟨mkShortTitle s "W".toList⟩ =
        (some ⟨pyStrip s⟩, some "W", none, none) ∧
       parse_event_title ⟨mkShortTitle s "E-W".toList⟩ =
        (some ⟨pyStrip s⟩, some "W", none, none) ∧
       parse_event_title ⟨mkShortTitle s "L".toList⟩ =
        (some ⟨pyStrip s⟩, some "L", none, none) ∧
       parse_event_title ⟨mkShortTitle s "ĆW".toList⟩ =
        (some ⟨pyStrip s⟩, some "L", none, none) ∧
       parse_event_title ⟨mkShortTitle s "E-CW".toList⟩ =
        (some ⟨pyStrip s⟩, some "E-CW", none, none) ∧
       parse_event_title ⟨mkShortTitle s "E-ĆW".toList⟩ =
        (some ⟨pyStrip s⟩, some "E-CW", none, none))) ∧
    (∀ s i r : List Char, '(' ∉ s → '\n' ∉ s → pyStrip s ≠ [] →
      '(' ∉ i → '\n' ∉ i → pyStrip i ≠ [] → containsSub "Sala:".toList i = false →
      '(' ∉ r → '\n' ∉ r → pyStrip r ≠ [] →
      ((parse_event_title ⟨mkFullTitle s "W".toList i r⟩).2.1 = some "W" ∧
       (parse_event_title ⟨mkFullTitle s "E-W".toList i r⟩).2.1 = some "W" ∧
       (parse_event_title ⟨mkFullTitle s "L".toList i r⟩).2.1 = some "L" ∧
       (parse_event_title ⟨mkFullTitle s "ĆW".toList i r⟩).2.1 = some "L" ∧
       (parse_event_title ⟨mkFullTitle s "E-CW".toList i r⟩).2.1 = some "E-CW" ∧
       (parse_event_title ⟨mkFullTitle s "E-ĆW".toList i r⟩).2.1 = some "E-CW")) ∧
    (∀ s tag : List Char, '(' ∉ s → pyStrip s ≠ [] →
      '(' ∉ tag → ')' ∉ tag → tag ∉ sixTags →
      parse_event_title ⟨mkShortTitle s tag⟩ = (none, none, none, none)) ∧
    (∀ s tag i r : List Char, '(' ∉ s → pyStrip s ≠ [] →
      '(' ∉ tag → ')' ∉ tag → tag ∉ sixTags →
      '(' ∉ i → '(' ∉ r → pyStrip r ≠ [] →
      parse_event_title ⟨mkFullTitle s tag i r⟩ = (none, none, none, none)) ∧
    (∀ s : List Char, '(' ∉ s → '\n' ∉ s → pyStrip s ≠ [] →
      (ics_parse_event_title ⟨mkShortTitle s "W".toList⟩ =
        (some ⟨pyStrip s⟩, some "W", none, none) ∧
       ics_parse_event_title ⟨mkShortTitle s "L".toList⟩ =
        (some ⟨pyStrip s⟩, some "L", none, none) ∧
       ics_parse_event_title ⟨mkShortTitle s "E-CW".toList⟩ =
        (some ⟨pyStrip s⟩, some "E-CW", none, none) ∧
       ics_parse_event_title ⟨mkShortTitle s "E-W".toList⟩ = (none, none, none, none) ∧
       ics_parse_event_title ⟨mkShortTitle s "ĆW".toList⟩ = (none, none, none, none) ∧
       ics_parse_event_title ⟨mkShortTitle s "E-ĆW".toList⟩ = (none, none, none, none))) ∧
    (∀ s tag : List Char, '(' ∉ s → pyStrip s ≠ [] →
      '(' ∉ tag → ')' ∉ tag → tag ∉ icsTags →
      ics_parse_event_title ⟨mkShortTitle s tag⟩ = (none, none, none, none)) := by
  refine ⟨?_, ?_, ?_, ?_, ?_, ?_⟩
  · intro s h1 h2 h3
    exact ⟨parse_built_short_W h1 h2 h3, parse_built_short_EW h1 h2 h3,
      parse_built_short_L h1 h2 h3, parse_built_short_CW h1 h2 h3,
      parse_built_short_ECW h1 h2 h3, parse_built_short_ECWPL h1 h2 h3⟩
  · intro s i r hs1 hs2 hs3 hi1 hi2 hi3 hi4 hr1 hr2 hr3
    refine ⟨?_, ?_, ?_, ?_, ?_, ?_⟩
    · rw [parse_built_full_W hs1 hs2 hs3 hi2 hi3 hi4 hr2 hr3]
    · rw [parse_built_full_EW hs1 hs2 hs3 hi1 hi2 hi3 hi4 hr1 hr2 hr3]
    · rw [parse_built_full_L hs1 hs2 hs3 hi2 hi3 hi4 hr2 hr3]
    · rw [parse_built_full_CW hs1 hs2 hs3 hi1 hi2 hi3 hi4 hr1 hr2 hr3]
    · rw [parse_built_full_ECW hs1 hs2 hs3 hi2 hi3 hi4 hr2 hr3]
    · rw [parse_built_full_ECWPL hs1 hs2 hs3 hi1 hi2 hi3 hi4 hr1 hr2 hr3]
  · intro s tag h1 h2 h3 h4 h5
    exact parse_built_short_other h1 h2 h3 h4 h5
  · intro s tag i r h1 h2 h3 h4 h5 h6 h7 h8
    exact parse_built_full_other h1 h2 h3 h4 h5 h6 h7 h8
  · intro s h1 h2 h3
    exact ⟨ics_parse_built_short_W h1 h2 h3, ics_parse_built_short_L h1 h2 h3,
      ics_parse_built_short_ECW h1 h2 h3,
      ics_parse_built_short_other h1 h3 (by decide) (by decide) (by decide),
      ics_parse_built_short_other h1 h3 (by decide) (by decide) (by decide),
      ics_parse_built_short_other h1 h3 (by decide) (by decide) (by decide)⟩
  · intro s tag h1 h2 h3 h4 h5
    exact ics_parse_built_short_other h1 h2 h3 h4 h5

/-- C2 witness: the amended tag table evaluated at a concrete subject. -/
theorem C2_witness :
    parse_event_title ⟨mkShortTitle "Analiza".toList "ĆW".toList⟩ =
      (some ⟨pyStrip "Analiza".toList⟩, some "L", none, none) ∧
    parse_event_title ⟨mkShortTitle "Analiza".toList "X1".toList⟩ =
      (none, none, none, none) ∧
    ics_parse_event_title ⟨mkShortTitle "Analiza".toList "ĆW".toList⟩ =
      (none, none, none, none) :=
  ⟨(C2_amended.1 "Analiza".toList (by decide) (by decide) (by decide)).2.2.2.1,
   C2_amended.2.2.1 "Analiza".toList "X1".toList (by decide) (by decide)
     (by decide) (by decide) (by decide),
   (C2_amended.2.2.2.2.1 "Analiza".toList (by decide) (by decide) (by decide)).2.2.2.2.1⟩

/-- C6 counterexample: a valid full-form title with the tag `E-W` is parsed
by `SimpleICSAnalyzer` but is Unparsed for `ICSAnalyzer.parse_event_title`,
which recognizes only `W`, `L`, `E-CW`; so the claim fails for the latter
parser (no field is recovered at all). -/
theorem C6_counterexample :
    ics_parse_event_title "Analiza (E-W) - Prowadzący: Jan, Sala: A101" =
      (none, none, none, none) ∧
    parse_event_title "Analiza (E-W) - Prowadzący: Jan, Sala: A101" =
      (some "Analiza", some "W", some "Jan", some "A101") := by
  constructor
  · rfl
  · rfl

/-- C6 (amended): for every valid full-form title
`<subject> (<tag>) - Prowadzący: <names>, Sala: <room>` —
with a parenthesis-free, newline-free subject with visible content, a
parenthesis-free, newline-free instructor field with visible content not
embedding `Sala:` (it may contain several comma-joined names, kept as one
string), and a parenthesis-free, newline-free room with visible content —
`SimpleICSAnalyzer.parse_event_title` recovers exactly the four constructed
fields modulo whitespace trimming, for every tag of the six-tag set, with
the tag normalized; `ICSAnalyzer.parse_event_title` does the same only for
the tags `W`, `L` and `E-CW`. -/
theorem C6_amended :
    (∀ s i r : List Char, '(' ∉ s → '\n' ∉ s → pyStrip s ≠ [] →
      '(' ∉ i → '\n' ∉ i → pyStrip i ≠ [] → containsSub "Sala:".toList i = false →
      '(' ∉ r → '\n' ∉ r → pyStrip r ≠ [] →
      (parse_event_title ⟨mkFullTitle s "W".toList i r⟩ =
        (some ⟨pyStrip s⟩, some "W", some ⟨pyStrip i⟩, some ⟨pyStrip r⟩) ∧
       parse_event_title ⟨mkFullTitle s "E-W".toList i r⟩ =
        (some ⟨pyStrip s⟩, some "W", some ⟨pyStrip i⟩, some ⟨pyStrip r⟩) ∧
       parse_event_title ⟨mkFullTitle s "L".toList i r⟩ =
        (some ⟨pyStrip s⟩, some "L", some ⟨pyStrip i⟩, some ⟨pyStrip r⟩) ∧
       parse_event_title ⟨mkFullTitle s "ĆW".toList i r⟩ =
        (some ⟨pyStrip s⟩, some "L", some ⟨pyStrip i⟩, some ⟨pyStrip r⟩) ∧
       parse_event_title ⟨mkFullTitle s "E-CW".toList i r⟩ =
        (some ⟨pyStrip s⟩, some "E-CW", some ⟨pyStrip i⟩, some ⟨pyStrip r⟩) ∧
       parse_event_title ⟨mkFullTitle s "E-ĆW".toList i r⟩ =
        (some ⟨pyStrip s⟩, some "E-CW", some ⟨pyStrip i⟩, some ⟨pyStrip r⟩))) ∧
    (∀ s i r : List Char, '(' ∉ s → '\n' ∉ s → pyStrip s ≠ [] →
      '\n' ∉ i → pyStrip i ≠ [] → containsSub "Sala:".toList i = false →
      '\n' ∉ r → pyStrip r ≠ [] →
      (ics_parse_event_title ⟨mkFullTitle s "W".toList i r⟩ =
        (some ⟨pyStrip s⟩, some "W", some ⟨pyStrip i⟩, some ⟨pyStrip r⟩) ∧
       ics_parse_event_title ⟨mkFullTitle s "L".toList i r⟩ =
        (some ⟨pyStrip s⟩, some "L", some ⟨pyStrip i⟩, some ⟨pyStrip r⟩) ∧
       ics_parse_event_title ⟨mkFullTitle s "E-CW".toList i r⟩ =
        (some ⟨pyStrip s⟩, some "E-CW", some ⟨pyStrip i⟩, some ⟨pyStrip r⟩))) := by
  constructor
  · intro s i r hs1 hs2 hs3 hi1 hi2 hi3 hi4 hr1 hr2 hr3
    exact ⟨parse_built_full_W hs1 hs2 hs3 hi2 hi3 hi4 hr2 hr3,
      parse_built_full_EW hs1 hs2 hs3 hi1 hi2 hi3 hi4 hr1 hr2 hr3,
      parse_built_full_L hs1 hs2 hs3 hi2 hi3 hi4 hr2 hr3,
      parse_built_full_CW hs1 hs2 hs3 hi1 hi2 hi3 hi4 hr1 hr2 hr3,
      parse_built_full_ECW hs1 hs2 hs3 hi2 hi3 hi4 hr2 hr3,
      parse_built_full_ECWPL hs1 hs2 hs3 hi1 hi2 hi3 hi4 hr1 hr2 hr3⟩
  · intro s i r hs1 hs2 hs3 hi2 hi3 hi4 hr2 hr3
    exact ⟨ics_parse_built_full_W hs1 hs2 hs3 hi2 hi3 hi4 hr2 hr3,
      ics_parse_built_full_L hs1 hs2 hs3 hi2 hi3 hi4 hr2 hr3,
      ics_parse_built_full_ECW hs1 hs2 hs3 hi2 hi3 hi4 hr2 hr3⟩

/-- C6 witness: the documented example title, recovered field by field by
both parsers. -/
theorem C6_witness :
    parse_event_title ⟨mkFullTitle "Bazy Danych".toList "W".toList
        "Jan Kowalski".toList "A101".toList⟩ =
      (some ⟨pyStrip "Bazy Danych".toList⟩, some "W",
       some ⟨pyStrip "Jan Kowalski".toList⟩, some ⟨pyStrip "A101".toList⟩) ∧
    ics_parse_event_title ⟨mkFullTitle "Bazy Danych".toList "W".toList
        "Jan Kowalski".toList "A101".toList⟩ =
      (some ⟨pyStrip "Bazy Danych".toList⟩, some "W",
       some ⟨pyStrip "Jan Kowalski".toList⟩, some ⟨pyStrip "A101".toList⟩) :=
  ⟨(C6_amended.1 "Bazy Danych".toList "Jan Kowalski".toList "A101".toList
      (by decide) (by decide) (by decide) (by decide) (by decide) (by decide)
      (by decide) (by decide) (by decide) (by decide)).1,
   (C6_amended.2 "Bazy Danych".toList "Jan Kowalski".toList "A101".toList
      (by decide) (by decide) (by decide) (by decide) (by decide) (by decide)
      (by decide) (by decide)).1⟩

/-- C5 witness: the amended behaviour evaluated at concrete tokens (a
non-parsing token gives 0; well-formed tokens give the minute
difference). -/
theorem C5_witness :
    calculate_duration_minutes "abc" "20251116T100000" = 0 ∧
    calculate_duration_minutes "20251116T100000" "20251116T080000" = 480 - 600 :=
  ⟨C5_amended.2.2.2.1 "abc" "20251116T100000" (Or.inl (by decide)),
   C5_amended.2.2.2.2 "20251116T100000" "20251116T080000" 600 480
     (by decide) (by decide)⟩

/-- An event parses when both the subject and the event type are truthy
(the guard of `_process_simple_event`, line 362). -/
def isParsedEv (ev : RawEvent) : Bool :=
  pyTruthy (parse_event_title ev.title).1 && pyTruthy (parse_event_title ev.title).2.1

/-- The duration `_process_simple_event` computes for an event (line 356). -/
def eventDuration (ev : RawEvent) : Int :=
  calculate_duration_minutes ev.start_token ev.end_token

theorem tagP1_range {s : List Char} {p : String × List Char} (h : tagP1 s = some p) :
    p.1 = "W" ∨ p.1 = "L" ∨ p.1 = "E-CW" := by
  unfold tagP1 at h
  split at h
  · cases h; left; rfl
  · split at h
    · cases h; right; left; rfl
    · split at h
      · cases h; right; right; rfl
      · cases h

theorem scanSubject_some {α : Type} {after : List Char → List Char → Option α} :
    ∀ {s acc : List Char} {v : α}, scanSubject after acc s = some v →
      ∃ subj rest, after subj rest = some v := by
  intro s
  induction s with
  | nil => intro acc v h; cases h
  | cons c rest ih =>
    intro acc v h
    rw [scanSubject_cons] at h
    split at h
    · cases h
    · split at h
      · split at h
        · next heq => exact ⟨_, _, by rw [heq, h]⟩
        · exact ih h
      · exact ih h

theorem afterFull1_range {subj rest : List Char}
    {v : List Char × String × List Char × List Char} (h : afterFull1 subj rest = some v) :
    v.2.1 = "W" ∨ v.2.1 = "L" ∨ v.2.1 = "E-CW" := by
  unfold afterFull1 at h
  split at h
  · next p heq =>
    split at h
    · cases h
      simpa using tagP1_range heq
    · cases h
  · cases h

theorem afterSimple1_range {subj rest : List Char} {v : List Char × String}
    (h : afterSimple1 subj rest = some v) : v.2 = "W" ∨ v.2 = "L" ∨ v.2 = "E-CW" := by
  unfold afterSimple1 at h
  split at h
  · next p heq =>
    cases h
    simpa using tagP1_range heq
  · cases h

/-- The event-type field of a parse result is always `None`, `"W"`, `"L"`
or `"E-CW"` (the `else` branch on line 380 of the simple analyzer is
unreachable for parsed events). -/
theorem parse_etype_cases (t : String) :
    (parse_event_title t).2.1 = none ∨ (parse_event_title t).2.1 = some "W" ∨
    (parse_event_title t).2.1 = some "L" ∨ (parse_event_title t).2.1 = some "E-CW" := by
  unfold parse_event_title
  dsimp only
  split
  · next s ty i r heq =>
    obtain ⟨subj, rest, haf⟩ := scanSubject_some heq
    rcases afterFull1_range haf with h | h | h <;> simp at h <;> simp [h]
  · split
    · simp
    · split
      · simp
      · split
        · simp
        · split
          · next s ty heq =>
            obtain ⟨subj, rest, haf⟩ := scanSubject_some heq
            rcases afterSimple1_range haf with h | h | h <;> simp at h <;> simp [h]
          · split
            · simp
            · split
              · simp
              · split
                · simp
                · simp

theorem ics_parse_etype_cases (t : String) :
    (ics_parse_event_title t).2.1 = none ∨ (ics_parse_event_title t).2.1 = some "W" ∨
    (ics_parse_event_title t).2.1 = some "L" ∨ (ics_parse_event_title t).2.1 = some "E-CW" := by
  unfold ics_parse_event_title
  dsimp only
  split
  · next s ty i r heq =>
    obtain ⟨subj, rest, haf⟩ := scanSubject_some heq
    rcases afterFull1_range haf with h | h | h <;> simp at h <;> simp [h]
  · split
    · next s ty heq =>
      obtain ⟨subj, rest, haf⟩ := scanSubject_some heq
      rcases afterSimple1_range haf with h | h | h <;> simp at h <;> simp [h]
    · simp

/-- Frame lemma for an unparsed title: only the total-events counter, the
`inne` counter and the total-minutes sum change. -/
theorem process_unparsed {st : SimpleState} {ev : RawEvent}
    (h : (!pyTruthy (parse_event_title ev.title).1 ||
          !pyTruthy (parse_event_title ev.title).2.1) = true) :
    process_simple_event st ev =
      { st with
        stats := { st.stats with
          total_events := st.stats.total_events + 1
          inne := st.stats.inne + 1 }
        time_stats := { st.time_stats with
          total_minutes := st.time_stats.total_minutes + eventDuration ev } } := by
  unfold process_simple_event
  dsimp only
  rw [if_pos h]
  rfl

theorem stats_ite (c : Prop) [Decidable c] (a b : SimpleState) :
    (if c then a else b).stats = if c then a.stats else b.stats := by
  split <;> rfl

/-- Equation for `_process_simple_event` on a parsed title: the result is the
composition of the four update blocks applied to the totals-bumped state. -/
theorem process_parsed {st : SimpleState} {ev : RawEvent}
    (hg : ¬(!pyTruthy (parse_event_title ev.title).1 ||
          !pyTruthy (parse_event_title ev.title).2.1) = true) :
    process_simple_event st ev =
      appendItinerary ev.title ev.start_token ev.end_token
        ((parse_event_title ev.title).1.getD "") ((parse_event_title ev.title).2.1.getD "")
        (parse_event_title ev.title).2.2.1 (parse_event_title ev.title).2.2.2
        (categorize_location (parse_event_title ev.title).2.2.2)
        (updateLocationStats (eventDuration ev)
          (categorize_location (parse_event_title ev.title).2.2.2)
          (updateSubjectSets ((parse_event_title ev.title).1.getD "")
            (parse_event_title ev.title).2.2.1 (parse_event_title ev.title).2.2.2
            (updateTypeStats (eventDuration ev) ((parse_event_title ev.title).1.getD "")
              ((parse_event_title ev.title).2.1.getD "")
              { st with
                stats := { st.stats with total_events := st.stats.total_events + 1 }
                time_stats := { st.time_stats with
                  total_minutes := st.time_stats.total_minutes + eventDuration ev } }))) := by
  unfold process_simple_event
  dsimp only
  rw [if_neg hg]
  rfl

theorem appendItinerary_stats (t s e su ty : String) (i r : Option String)
    (lc : LocCat) (st : SimpleState) :
    (appendItinerary t s e su ty i r lc st).stats = st.stats := by
  unfold appendItinerary; split <;> rfl

theorem appendItinerary_time_stats (t s e su ty : String) (i r : Option String)
    (lc : LocCat) (st : SimpleState) :
    (appendItinerary t s e su ty i r lc st).time_stats = st.time_stats := by
  unfold appendItinerary; split <;> rfl

theorem appendItinerary_schedule (t s e su ty : String) (i r : Option String)
    (lc : LocCat) (st : SimpleState) :
    (appendItinerary t s e su ty i r lc st).uczelnia_schedule =
      st.uczelnia_schedule ++
        (if lc = .uczelnia ∧ ¬ s.toList.isEmpty ∧ pyTruthy r then
          [{ subject := su, type := ty, instructor := i, room := r.getD "",
             start_time := s, end_time := e, title := t }]
         else []) := by
  unfold appendItinerary
  split
  · rfl
  · simp

theorem updateLocationStats_stats (d : Int) (lc : LocCat) (st : SimpleState) :
    (updateLocationStats d lc st).stats = st.stats := by
  unfold updateLocationStats; dsimp only; split <;> rfl

theorem updateLocationStats_schedule (d : Int) (lc : LocCat) (st : SimpleState) :
    (updateLocationStats d lc st).uczelnia_schedule = st.uczelnia_schedule := by
  unfold updateLocationStats; dsimp only; split <;> rfl

theorem updateLocationStats_time_stats (d : Int) (lc : LocCat) (st : SimpleState) :
    (updateLocationStats d lc st).time_stats =
      { st.time_stats with
        uczelnia_minutes := st.time_stats.uczelnia_minutes +
          (if lc = .uczelnia then d else 0)
        zdalne_minutes := st.time_stats.zdalne_minutes +
          (if lc = .uczelnia then 0 else d) } := by
  unfold updateLocationStats; dsimp only
  split
  · next h => simp [h]
  · next h => simp [h]

theorem updateSubjectSets_stats (su : String) (i r : Option String) (st : SimpleState) :
    (updateSubjectSets su i r st).stats = st.stats := by
  unfold updateSubjectSets; dsimp only; split <;> split <;> rfl

theorem updateSubjectSets_time_stats (su : String) (i r : Option String) (st : SimpleState) :
    (updateSubjectSets su i r st).time_stats = st.time_stats := by
  unfold updateSubjectSets; dsimp only; split <;> split <;> rfl

theorem updateSubjectSets_schedule (su : String) (i r : Option String) (st : SimpleState) :
    (updateSubjectSets su i r st).uczelnia_schedule = st.uczelnia_schedule := by
  unfold updateSubjectSets; dsimp only; split <;> split <;> rfl

theorem updateTypeStats_stats_W (d : Int) (su : String) (st : SimpleState) :
    (updateTypeStats d su "W" st).stats =
      { st.stats with wyklady := st.stats.wyklady + 1 } := by
  unfold updateTypeStats; rw [if_pos rfl]

theorem updateTypeStats_stats_L (d : Int) (su : String) (st : SimpleState) :
    (updateTypeStats d su "L" st).stats =
      { st.stats with laboratoria := st.stats.laboratoria + 1 } := by
  unfold updateTypeStats
  rw [if_neg (by decide : ¬("L" : String) = "W"), if_pos rfl]

theorem updateTypeStats_stats_ECW (d : Int) (su : String) (st : SimpleState) :
    (updateTypeStats d su "E-CW" st).stats =
      { st.stats with e_cw := st.stats.e_cw + 1 } := by
  unfold updateTypeStats
  rw [if_neg (by decide : ¬("E-CW" : String) = "W"),
    if_neg (by decide : ¬("E-CW" : String) = "L"), if_pos (Or.inl rfl)]

theorem updateTypeStats_time_W (d : Int) (su : String) (st : SimpleState) :
    (updateTypeStats d su "W" st).time_stats =
      { st.time_stats with wyklady_minutes := st.time_stats.wyklady_minutes + d } := by
  unfold updateTypeStats; rw [if_pos rfl]

theorem updateTypeStats_time_L (d : Int) (su : String) (st : SimpleState) :
    (updateTypeStats d su "L" st).time_stats =
      { st.time_stats with
        laboratoria_minutes := st.time_stats.laboratoria_minutes + d } := by
  unfold updateTypeStats
  rw [if_neg (by decide : ¬("L" : String) = "W"), if_pos rfl]

theorem updateTypeStats_time_ECW (d : Int) (su : String) (st : SimpleState) :
    (updateTypeStats d su "E-CW" st).time_stats =
      { st.time_stats with e_cw_minutes := st.time_stats.e_cw_minutes + d } := by
  unfold updateTypeStats
  rw [if_neg (by decide : ¬("E-CW" : String) = "W"),
    if_neg (by decide : ¬("E-CW" : String) = "L"), if_pos (Or.inl rfl)]

theorem updateTypeStats_schedule (d : Int) (su ty : String) (st : SimpleState) :
    (updateTypeStats d su ty st).uczelnia_schedule = st.uczelnia_schedule := by
  unfold updateTypeStats
  repeat (first | rfl | split)

theorem parsed_guard_iff (ev : RawEvent) :
    isParsedEv ev = true ↔
      ¬(!pyTruthy (parse_event_title ev.title).1 ||
        !pyTruthy (parse_event_title ev.title).2.1) = true := by
  unfold isParsedEv
  cases pyTruthy (parse_event_title ev.title).1 <;>
    cases pyTruthy (parse_event_title ev.title).2.1 <;> simp

theorem process_stats (st : SimpleState) (ev : RawEvent) :
    (process_simple_event st ev).stats.total_events = st.stats.total_events + 1 ∧
    (process_simple_event st ev).stats.wyklady + (process_simple_event st ev).stats.laboratoria +
      (process_simple_event st ev).stats.e_cw =
      st.stats.wyklady + st.stats.laboratoria + st.stats.e_cw +
        (if isParsedEv ev then 1 else 0) ∧
    (process_simple_event st ev).stats.inne = st.stats.inne +
      (if isParsedEv ev then 0 else 1) := by
  by_cases hg : (!pyTruthy (parse_event_title ev.title).1 ||
      !pyTruthy (parse_event_title ev.title).2.1) = true
  · have hp : isParsedEv ev = false := by
      unfold isParsedEv
      rcases Bool.or_eq_true_iff.1 hg with h | h <;> simp_all
    rw [process_unparsed hg, hp]
    simp
  · have hp : isParsedEv ev = true := (parsed_guard_iff ev).2 hg
    have hb : pyTruthy (parse_event_title ev.title).2.1 = true := by
      by_contra hc
      simp_all
    rw [hp]
    rw [process_parsed hg, appendItinerary_stats, updateLocationStats_stats,
      updateSubjectSets_stats]
    rcases parse_etype_cases ev.title with hty | hty | hty | hty
    · rw [hty] at hb
      exact absurd hb (by decide)
    · rw [hty, Option.getD_some, updateTypeStats_stats_W]
      refine ⟨rfl, ?_, rfl⟩
      dsimp only
      simp only [if_true]
      omega
    · rw [hty, Option.getD_some, updateTypeStats_stats_L]
      refine ⟨rfl, ?_, rfl⟩
      dsimp only
      simp only [if_true]
      omega
    · rw [hty, Option.getD_some, updateTypeStats_stats_ECW]
      refine ⟨rfl, ?_, rfl⟩
      dsimp only
      simp only [if_true]
      omega

/-- Per-event time accounting: the total always receives the duration; the
per-type and per-location minute sums receive it exactly when the title
parsed. -/
theorem process_minutes (st : SimpleState) (ev : RawEvent) :
    (process_simple_event st ev).time_stats.total_minutes =
      st.time_stats.total_minutes + eventDuration ev ∧
    (process_simple_event st ev).time_stats.wyklady_minutes +
      (process_simple_event st ev).time_stats.laboratoria_minutes +
      (process_simple_event st ev).time_stats.e_cw_minutes =
      st.time_stats.wyklady_minutes + st.time_stats.laboratoria_minutes +
        st.time_stats.e_cw_minutes +
        (if isParsedEv ev then eventDuration ev else 0) ∧
    (process_simple_event st ev).time_stats.uczelnia_minutes +
      (process_simple_event st ev).time_stats.zdalne_minutes =
      st.time_stats.uczelnia_minutes + st.time_stats.zdalne_minutes +
        (if isParsedEv ev then eventDuration ev else 0) := by
  by_cases hg : (!pyTruthy (parse_event_title ev.title).1 ||
      !pyTruthy (parse_event_title ev.title).2.1) = true
  · have hp : isParsedEv ev = false := by
      unfold isParsedEv
      rcases Bool.or_eq_true_iff.1 hg with h | h <;> simp_all
    rw [process_unparsed hg, hp]
    simp
  · have hp : isParsedEv ev = true := (parsed_guard_iff ev).2 hg
    have hb : pyTruthy (parse_event_title ev.title).2.1 = true := by
      by_contra hc
      simp_all
    rw [hp]
    rw [process_parsed hg, appendItinerary_time_stats, updateLocationStats_time_stats]
    rcases parse_etype_cases ev.title with hty | hty | hty | hty
    · rw [hty] at hb
      exact absurd hb (by decide)
    all_goals
      rw [updateSubjectSets_time_stats, hty, Option.getD_some]
    · rw [updateTypeStats_time_W]
      refine ⟨rfl, ?_, ?_⟩ <;> dsimp only <;> simp only [if_true] <;>
        (first | (split <;> omega) | omega)
    · rw [updateTypeStats_time_L]
      refine ⟨rfl, ?_, ?_⟩ <;> dsimp only <;> simp only [if_true] <;>
        (first | (split <;> omega) | omega)
    · rw [updateTypeStats_time_ECW]
      refine ⟨rfl, ?_, ?_⟩ <;> dsimp only <;> simp only [if_true] <;>
        (first | (split <;> omega) | omega)

/-- The itinerary entry `_process_simple_event` appends for an event, if any
(lines 399–409): present exactly when the title parses, the location category
is `uczelnia`, the start token is nonempty and the room is truthy. -/
def entryOf (ev : RawEvent) : Option ScheduleEntry :=
  let p := parse_event_title ev.title
  if !pyTruthy p.1 || !pyTruthy p.2.1 then none
  else if categorize_location p.2.2.2 = .uczelnia ∧ ¬ ev.start_token.toList.isEmpty ∧
      pyTruthy p.2.2.2 then
    some { subject := p.1.getD "", type := p.2.1.getD "", instructor := p.2.2.1,
           room := p.2.2.2.getD "", start_time := ev.start_token,
           end_time := ev.end_token, title := ev.title }
  else none

/-- Per-event itinerary accounting: the schedule grows by exactly
`entryOf ev`. -/
theorem process_schedule (st : SimpleState) (ev : RawEvent) :
    (process_simple_event st ev).uczelnia_schedule =
      st.uczelnia_schedule ++ (entryOf ev).toList := by
  by_cases hg : (!pyTruthy (parse_event_title ev.title).1 ||
      !pyTruthy (parse_event_title ev.title).2.1) = true
  · rw [process_unparsed hg]
    unfold entryOf
    dsimp only
    rw [if_pos hg]
    simp
  · rw [process_parsed hg, appendItinerary_schedule, updateLocationStats_schedule,
      updateSubjectSets_schedule, updateTypeStats_schedule]
    unfold entryOf
    dsimp only
    rw [if_neg hg]
    split
    · rfl
    · simp

/-- Sum of the durations of all events of a list. -/
def sumDur (evs : List RawEvent) : Int :=
  (evs.map eventDuration).sum

/-- Sum of the durations of the events whose titles parse. -/
def sumDurParsed (evs : List RawEvent) : Int :=
  ((evs.filter isParsedEv).map eventDuration).sum

/-- Sum of the durations of the events whose titles do not parse. -/
def sumDurUnparsed (evs : List RawEvent) : Int :=
  ((evs.filter (fun e => !isParsedEv e)).map eventDuration).sum

theorem sumDur_split (evs : List RawEvent) :
    sumDur evs = sumDurParsed evs + sumDurUnparsed evs := by
  induction evs with
  | nil => rfl
  | cons e t ih =>
    unfold sumDur sumDurParsed sumDurUnparsed at ih ⊢
    cases hpe : isParsedEv e <;>
      simp [List.filter_cons, hpe, ih] <;> omega

theorem length_filter_add_length_filter_not {α : Type} (p : α → Bool) (l : List α) :
    (l.filter p).length + (l.filter (fun a => !p a)).length = l.length := by
  induction l with
  | nil => rfl
  | cons a t ih =>
    cases h : p a <;> simp [List.filter_cons, h] <;> omega

/-- Counter bookkeeping over a fold of `_process_simple_event`, from any
starting state. -/
theorem foldl_stats (evs : List RawEvent) : ∀ st : SimpleState,
    (evs.foldl process_simple_event st).stats.total_events =
      st.stats.total_events + evs.length ∧
    (evs.foldl process_simple_event st).stats.wyklady +
      (evs.foldl process_simple_event st).stats.laboratoria +
      (evs.foldl process_simple_event st).stats.e_cw =
      st.stats.wyklady + st.stats.laboratoria + st.stats.e_cw +
        (evs.filter isParsedEv).length ∧
    (evs.foldl process_simple_event st).stats.inne =
      st.stats.inne + (evs.filter (fun e => !isParsedEv e)).length := by
  induction evs with
  | nil => intro st; simp
  | cons e t ih =>
    intro st
    rw [List.foldl_cons]
    obtain ⟨i1, i2, i3⟩ := ih (process_simple_event st e)
    obtain ⟨p1, p2, p3⟩ := process_stats st e
    cases hpe : isParsedEv e <;>
      rw [hpe] at p2 p3 <;>
      simp [List.filter_cons, hpe] at i1 i2 i3 p1 p2 p3 ⊢ <;>
      refine ⟨by omega, by omega, by omega⟩

/-- Minute bookkeeping over a fold of `_process_simple_event`, from any
starting state. -/
theorem foldl_minutes (evs : List RawEvent) : ∀ st : SimpleState,
    (evs.foldl process_simple_event st).time_stats.total_minutes =
      st.time_stats.total_minutes + sumDur evs ∧
    (evs.foldl process_simple_event st).time_stats.wyklady_minutes +
      (evs.foldl process_simple_event st).time_stats.laboratoria_minutes +
      (evs.foldl process_simple_event st).time_stats.e_cw_minutes =
      st.time_stats.wyklady_minutes + st.time_stats.laboratoria_minutes +
        st.time_stats.e_cw_minutes + sumDurParsed evs ∧
    (evs.foldl process_simple_event st).time_stats.uczelnia_minutes +
      (evs.foldl process_simple_event st).time_stats.zdalne_minutes =
      st.time_stats.uczelnia_minutes + st.time_stats.zdalne_minutes +
        sumDurParsed evs := by
  induction evs with
  | nil => intro st; simp [sumDur, sumDurParsed]
  | cons e t ih =>
    intro st
    rw [List.foldl_cons]
    obtain ⟨i1, i2, i3⟩ := ih (process_simple_event st e)
    obtain ⟨p1, p2, p3⟩ := process_minutes st e
    unfold sumDur sumDurParsed at *
    cases hpe : isParsedEv e <;>
      rw [hpe] at p2 p3 <;>
      simp [List.filter_cons, hpe] at i1 i2 i3 p1 p2 p3 ⊢ <;>
      refine ⟨by omega, by omega, by omega⟩

/-- Itinerary bookkeeping over a fold of `_process_simple_event`, from any
starting state. -/
theorem foldl_schedule (evs : List RawEvent) : ∀ st : SimpleState,
    (evs.foldl process_simple_event st).uczelnia_schedule =
      st.uczelnia_schedule ++ evs.filterMap entryOf := by
  induction evs with
  | nil => intro st; simp
  | cons e t ih =>
    intro st
    rw [List.foldl_cons, ih (process_simple_event st e), process_schedule]
    cases h : entryOf e <;> simp [List.filterMap_cons, h]

/-- An ICS event parses when both the subject and the event type are truthy
(guard of `_process_event`, line 130). -/
def isParsedICSEv (ev : ICSEvent) : Bool :=
  pyTruthy (ics_parse_event_title ev.summary).1 &&
    pyTruthy (ics_parse_event_title ev.summary).2.1

theorem ics_updateTypeStats_stats_W (su : String) (st : ICSState) :
    (ics_updateTypeStats su "W" st).stats =
      { st.stats with wyklady := st.stats.wyklady + 1 } := by
  unfold ics_updateTypeStats; rw [if_pos rfl]

theorem ics_updateTypeStats_stats_L (su : String) (st : ICSState) :
    (ics_updateTypeStats su "L" st).stats =
      { st.stats with laboratoria := st.stats.laboratoria + 1 } := by
  unfold ics_updateTypeStats
  rw [if_neg (by decide : ¬("L" : String) = "W"), if_pos rfl]

theorem ics_updateTypeStats_stats_ECW (su : String) (st : ICSState) :
    (ics_updateTypeStats su "E-CW" st).stats =
      { st.stats with e_cw := st.stats.e_cw + 1 } := by
  unfold ics_updateTypeStats
  rw [if_neg (by decide : ¬("E-CW" : String) = "W"),
    if_neg (by decide : ¬("E-CW" : String) = "L"), if_pos rfl]

theorem ics_updateSubjectSets_stats (su : String) (i r : Option String) (st : ICSState) :
    (ics_updateSubjectSets su i r st).stats = st.stats := by
  unfold ics_updateSubjectSets; dsimp only; split <;> split <;> rfl

/-- Equation for `_process_event` on an unparsed summary: only the
total-events counter, the `inne` counter and the total duration change. -/
theorem ics_process_unparsed {st : ICSState} {ev : ICSEvent}
    (h : (!pyTruthy (ics_parse_event_title ev.summary).1 ||
          !pyTruthy (ics_parse_event_title ev.summary).2.1) = true) :
    ics_process_event st ev =
      { st with
        stats := { st.stats with
          total_events := st.stats.total_events + 1
          inne := st.stats.inne + 1 }
        total_duration := st.total_duration + (ev.duration_seconds.getD 0) } := by
  cases hd : ev.duration_seconds <;>
    (unfold ics_process_event; dsimp only; rw [hd]; dsimp only; rw [if_pos h]) <;>
    simp

/-- Equation for `_process_event` on a parsed summary. -/
theorem ics_process_parsed {st : ICSState} {ev : ICSEvent}
    (hg : ¬(!pyTruthy (ics_parse_event_title ev.summary).1 ||
          !pyTruthy (ics_parse_event_title ev.summary).2.1) = true) :
    ics_process_event st ev =
      (fun st2 =>
        { st2 with location_stats := (bumpLoc
            (ics_categorize_location (ics_parse_event_title ev.summary).2.2.2)
            st2.location_stats) })
        (ics_updateSubjectSets ((ics_parse_event_title ev.summary).1.getD "")
          (ics_parse_event_title ev.summary).2.2.1 (ics_parse_event_title ev.summary).2.2.2
          (ics_updateTypeStats ((ics_parse_event_title ev.summary).1.getD "")
            ((ics_parse_event_title ev.summary).2.1.getD "")
            { st with
              stats := { st.stats with total_events := st.stats.total_events + 1 }
              total_duration := st.total_duration + (ev.duration_seconds.getD 0) })) := by
  cases hd : ev.duration_seconds <;>
    (unfold ics_process_event; dsimp only; rw [hd]; dsimp only; rw [if_neg hg]) <;>
    simp

theorem ics_parsed_guard_iff (ev : ICSEvent) :
    isParsedICSEv ev = true ↔
      ¬(!pyTruthy (ics_parse_event_title ev.summary).1 ||
        !pyTruthy (ics_parse_event_title ev.summary).2.1) = true := by
  unfold isParsedICSEv
  cases pyTruthy (ics_parse_event_title ev.summary).1 <;>
    cases pyTruthy (ics_parse_event_title ev.summary).2.1 <;> simp

/-- Per-event counter bookkeeping for `_process_event`. -/
theorem ics_process_stats (st : ICSState) (ev : ICSEvent) :
    (ics_process_event st ev).stats.total_events = st.stats.total_events + 1 ∧
    (ics_process_event st ev).stats.wyklady + (ics_process_event st ev).stats.laboratoria +
      (ics_process_event st ev).stats.e_cw =
      st.stats.wyklady + st.stats.laboratoria + st.stats.e_cw +
        (if isParsedICSEv ev then 1 else 0) ∧
    (ics_process_event st ev).stats.inne = st.stats.inne +
      (if isParsedICSEv ev then 0 else 1) := by
  by_cases hg : (!pyTruthy (ics_parse_event_title ev.summary).1 ||
      !pyTruthy (ics_parse_event_title ev.summary).2.1) = true
  · have hp : isParsedICSEv ev = false := by
      unfold isParsedICSEv
      rcases Bool.or_eq_true_iff.1 hg with h | h <;> simp_all
    rw [ics_process_unparsed hg, hp]
    simp
  · have hp : isParsedICSEv ev = true := (ics_parsed_guard_iff ev).2 hg
    have hb : pyTruthy (ics_parse_event_title ev.summary).2.1 = true := by
      by_contra hc
      simp_all
    rw [hp]
    rw [ics_process_parsed hg]
    dsimp only
    rw [ics_updateSubjectSets_stats]
    rcases ics_parse_etype_cases ev.summary with hty | hty | hty | hty
    · rw [hty] at hb
      exact absurd hb (by decide)
    · rw [hty, Option.getD_some, ics_updateTypeStats_stats_W]
      refine ⟨rfl, ?_, rfl⟩
      dsimp only
      simp only [if_true]
      omega
    · rw [hty, Option.getD_some, ics_updateTypeStats_stats_L]
      refine ⟨rfl, ?_, rfl⟩
      dsimp only
      simp only [if_true]
      omega
    · rw [hty, Option.getD_some, ics_updateTypeStats_stats_ECW]
      refine ⟨rfl, ?_, rfl⟩
      dsimp only
      simp only [if_true]
      omega

/-- Counter bookkeeping over a fold of `_process_event`, from any starting
state. -/
theorem ics_foldl_stats (evs : List ICSEvent) : ∀ st : ICSState,
    (evs.foldl ics_process_event st).stats.total_events =
      st.stats.total_events + evs.length ∧
    (evs.foldl ics_process_event st).stats.wyklady +
      (evs.foldl ics_process_event st).stats.laboratoria +
      (evs.foldl ics_process_event st).stats.e_cw =
      st.stats.wyklady + st.stats.laboratoria + st.stats.e_cw +
        (evs.filter isParsedICSEv).length ∧
    (evs.foldl ics_process_event st).stats.inne =
      st.stats.inne + (evs.filter (fun e => !isParsedICSEv e)).length := by
  induction evs with
  | nil => intro st; simp
  | cons e t ih =>
    intro st
    rw [List.foldl_cons]
    obtain ⟨i1, i2, i3⟩ := ih (ics_process_event st e)
    obtain ⟨p1, p2, p3⟩ := ics_process_stats st e
    cases hpe : isParsedICSEv e <;>
      rw [hpe] at p2 p3 <;>
      simp [List.filter_cons, hpe] at i1 i2 i3 p1 p2 p3 ⊢ <;>
      refine ⟨by omega, by omega, by omega⟩

theorem pyTruthy_some_getD {r? : Option String} (h : pyTruthy r? = true) :
    some (r?.getD "") = r? := by
  cases r? <;> simp_all [pyTruthy]

/-- The room stored in an itinerary entry recomputes to the on-campus
category. -/
theorem entryOf_room {ev : RawEvent} {e : ScheduleEntry} (h : entryOf ev = some e) :
    categorize_location (some e.room) = LocCat.uczelnia := by
  unfold entryOf at h
  dsimp only at h
  split at h
  · cases h
  · split at h
    · next hc =>
      cases h
      dsimp only
      rw [pyTruthy_some_getD hc.2.2]
      exact hc.1
    · cases h

/-- **C1.** For every sequence of raw events fed to a freshly constructed
aggregator (either `SimpleICSAnalyzer` or `ICSAnalyzer`), after all update
calls the total-events counter equals the number of events fed in, the sum
of the three per-type counters plus the unparsed counter equals the
total-events counter, and the sum of the per-type counters equals the number
of events whose title parsed. -/
theorem C1_counter_invariant (evs : List RawEvent) (ievs : List ICSEvent) :
    ((evs.foldl process_simple_event initSimpleState).stats.total_events = evs.length ∧
     (evs.foldl process_simple_event initSimpleState).stats.wyklady +
       (evs.foldl process_simple_event initSimpleState).stats.laboratoria +
       (evs.foldl process_simple_event initSimpleState).stats.e_cw +
       (evs.foldl process_simple_event initSimpleState).stats.inne =
       (evs.foldl process_simple_event initSimpleState).stats.total_events ∧
     (evs.foldl process_simple_event initSimpleState).stats.wyklady +
       (evs.foldl process_simple_event initSimpleState).stats.laboratoria +
       (evs.foldl process_simple_event initSimpleState).stats.e_cw =
       (evs.filter isParsedEv).length) ∧
    ((ievs.foldl ics_process_event initICSState).stats.total_events = ievs.length ∧
     (ievs.foldl ics_process_event initICSState).stats.wyklady +
       (ievs.foldl ics_process_event initICSState).stats.laboratoria +
       (ievs.foldl ics_process_event initICSState).stats.e_cw +
       (ievs.foldl ics_process_event initICSState).stats.inne =
       (ievs.foldl ics_process_event initICSState).stats.total_events ∧
     (ievs.foldl ics_process_event initICSState).stats.wyklady +
       (ievs.foldl ics_process_event initICSState).stats.laboratoria +
       (ievs.foldl ics_process_event initICSState).stats.e_cw =
       (ievs.filter isParsedICSEv).length) := by
  obtain ⟨h1, h2, h3⟩ := foldl_stats evs initSimpleState
  obtain ⟨g1, g2, g3⟩ := ics_foldl_stats ievs initICSState
  have hl := length_filter_add_length_filter_not isParsedEv evs
  have gl := length_filter_add_length_filter_not isParsedICSEv ievs
  have z1 : initSimpleState.stats.total_events = 0 := rfl
  have z2 : initSimpleState.stats.wyklady = 0 := rfl
  have z3 : initSimpleState.stats.laboratoria = 0 := rfl
  have z4 : initSimpleState.stats.e_cw = 0 := rfl
  have z5 : initSimpleState.stats.inne = 0 := rfl
  have y1 : initICSState.stats.total_events = 0 := rfl
  have y2 : initICSState.stats.wyklady = 0 := rfl
  have y3 : initICSState.stats.laboratoria = 0 := rfl
  have y4 : initICSState.stats.e_cw = 0 := rfl
  have y5 : initICSState.stats.inne = 0 := rfl
  rw [z1] at h1
  rw [z2, z3, z4] at h2
  rw [z5] at h3
  rw [y1] at g1
  rw [y2, y3, y4] at g2
  rw [y5] at g3
  refine ⟨⟨by omega, by omega, by omega⟩, by omega, by omega, by omega⟩

/-- **C8.** An update with an event whose title is unparsed increments only
the total-events counter and the unparsed counter (by exactly one each) and
adds the event's duration to the total-minutes counter; every other piece of
aggregate state — per-type counters, per-location counters, the subject map,
per-type and per-location minute totals, and the on-campus itinerary — is
unchanged. -/
theorem C8_unparsed_frame (st : SimpleState) (ev : RawEvent)
    (h : isParsedEv ev = false) :
    process_simple_event st ev =
      { st with
        stats := { st.stats with
          total_events := st.stats.total_events + 1
          inne := st.stats.inne + 1 }
        time_stats := { st.time_stats with
          total_minutes := st.time_stats.total_minutes + eventDuration ev } } := by
  apply process_unparsed
  unfold isParsedEv at h
  cases ha : pyTruthy (parse_event_title ev.title).1 <;>
    cases hb : pyTruthy (parse_event_title ev.title).2.1 <;> simp_all

theorem C8_witness :
    isParsedEv ⟨"Losowy tekst bez formatu", "20251116T111500", "20251116T124500"⟩ = false ∧
    process_simple_event initSimpleState
        ⟨"Losowy tekst bez formatu", "20251116T111500", "20251116T124500"⟩ =
      { initSimpleState with
        stats := { initSimpleState.stats with total_events := 1, inne := 1 }
        time_stats := { initSimpleState.time_stats with total_minutes := 90 } } := by
  refine ⟨rfl, ?_⟩
  rw [C8_unparsed_frame initSimpleState
    ⟨"Losowy tekst bez formatu", "20251116T111500", "20251116T124500"⟩ rfl]
  rfl

/-- **C9.** After any sequence of update calls on a fresh aggregator, the
on-campus itinerary equals, in input order, the entries of exactly those
events whose location category was on-campus with a room and a start token
present (`List.filterMap entryOf`), and recomputing the location category
from each stored entry's room yields the on-campus category. -/
theorem C9_schedule_invariant (evs : List RawEvent) :
    (evs.foldl process_simple_event initSimpleState).uczelnia_schedule =
      evs.filterMap entryOf ∧
    ∀ e ∈ (evs.foldl process_simple_event initSimpleState).uczelnia_schedule,
      categorize_location (some e.room) = LocCat.uczelnia := by
  have h := foldl_schedule evs initSimpleState
  have hz : initSimpleState.uczelnia_schedule = [] := rfl
  rw [hz, List.nil_append] at h
  refine ⟨h, ?_⟩
  intro e he
  rw [h] at he
  obtain ⟨ev, _, heq⟩ := List.mem_filterMap.1 he
  exact entryOf_room heq

theorem C9_witness :
    categorize_location (some "Sala A101") = LocCat.uczelnia :=
  (C9_schedule_invariant
    [⟨"Bazy Danych (W) - Prowadzący: Jan Kowalski, Sala: Sala A101",
      "20251116T080000", "20251116T093000"⟩]).2
    { subject := "Bazy Danych", type := "W", instructor := some "Jan Kowalski",
      room := "Sala A101", start_time := "20251116T080000",
      end_time := "20251116T093000",
      title := "Bazy Danych (W) - Prowadzący: Jan Kowalski, Sala: Sala A101" }
    (by decide)

/-- **C10.** After any sequence of update calls on a fresh aggregator, the
three per-type minute totals and the two per-location minute totals each sum
to the durations of the parsed events, while the global total-minutes
counter also includes the durations of unparsed-title events; a single
unparsed 75-minute event makes the total strictly exceed both sums. -/
theorem C10_minutes_invariant (evs : List RawEvent) :
    ((evs.foldl process_simple_event initSimpleState).time_stats.wyklady_minutes +
       (evs.foldl process_simple_event initSimpleState).time_stats.laboratoria_minutes +
       (evs.foldl process_simple_event initSimpleState).time_stats.e_cw_minutes =
       sumDurParsed evs ∧
     (evs.foldl process_simple_event initSimpleState).time_stats.uczelnia_minutes +
       (evs.foldl process_simple_event initSimpleState).time_stats.zdalne_minutes =
       sumDurParsed evs ∧
     (evs.foldl process_simple_event initSimpleState).time_stats.total_minutes =
       sumDurParsed evs + sumDurUnparsed evs) ∧
    ([⟨"Losowy tekst bez formatu", "20251116T080000", "20251116T091500"⟩].foldl
        process_simple_event initSimpleState).time_stats.total_minutes = 75 ∧
    sumDurParsed [⟨"Losowy tekst bez formatu", "20251116T080000", "20251116T091500"⟩] = 0 := by
  obtain ⟨h1, h2, h3⟩ := foldl_minutes evs initSimpleState
  have hs := sumDur_split evs
  have w1 : initSimpleState.time_stats.total_minutes = 0 := rfl
  have w2 : initSimpleState.time_stats.wyklady_minutes = 0 := rfl
  have w3 : initSimpleState.time_stats.laboratoria_minutes = 0 := rfl
  have w4 : initSimpleState.time_stats.e_cw_minutes = 0 := rfl
  have w5 : initSimpleState.time_stats.uczelnia_minutes = 0 := rfl
  have w6 : initSimpleState.time_stats.zdalne_minutes = 0 := rfl
  rw [w1] at h1
  rw [w2, w3, w4] at h2
  rw [w5, w6] at h3
  exact ⟨⟨by omega, by omega, by omega⟩, by decide, by decide⟩

theorem splitsOf_complete : ∀ (a b : List Char), (a, b) ∈ splitsOf (a ++ b) := by
  intro a
  induction a with
  | nil =>
    intro b
    cases b with
    | nil => simp [splitsOf]
    | cons c t => simp [splitsOf]
  | cons c t ih =>
    intro b
    simp only [List.cons_append, splitsOf, List.mem_cons]
    right
    exact List.mem_map.2 ⟨(t, b), ih b, rfl⟩

theorem take_ws_of_le_countWs {s : List Char} {k : Nat} (hk : k ≤ countWs s) :
    ∀ c ∈ s.take k, isPySpace c = true := by
  intro c hc
  have h1 : s.take k = (s.takeWhile isPySpace).take k := by
    conv_lhs => rw [← List.takeWhile_append_dropWhile isPySpace s]
    rw [List.take_append_of_le_length hk]
  rw [h1] at hc
  exact List.mem_takeWhile_imp (List.take_subset k _ hc)

/-- Success decomposition of the lazy subject scan: the input splits into a
nonempty consumed part, a whitespace run, the opening parenthesis and the
rest handed to the continuation. -/
theorem scanSubject_decomp {α : Type} {after : List Char → List Char → Option α} :
    ∀ {s acc : List Char} {v : α}, scanSubject after acc s = some v →
      ∃ p w r2, s = p ++ w ++ '(' :: r2 ∧ p ≠ [] ∧
        (∀ c ∈ w, isPySpace c = true) ∧ after (acc.reverse ++ p) r2 = some v := by
  intro s
  induction s with
  | nil => intro acc v h; cases h
  | cons c rest ih =>
    intro acc v h
    rw [scanSubject_cons] at h
    split at h
    · cases h
    · split at h
      · next r2 heq =>
        split at h
        · next v2 hv =>
          cases h
          unfold dropWs at heq
          have hrest : rest = rest.takeWhile isPySpace ++ '(' :: r2 := by
            conv_lhs => rw [← List.takeWhile_append_dropWhile isPySpace rest]
            rw [heq]
          refine ⟨[c], rest.takeWhile isPySpace, r2, ?_, by simp, ?_, ?_⟩
          · rw [List.append_assoc, ← hrest]
            rfl
          · intro x hx
            exact List.mem_takeWhile_imp hx
          · rw [← List.reverse_cons]
            exact hv
        · obtain ⟨p, w, r2', hs, hp, hw, ha⟩ := ih h
          refine ⟨c :: p, w, r2', by rw [hs]; simp, by simp, hw, ?_⟩
          rw [show acc.reverse ++ (c :: p) = (c :: acc).reverse ++ p from by
            rw [List.reverse_cons, List.append_assoc]; rfl]
          exact ha
      · obtain ⟨p, w, r2', hs, hp, hw, ha⟩ := ih h
        refine ⟨c :: p, w, r2', by rw [hs]; simp, by simp, hw, ?_⟩
        rw [show acc.reverse ++ (c :: p) = (c :: acc).reverse ++ p from by
          rw [List.reverse_cons, List.append_assoc]; rfl]
        exact ha

/-- Success decomposition of the lazy instructor scan: the input splits at a
comma whose rest parses as the room part, and the accumulated group is
nonempty. -/
theorem scanInstr_decomp : ∀ {l acc i rm : List Char},
    scanInstr acc l = some (i, rm) →
      ∃ a b, l = a ++ ',' :: b ∧ i = acc.reverse ++ a ∧
        acc.reverse ++ a ≠ [] ∧ roomPart b = some rm := by
  intro l
  induction l with
  | nil => intro acc i rm h; cases h
  | cons c rest ih =>
    intro acc i rm h
    rw [scanInstr_cons] at h
    split at h
    · next hc =>
      split at h
      · next room hr =>
        cases h
        refine ⟨[], rest, ?_, by simp, ?_, hr⟩
        · rw [hc.1]
          rfl
        · simpa using (List.reverse_eq_nil_iff.not.2 hc.2)
      · obtain ⟨a, b, hl, hi, hne, hrp⟩ := ih h
        refine ⟨c :: a, b, by rw [hl]; rfl, ?_, ?_, hrp⟩
        · rw [hi, List.reverse_cons, List.append_assoc]
          rfl
        · rw [show acc.reverse ++ (c :: a) = (c :: acc).reverse ++ a from by
            rw [List.reverse_cons, List.append_assoc]; rfl]
          exact hne
    · split at h
      · cases h
      · obtain ⟨a, b, hl, hi, hne, hrp⟩ := ih h
        refine ⟨c :: a, b, by rw [hl]; rfl, ?_, ?_, hrp⟩
        · rw [hi, List.reverse_cons, List.append_assoc]
          rfl
        · rw [show acc.reverse ++ (c :: a) = (c :: acc).reverse ++ a from by
            rw [List.reverse_cons, List.append_assoc]; rfl]
          exact hne

theorem instrRoomAux_decomp {s : List Char} {v : List Char × List Char} :
    ∀ j : Nat, instrRoomAux s j = some v →
      ∃ k, k ≤ j ∧ scanInstr [] (s.drop k) = some v := by
  intro j
  induction j with
  | zero => intro h; exact ⟨0, Nat.le_refl 0, h⟩
  | succ n ih =>
    intro h
    unfold instrRoomAux at h
    split at h
    · next heq =>
      cases h
      exact ⟨n + 1, Nat.le_refl _, heq⟩
    · obtain ⟨k, hk, hs⟩ := ih h
      exact ⟨k, Nat.le_succ_of_le hk, hs⟩

/-- Success decomposition of the greedy `\s*` before the instructor group. -/
theorem instrRoom_decomp {s : List Char} {v : List Char × List Char}
    (h : instrRoom s = some v) :
    ∃ w l, s = w ++ l ∧ (∀ c ∈ w, isPySpace c = true) ∧
      scanInstr [] l = some v := by
  obtain ⟨k, hk, hs⟩ := instrRoomAux_decomp (countWs s) h
  exact ⟨s.take k, s.drop k, (List.take_append_drop k s).symm,
    take_ws_of_le_countWs hk, hs⟩

theorem fullSuffix_decomp {s i rm : List Char} (h : fullSuffix s = some (i, rm)) :
    ∃ s2 s3, dropWs s = '-' :: s2 ∧
      matchLit "Prowadzący:".toList (dropWs s2) = some s3 ∧
      instrRoom s3 = some (i, rm) := by
  unfold fullSuffix at h
  split at h
  · next s2 heq =>
    split at h
    · next s3 hm => exact ⟨s2, s3, heq, hm, h⟩
    · cases h
  · cases h

theorem roomPart_decomp {b rm : List Char} (h : roomPart b = some rm) :
    ∃ r8, matchLit "Sala:".toList (dropWs b) = some r8 ∧ r8 ≠ [] := by
  unfold roomPart at h
  split at h
  · next r8 hm =>
    refine ⟨r8, hm, ?_⟩
    intro hnil
    rw [hnil, show roomAfter ([] : List Char) = none from rfl] at h
    cases h
  · cases h

theorem tagP1_decomp {s : List Char} {ty : String} {r : List Char}
    (h : tagP1 s = some (ty, r)) :
    ∃ tag, tag ∈ sixTags ∧ matchLit (tag ++ [')']) s = some r := by
  unfold tagP1 at h
  split at h
  · next heq => cases h; exact ⟨"W".toList, by decide, heq⟩
  · split at h
    · next heq => cases h; exact ⟨"L".toList, by decide, heq⟩
    · split at h
      · next heq => cases h; exact ⟨"E-CW".toList, by decide, heq⟩
      · cases h

theorem specSala_of {b r8 : List Char}
    (hm : matchLit "Sala:".toList (dropWs b) = some r8) (hne : r8 ≠ []) :
    specSala b = true := by
  unfold specSala
  rw [hm]
  cases r8 with
  | nil => exact absurd rfl hne
  | cons x xs => rfl

theorem specComma_eq (b : List Char) : specComma (',' :: b) = specSala b := rfl

theorem specInstr_of {r5 q1 q2 : List Char} (hs : r5 = q1 ++ q2) (hq1 : q1 ≠ [])
    (hc : specComma q2 = true) : specInstr r5 = true := by
  unfold specInstr
  rw [List.any_eq_true]
  refine ⟨(q1, q2), by rw [hs]; exact splitsOf_complete q1 q2, ?_⟩
  dsimp only
  rw [Bool.and_eq_true]
  refine ⟨?_, hc⟩
  cases q1 with
  | nil => exact absurd rfl hq1
  | cons x xs => rfl

theorem specProw_of {r4 r5 : List Char}
    (hm : matchLit "Prowadzący:".toList (dropWs r4) = some r5)
    (hi : specInstr r5 = true) : specProw r4 = true := by
  unfold specProw
  rw [hm]
  exact hi

theorem specSuffix_of {r3 s2 : List Char} (hd : dropWs r3 = '-' :: s2)
    (hp : specProw s2 = true) : specSuffix r3 = true := by
  unfold specSuffix
  rw [hd]
  exact hp

theorem specTagged_of {tag r2 r3 : List Char}
    (hm : matchLit (tag ++ [')']) r2 = some r3) (hs : specSuffix r3 = true) :
    specTagged tag r2 = true := by
  unfold specTagged
  rw [hm]
  exact hs

theorem specAfterParen_of {tag r2 : List Char} (ht : tag ∈ sixTags)
    (h : specTagged tag r2 = true) : specAfterParen r2 = true := by
  unfold specAfterParen
  rw [List.any_eq_true]
  exact ⟨tag, ht, h⟩

theorem specParen_of {s r2 : List Char} (hd : dropWs s = '(' :: r2)
    (h : specAfterParen r2 = true) : specParen s = true := by
  unfold specParen
  rw [hd]
  exact h

theorem specFullForm_of {t p q : List Char} (hs : t = p ++ q) (hp : p ≠ [])
    (h : specParen q = true) : specFullForm t = true := by
  unfold specFullForm
  rw [List.any_eq_true]
  refine ⟨(p, q), by rw [hs]; exact splitsOf_complete p q, ?_⟩
  dsimp only
  rw [Bool.and_eq_true]
  refine ⟨?_, h⟩
  cases p with
  | nil => exact absurd rfl hp
  | cons x xs => rfl

theorem specTaggedPre_of {tag r2 r3 : List Char}
    (hm : matchLit (tag ++ [')']) r2 = some r3) : specTaggedPre tag r2 = true := by
  unfold specTaggedPre
  rw [hm]

theorem specAfterParenPre_of {tag r2 : List Char} (ht : tag ∈ sixTags)
    (h : specTaggedPre tag r2 = true) : specAfterParenPre r2 = true := by
  unfold specAfterParenPre
  rw [List.any_eq_true]
  exact ⟨tag, ht, h⟩

theorem specParenPre_of {s r2 : List Char} (hd : dropWs s = '(' :: r2)
    (h : specAfterParenPre r2 = true) : specParenPre s = true := by
  unfold specParenPre
  rw [hd]
  exact h

theorem specShortFormPre_of {t p q : List Char} (hs : t = p ++ q) (hp : p ≠ [])
    (h : specParenPre q = true) : specShortFormPre t = true := by
  unfold specShortFormPre
  rw [List.any_eq_true]
  refine ⟨(p, q), by rw [hs]; exact splitsOf_complete p q, ?_⟩
  dsimp only
  rw [Bool.and_eq_true]
  refine ⟨?_, h⟩
  cases p with
  | nil => exact absurd rfl hp
  | cons x xs => rfl

/-- A successful full-form suffix match satisfies the spec's suffix
grammar. -/
theorem specSuffix_of_fullSuffix {r3 i rm : List Char}
    (h : fullSuffix r3 = some (i, rm)) : specSuffix r3 = true := by
  obtain ⟨s2, s3, hd, hpl, hir⟩ := fullSuffix_decomp h
  obtain ⟨wk, l, hs3, hwk, hsc⟩ := instrRoom_decomp hir
  obtain ⟨a, b, hl, hi, hne, hrp⟩ := scanInstr_decomp hsc
  obtain ⟨r8, hs8, hr8⟩ := roomPart_decomp hrp
  refine specSuffix_of hd (specProw_of hpl ?_)
  have ha : a ≠ [] := by simpa using hne
  refine @specInstr_of s3 (wk ++ a) (',' :: b) ?_ ?_ ?_
  · rw [hs3, hl]
    exact (List.append_assoc wk a (',' :: b)).symm
  · intro hnil
    exact ha (List.append_eq_nil.1 hnil).2
  · rw [specComma_eq]
    exact specSala_of hs8 hr8

theorem afterFull1_spec {subj r2 : List Char}
    {v : List Char × String × List Char × List Char}
    (h : afterFull1 subj r2 = some v) : specAfterParen r2 = true := by
  unfold afterFull1 at h
  split at h
  · next ty r3 heq =>
    split at h
    · next i rm hfs =>
      obtain ⟨tag, htag, hm⟩ := tagP1_decomp heq
      exact specAfterParen_of htag (specTagged_of hm (specSuffix_of_fullSuffix hfs))
    · cases h
  · cases h

theorem afterFullLit_spec {tagLit subj r2 : List Char}
    {v : List Char × List Char × List Char} (htag : tagLit ∈ sixTags)
    (h : afterFullLit tagLit subj r2 = some v) : specAfterParen r2 = true := by
  unfold afterFullLit at h
  split at h
  · next r3 heq =>
    split at h
    · next i rm hfs =>
      exact specAfterParen_of htag (specTagged_of heq (specSuffix_of_fullSuffix hfs))
    · cases h
  · cases h

theorem afterSimple1_spec {subj r2 : List Char} {v : List Char × String}
    (h : afterSimple1 subj r2 = some v) : specAfterParenPre r2 = true := by
  unfold afterSimple1 at h
  split at h
  · next ty r3 heq =>
    obtain ⟨tag, htag, hm⟩ := tagP1_decomp heq
    exact specAfterParenPre_of htag (specTaggedPre_of hm)
  · cases h

theorem afterSimpleLit_spec {tagLit subj r2 : List Char} {v : List Char}
    (htag : tagLit ∈ sixTags) (h : afterSimpleLit tagLit subj r2 = some v) :
    specAfterParenPre r2 = true := by
  unfold afterSimpleLit at h
  split at h
  · next r3 heq => exact specAfterParenPre_of htag (specTaggedPre_of heq)
  · cases h

theorem scan_spec_full {α : Type} {after : List Char → List Char → Option α}
    {t : List Char} {v : α} (h : scanSubject after [] t = some v)
    (hspec : ∀ subj r2 v2, after subj r2 = some v2 → specAfterParen r2 = true) :
    specFullForm t = true := by
  obtain ⟨p, w, r2, ht, hp, hw, ha⟩ := scanSubject_decomp h
  refine @specFullForm_of t p (w ++ '(' :: r2) ?_ hp ?_
  · rw [ht, List.append_assoc]
  · refine specParen_of ?_ (hspec _ _ _ ha)
    rw [dropWs_append_of_all hw, dropWs_cons,
      if_neg (by decide : ¬ isPySpace '(' = true)]

theorem scan_spec_pre {α : Type} {after : List Char → List Char → Option α}
    {t : List Char} {v : α} (h : scanSubject after [] t = some v)
    (hspec : ∀ subj r2 v2, after subj r2 = some v2 → specAfterParenPre r2 = true) :
    specShortFormPre t = true := by
  obtain ⟨p, w, r2, ht, hp, hw, ha⟩ := scanSubject_decomp h
  refine @specShortFormPre_of t p (w ++ '(' :: r2) ?_ hp ?_
  · rw [ht, List.append_assoc]
  · refine specParenPre_of ?_ (hspec _ _ _ ha)
    rw [dropWs_append_of_all hw, dropWs_cons,
      if_neg (by decide : ¬ isPySpace '(' = true)]

/-- Soundness of `SimpleICSAnalyzer.parse_event_title` with respect to the
spec grammar: any parsed title matches the full form or (at least) begins
with the short form. -/
theorem parse_event_title_spec_sound (title : String)
    (h : parse_event_title title ≠ (none, none, none, none)) :
    specFullForm (pyStrip title.toList) = true ∨
    specShortFormPre (pyStrip title.toList) = true := by
  unfold parse_event_title at h
  dsimp only at h
  split at h
  · next heq =>
    exact Or.inl (scan_spec_full heq (fun subj r2 v2 hv => afterFull1_spec hv))
  · split at h
    · next heq =>
      exact Or.inl (scan_spec_full heq
        (fun subj r2 v2 hv => afterFullLit_spec (by decide) hv))
    · split at h
      · next heq =>
        exact Or.inl (scan_spec_full heq
          (fun subj r2 v2 hv => afterFullLit_spec (by decide) hv))
      · split at h
        · next heq =>
          exact Or.inl (scan_spec_full heq
            (fun subj r2 v2 hv => afterFullLit_spec (by decide) hv))
        · split at h
          · next heq =>
            exact Or.inr (scan_spec_pre heq
              (fun subj r2 v2 hv => afterSimple1_spec hv))
          · split at h
            · next heq =>
              exact Or.inr (scan_spec_pre heq
                (fun subj r2 v2 hv => afterSimpleLit_spec (by decide) hv))
            · split at h
              · next heq =>
                exact Or.inr (scan_spec_pre heq
                  (fun subj r2 v2 hv => afterSimpleLit_spec (by decide) hv))
              · split at h
                · next heq =>
                  exact Or.inr (scan_spec_pre heq
                    (fun subj r2 v2 hv => afterSimpleLit_spec (by decide) hv))
                · exact absurd rfl h

/-- Soundness of `ICSAnalyzer.parse_event_title` with respect to the spec
grammar. -/
theorem ics_parse_event_title_spec_sound (title : String)
    (h : ics_parse_event_title title ≠ (none, none, none, none)) :
    specFullForm (pyStrip title.toList) = true ∨
    specShortFormPre (pyStrip title.toList) = true := by
  unfold ics_parse_event_title at h
  dsimp only at h
  split at h
  · next heq =>
    exact Or.inl (scan_spec_full heq (fun subj r2 v2 hv => afterFull1_spec hv))
  · split at h
    · next heq =>
      exact Or.inr (scan_spec_pre heq
        (fun subj r2 v2 hv => afterSimple1_spec hv))
    · exact absurd rfl h

/-- **C7, counterexample.** The title `"Foo (W) xyz"` matches neither the
spec's full form nor its (exact) short form, yet both parsers return a
parsed (non-Unparsed) result for it: the code accepts any title that merely
begins with the short form. -/
theorem C7_counterexample :
    specFullForm (pyStrip "Foo (W) xyz".toList) = false ∧
    specShortForm (pyStrip "Foo (W) xyz".toList) = false ∧
    parse_event_title "Foo (W) xyz" ≠ (none, none, none, none) ∧
    ics_parse_event_title "Foo (W) xyz" ≠ (none, none, none, none) := by
  exact ⟨rfl, rfl, by decide, by decide⟩

/-- **C7, amended.** What both parsers actually guarantee: every title whose
parse result is not the Unparsed outcome matches the spec's full form or
begins with the short form `<subject> ( <tag> )` (possibly with trailing
text, which the spec's exact short form forbids); equivalently, a title
matching neither the full form nor the short-form prefix is always
classified Unparsed, never an exception. -/
theorem C7_amended :
    (∀ title : String, parse_event_title title ≠ (none, none, none, none) →
      specFullForm (pyStrip title.toList) = true ∨
      specShortFormPre (pyStrip title.toList) = true) ∧
    (∀ title : String, ics_parse_event_title title ≠ (none, none, none, none) →
      specFullForm (pyStrip title.toList) = true ∨
      specShortFormPre (pyStrip title.toList) = true) :=
  ⟨parse_event_title_spec_sound, ics_parse_event_title_spec_sound⟩

theorem C7_witness :
    parse_event_title "Foo (W) xyz" ≠ (none, none, none, none) ∧
    (specFullForm (pyStrip "Foo (W) xyz".toList) = true ∨
     specShortFormPre (pyStrip "Foo (W) xyz".toList) = true) :=
  ⟨by decide, C7_amended.1 "Foo (W) xyz" (by decide)⟩
